import Mathlib

/-!
# Metaspace chunks and the G1 collection-set chooser

A shallow embedding of

* `src/hotspot/share/memory/metaspace/metachunk.cpp` (the bump allocator of a
  `Metachunk`), and
* `src/hotspot/share/gc/g1/collectionSetChooser.hpp` (the inline members of
  `CollectionSetChooser`),

followed by the properties proved about them.

Conventions.  The target is LP64: pointers and `size_t` are 64-bit unsigned
values, `uint` is 32-bit unsigned, and a `MetaWord` is 8 bytes.  A pointer is
the natural number of its byte address, `NULL` is `0`, and every machine
operation that can wrap is written with an explicit `% 2 ^ 64` or `% 2 ^ 32`.
A member function that mutates its object returns the new object next to its
C++ result.
-/

set_option autoImplicit false

/-! ## Part 1: definitions -/

namespace metaspace

/-- The null pointer. -/
def NULL : Nat := 0

/-- Size of a pointer-sized machine word in bytes (`BytesPerWord`, LP64). -/
def BytesPerWord : Nat := 8

/-- The value of `sizeof(MetaWord)`: a `MetaWord` is one machine word. -/
def sizeof_MetaWord : Nat := BytesPerWord

/-- Declarations of `metachunk.hpp` on which `metachunk.cpp` depends and whose
values are fixed outside the translated sources; they are parameters of the
embedding. -/
structure MetachunkDecls where
  /-- The value of `sizeof(Metachunk)`, in bytes. -/
  sizeof_Metachunk : Nat
  /-- The enumerator `CHUNK_SENTINEL`. -/
  CHUNK_SENTINEL : Nat
  /-- The enumerator `origin_normal` of `ChunkOrigin`. -/
  origin_normal : Nat
deriving DecidableEq, Repr

/-- Modelled from the spec: `pointer_delta(left, right, element_size)` of
`utilities/globalDefinitions.hpp`, the distance between two pointers in
elements: the unsigned difference of the two addresses divided by the element
size.  Sizes are "derived, not stored; computed from top/bottom/end each
call". -/
def pointer_delta (left right element_size : Nat) : Nat :=
  ((left + 2 ^ 64 - right) % 2 ^ 64) / element_size

/-- Modelled from the spec: `align_up(size, alignment)` of
`utilities/align.hpp`, the least multiple of `alignment` that is at least
`size` (the header size "including alignment"). -/
def align_up (size alignment : Nat) : Nat :=
  ((size + alignment - 1) / alignment) * alignment

/-- The fields of a `Metachunk` (`_word_size` is inherited from `Metabase`),
together with the address at which the chunk header lives. -/
structure Metachunk where
  /-- Address of the chunk header: the C++ `this` pointer. -/
  this_addr : Nat
  _word_size : Nat
  _container : Nat
  _top : Nat
  _sentinel : Nat
  _chunk_type : Nat
  _is_class : Bool
  _is_tagged_free : Bool
  _origin : Nat
  _use_count : Int
deriving DecidableEq, Repr

/-- `Metachunk::object_alignment()`. -/
def Metachunk.object_alignment : Nat :=
  let alignment := 8
  alignment

/-- `Metachunk::overhead()`: the header size in words. -/
def Metachunk.overhead (d : MetachunkDecls) : Nat :=
  align_up d.sizeof_Metachunk Metachunk.object_alignment / BytesPerWord

/-- Modelled from the spec: `Metachunk::word_size()` of `metachunk.hpp`, the
stored word size of the chunk. -/
def Metachunk.word_size (c : Metachunk) : Nat :=
  c._word_size

/-- Modelled from the spec: `Metachunk::bottom()` of `metachunk.hpp`; "_bottom
points to the start of the chunk including the overhead", that is, to the
chunk header itself. -/
def Metachunk.bottom (c : Metachunk) : Nat :=
  c.this_addr

/-- Modelled from the spec: `Metabase::end()` of `metabase.hpp`, the address
`word_size()` words past the start of the chunk. -/
def Metachunk.end_ (c : Metachunk) : Nat :=
  (c.this_addr + c.word_size * sizeof_MetaWord) % 2 ^ 64

/-- Modelled from the spec: `Metachunk::initial_top()` of `metachunk.hpp`, the
first payload word: `overhead()` words past the start of the chunk. -/
def Metachunk.initial_top (d : MetachunkDecls) (c : Metachunk) : Nat :=
  (c.this_addr + Metachunk.overhead d * sizeof_MetaWord) % 2 ^ 64

/-- Modelled from the spec: `Metachunk::set_is_tagged_free(bool)` of
`metachunk.hpp`, the setter of the tagged-free flag. -/
def Metachunk.set_is_tagged_free (c : Metachunk) (v : Bool) : Metachunk :=
  { c with _is_tagged_free := v }

/-- Modelled from the spec: `Metachunk::is_tagged_free()` of `metachunk.hpp`. -/
def Metachunk.is_tagged_free (c : Metachunk) : Bool :=
  c._is_tagged_free

/-- `Metachunk::used_word_size()`. -/
def Metachunk.used_word_size (c : Metachunk) : Nat :=
  pointer_delta c._top c.bottom sizeof_MetaWord

/-- `Metachunk::free_word_size()`. -/
def Metachunk.free_word_size (c : Metachunk) : Nat :=
  pointer_delta c.end_ c._top sizeof_MetaWord

/-- `Metachunk::allocate(word_size)`: the returned pointer and the chunk
after the call.  `_top + word_size` is pointer arithmetic on a `MetaWord*`. -/
def Metachunk.allocate (c : Metachunk) (word_size : Nat) : Nat × Metachunk :=
  let result := NULL
  if c.free_word_size ≥ word_size then
    let result := c._top
    (result, { c with _top := (c._top + word_size * sizeof_MetaWord) % 2 ^ 64 })
  else
    (result, c)

/-- The constructor `Metachunk::Metachunk(chunktype, is_class, word_size,
container)` for a chunk placed at address `this_addr`, as far as the fields of
the header are concerned.  The member initialisers come first, then
`_top = initial_top()` and `set_is_tagged_free(false)`; `_is_tagged_free` has
no initialiser and is first written by that call.  (The `ASSERT`-only `mangle`
writes payload words only and `verify` writes nothing.) -/
def Metachunk.construct (d : MetachunkDecls) (this_addr chunktype : Nat)
    (is_class : Bool) (word_size container : Nat) : Metachunk :=
  let c0 : Metachunk :=
    { this_addr := this_addr
      _word_size := word_size
      _chunk_type := chunktype
      _is_class := is_class
      _sentinel := d.CHUNK_SENTINEL
      _origin := d.origin_normal
      _use_count := 0
      _top := NULL
      _container := container
      _is_tagged_free := false }
  let c1 : Metachunk := { c0 with _top := c0.initial_top d }
  c1.set_is_tagged_free false

/-- The chunks after each call of a sequence of `allocate` calls on one chunk,
in call order. -/
def Metachunk.allocate_seq (c : Metachunk) : List Nat → List Metachunk
  | [] => []
  | n :: ns => (c.allocate n).2 :: Metachunk.allocate_seq (c.allocate n).2 ns

/-- The pointers returned by a sequence of `allocate` calls on one chunk, in
call order. -/
def Metachunk.allocate_results (c : Metachunk) : List Nat → List Nat
  | [] => []
  | n :: ns => (c.allocate n).1 :: Metachunk.allocate_results (c.allocate n).2 ns

/-- The pointer ordering `bottom() <= _top && _top <= end()` that
`Metachunk::verify` asserts. -/
def Metachunk.top_in_bounds (c : Metachunk) : Prop :=
  c.bottom ≤ c._top ∧ c._top ≤ c.end_

instance (c : Metachunk) : Decidable c.top_in_bounds := by
  unfold Metachunk.top_in_bounds; infer_instance

/-- The chunk, `word_size()` words starting at `this`, lies inside the 64-bit
address space, so that computing `end()` does not wrap. -/
def Metachunk.fits_address_space (c : Metachunk) : Prop :=
  c.this_addr + c.word_size * sizeof_MetaWord < 2 ^ 64

instance (c : Metachunk) : Decidable c.fits_address_space := by
  unfold Metachunk.fits_address_space; infer_instance

/-- The chunk start and `_top` are word-aligned addresses, as every
`MetaWord*` is. -/
def Metachunk.pointers_aligned (c : Metachunk) : Prop :=
  c.this_addr % sizeof_MetaWord = 0 ∧ c._top % sizeof_MetaWord = 0

instance (c : Metachunk) : Decidable c.pointers_aligned := by
  unfold Metachunk.pointers_aligned; infer_instance

/-- The chunk of the allocation scenario: 40 words, a 16-byte (two-word)
header, placed at address 4096. -/
def scenario_decls : MetachunkDecls :=
  { sizeof_Metachunk := 16, CHUNK_SENTINEL := 0x4d4554EF, origin_normal := 1 }

/-- The freshly constructed chunk of the allocation scenario. -/
def scenario_chunk : Metachunk :=
  Metachunk.construct scenario_decls 4096 0 false 40 0

end metaspace

/-- Modelled from the spec: `HeapRegion` of `gc/g1/heapRegion.hpp`.  The
chooser "holds non-owning references to regions" and only makes "read-only
queries" on them (`reclaimable_bytes()`, live bytes, pinned, remembered-set
completeness), so a region is represented by the answers to those queries;
`hrm_index` tells regions apart. -/
structure HeapRegion where
  hrm_index : Nat
  reclaimable_bytes : Nat
  live_bytes : Nat
  is_pinned : Bool
  rem_set_is_complete : Bool
deriving DecidableEq, Repr

/-- The ways in which a member of `CollectionSetChooser` can fail to return:
an access outside `_regions` (the `GrowableArray` index check) or one of the
assertions of `pop` and `peek`, all fatal. -/
inductive ChooserFault where
  | index_out_of_bounds
  | assert_hr_not_null
  | assert_front_lt_end
  | assert_reclaimable_le_remaining
deriving DecidableEq, Repr

/-- The fields of a `CollectionSetChooser`.  A slot of `_regions` is a
`HeapRegion*`; `none` is `NULL`. -/
structure CollectionSetChooser where
  _regions : List (Option HeapRegion)
  _front : Nat
  _end : Nat
  _first_par_unreserved_idx : Nat
  _region_live_threshold_bytes : Nat
  _remaining_reclaimable_bytes : Nat
deriving DecidableEq, Repr

/-- Every field holds a value of its C++ type: `int` for the length of the
`GrowableArray`, `uint` for the indices, `size_t` for the byte counts. -/
def CollectionSetChooser.well_typed (c : CollectionSetChooser) : Prop :=
  c._regions.length < 2 ^ 31 ∧ c._front < 2 ^ 32 ∧ c._end < 2 ^ 32 ∧
    c._first_par_unreserved_idx < 2 ^ 32 ∧ c._region_live_threshold_bytes < 2 ^ 64 ∧
    c._remaining_reclaimable_bytes < 2 ^ 64

instance (c : CollectionSetChooser) : Decidable c.well_typed := by
  unfold CollectionSetChooser.well_typed; infer_instance

/-- `CollectionSetChooser::regions_at(i)`, that is `_regions.at((int) i)`: the
slot at index `i`, or a fault when `(int) i` is not an index of the array. -/
def CollectionSetChooser.regions_at (c : CollectionSetChooser) (i : Nat) :
    Except ChooserFault (Option HeapRegion) :=
  if i < 2 ^ 31 then
    match c._regions[i]? with
    | some slot => .ok slot
    | none => .error .index_out_of_bounds
  else
    .error .index_out_of_bounds

/-- `CollectionSetChooser::regions_at_put(i, hr)`, that is
`_regions.at_put((int) i, hr)`: the chooser with slot `i` overwritten, or a
fault when `(int) i` is not an index of the array. -/
def CollectionSetChooser.regions_at_put (c : CollectionSetChooser) (i : Nat)
    (hr : Option HeapRegion) : Except ChooserFault CollectionSetChooser :=
  if i < 2 ^ 31 ∧ i < c._regions.length then
    .ok { c with _regions := c._regions.set i hr }
  else
    .error .index_out_of_bounds

/-- `CollectionSetChooser::pop()`: the region returned and the chooser after
the call, or the fault that stops it. -/
def CollectionSetChooser.pop (c : CollectionSetChooser) :
    Except ChooserFault (HeapRegion × CollectionSetChooser) :=
  match c.regions_at c._front with
  | .error e => .error e
  | .ok none => .error .assert_hr_not_null
  | .ok (some hr) =>
    if ¬ c._front < c._end then .error .assert_front_lt_end
    else
      match c.regions_at_put c._front none with
      | .error e => .error e
      | .ok c1 =>
        if ¬ hr.reclaimable_bytes ≤ c1._remaining_reclaimable_bytes then
          .error .assert_reclaimable_le_remaining
        else
          let c2 : CollectionSetChooser :=
            { c1 with
              _remaining_reclaimable_bytes :=
                (c1._remaining_reclaimable_bytes + 2 ^ 64 - hr.reclaimable_bytes) % 2 ^ 64 }
          let c3 : CollectionSetChooser := { c2 with _front := (c2._front + 1) % 2 ^ 32 }
          .ok (hr, c3)

/-- `CollectionSetChooser::length()`. -/
def CollectionSetChooser.length (c : CollectionSetChooser) : Nat :=
  c._end

/-- `CollectionSetChooser::remaining_regions()`: `_end - _front` on `uint`. -/
def CollectionSetChooser.remaining_regions (c : CollectionSetChooser) : Nat :=
  (c._end + 2 ^ 32 - c._front) % 2 ^ 32

/-- `CollectionSetChooser::is_empty()`. -/
def CollectionSetChooser.is_empty (c : CollectionSetChooser) : Bool :=
  c.remaining_regions == 0

/-- `CollectionSetChooser::remaining_reclaimable_bytes()`. -/
def CollectionSetChooser.remaining_reclaimable_bytes (c : CollectionSetChooser) : Nat :=
  c._remaining_reclaimable_bytes

/-- The value of `reclaimable_bytes()` of the region in slot `i`; `0` when the
slot holds no region. -/
def CollectionSetChooser.reclaimable_at (c : CollectionSetChooser) (i : Nat) : Nat :=
  match c.regions_at i with
  | .ok (some hr) => hr.reclaimable_bytes
  | _ => 0

/-- The sum of `reclaimable_bytes()` over the regions at the indices
`[_front, _end)`. -/
def CollectionSetChooser.reclaimable_sum (c : CollectionSetChooser) : Nat :=
  ((List.range' c._front (c._end - c._front)).map c.reclaimable_at).sum

/-- Every slot at an index in `[_front, _end)` holds a region. -/
def CollectionSetChooser.active_non_null (c : CollectionSetChooser) : Prop :=
  ∀ i, c._front ≤ i → i < c._end → ∃ hr, c.regions_at i = .ok (some hr)

/-- Modelled from the spec: the drain loop of the collector driver, which is
outside the sources at hand and "calls `pop()` repeatedly ... until
`is_empty()`", that is `while (!is_empty()) pop();`.  It is run for at most
`fuel` calls of `pop` and gives the regions popped, in order, and the final
chooser; `none` when a `pop` faults or the chooser is not empty after `fuel`
pops. -/
def CollectionSetChooser.drain :
    Nat → CollectionSetChooser → Option (List HeapRegion × CollectionSetChooser)
  | 0, c => if c.is_empty then some ([], c) else none
  | fuel + 1, c =>
    if c.is_empty then some ([], c)
    else
      match c.pop with
      | .error _ => none
      | .ok (hr, c1) =>
        match CollectionSetChooser.drain fuel c1 with
        | none => none
        | some (popped, c2) => some (hr :: popped, c2)

/-- Region R1 of the chooser scenario: 500 reclaimable bytes. -/
def scenario_R1 : HeapRegion :=
  { hrm_index := 1, reclaimable_bytes := 500, live_bytes := 100, is_pinned := false,
    rem_set_is_complete := true }

/-- Region R2 of the chooser scenario: 1500 reclaimable bytes. -/
def scenario_R2 : HeapRegion :=
  { hrm_index := 2, reclaimable_bytes := 1500, live_bytes := 100, is_pinned := false,
    rem_set_is_complete := true }

/-- The chooser of the scenario after building and sorting: `[R2, R1]` with
2000 reclaimable bytes in total. -/
def scenario_chooser : CollectionSetChooser :=
  { _regions := [some scenario_R2, some scenario_R1], _front := 0, _end := 2,
    _first_par_unreserved_idx := 0, _region_live_threshold_bytes := 1000,
    _remaining_reclaimable_bytes := 2000 }

/-- `CollectionSetChooser::peek()`: the pointer returned (`none` is `NULL`)
and the chooser after the call, or the fault that stops it. -/
def CollectionSetChooser.peek (c : CollectionSetChooser) :
    Except ChooserFault (Option HeapRegion × CollectionSetChooser) :=
  let res : Option HeapRegion := none
  if c._front < c._end then
    match c.regions_at c._front with
    | .error e => .error e
    | .ok res => if res = none then .error .assert_hr_not_null else .ok (res, c)
  else
    .ok (res, c)

/-- The entries at `[_front, _end)` are in order of non-increasing
`reclaimable_bytes()`: every adjacent pair `i`, `i + 1` is. -/
def CollectionSetChooser.active_sorted (c : CollectionSetChooser) : Prop :=
  ∀ i, c._front ≤ i → i + 1 < c._end → c.reclaimable_at (i + 1) ≤ c.reclaimable_at i

/-- The regions returned by `n` successive calls of `pop()`, in call order,
and the chooser after the last of them, or the fault that stops one of them. -/
def CollectionSetChooser.pop_n :
    Nat → CollectionSetChooser → Except ChooserFault (List HeapRegion × CollectionSetChooser)
  | 0, c => .ok ([], c)
  | n + 1, c =>
    match c.pop with
    | .error e => .error e
    | .ok (hr, c1) =>
      match CollectionSetChooser.pop_n n c1 with
      | .error e => .error e
      | .ok (popped, c2) => .ok (hr :: popped, c2)

/-- `CollectionSetChooser::mixed_gc_live_threshold_bytes()`, with the globals
`HeapRegion::GrainBytes` (a `size_t`) and `G1MixedGCLiveThresholdPercent` (a
`uintx` flag) as parameters; the product is taken on `size_t`. -/
def CollectionSetChooser.mixed_gc_live_threshold_bytes
    (GrainBytes G1MixedGCLiveThresholdPercent : Nat) : Nat :=
  ((GrainBytes * (G1MixedGCLiveThresholdPercent % 2 ^ 64)) % 2 ^ 64) / 100

/-- Modelled from the spec: `CollectionSetChooser::should_add(hr)`, declared in
`collectionSetChooser.hpp` and defined outside the sources at hand: "a region
is added only if (i) not pinned, (ii) its live-byte count is below
`_region_live_threshold_bytes` ..., and (iii) it carries a complete remembered
set". -/
def CollectionSetChooser.should_add (c : CollectionSetChooser) (hr : HeapRegion) : Bool :=
  !hr.is_pinned && decide (hr.live_bytes < c._region_live_threshold_bytes) &&
    hr.rem_set_is_complete

/-- The key of the chooser's order: `reclaimable_bytes()` of the region a slot
points to, `0` for a `NULL` slot. -/
def slot_reclaimable : Option HeapRegion → Nat
  | some hr => hr.reclaimable_bytes
  | none => 0

/-- Modelled from the spec: `CollectionSetChooser::sort_regions()`, declared in
`collectionSetChooser.hpp` and defined outside the sources at hand: it "orders
the active sub-sequence by descending reclaimable-byte yield", "with ties
broken by insertion/claim order (stable sort)".  The slots before `_front` and
from `_end` on stay where they are. -/
def CollectionSetChooser.sort_regions (c : CollectionSetChooser) : CollectionSetChooser :=
  let active := (c._regions.drop c._front).take (c._end - c._front)
  let sorted := active.insertionSort (fun a b => slot_reclaimable b ≤ slot_reclaimable a)
  { c with
    _regions := c._regions.take c._front ++ sorted ++ c._regions.drop (c._front + active.length) }

/-- Modelled from the spec: `CollectionSetChooser::claim_array_chunk(chunk_size)`,
declared in `collectionSetChooser.hpp` and defined outside the sources at
hand: "an atomic fetch-and-add over a shared cursor
(`_first_par_unreserved_idx`)".  The call is one atomic step: it returns the
first index of the claimed chunk, the old cursor, and leaves the cursor
advanced by `chunk_size` on `uint`. -/
def CollectionSetChooser.claim_array_chunk (c : CollectionSetChooser) (chunk_size : Nat) :
    Nat × CollectionSetChooser :=
  (c._first_par_unreserved_idx,
    { c with _first_par_unreserved_idx := (c._first_par_unreserved_idx + chunk_size) % 2 ^ 32 })

/-- Concurrent `claim_array_chunk(k)` calls by the workers named in
`schedule`, one call per entry.  Each call is a single atomic update of the
cursor, so the calls take effect one after the other in some order; `schedule`
is that order.  The result pairs every worker with the index it was given, in
that order, and gives the chooser after all calls. -/
def CollectionSetChooser.claim_all (k : Nat) :
    CollectionSetChooser → List Nat → List (Nat × Nat) × CollectionSetChooser
  | c, [] => ([], c)
  | c, worker :: schedule =>
    let r := CollectionSetChooser.claim_all k (c.claim_array_chunk k).2 schedule
    ((worker, (c.claim_array_chunk k).1) :: r.1, r.2)

/-- The calls that a `CSetChooserParUpdater` makes on its `_chooser`, with
their arguments. -/
inductive ChooserCall where
  | claim_array_chunk (chunk_size : Nat)
  | set_region (index : Nat) (hr : HeapRegion)
  | add_region (hr : HeapRegion)
  | update_totals (region_num : Nat) (reclaimable_bytes : Nat)
deriving DecidableEq, Repr

/-- Whether a call is a `claim_array_chunk` call. -/
def ChooserCall.is_claim : ChooserCall → Bool
  | .claim_array_chunk _ => true
  | _ => false

/-- Whether a call is an `update_totals` call. -/
def ChooserCall.is_update_totals : ChooserCall → Bool
  | .update_totals _ _ => true
  | _ => false

/-- The arguments of a `set_region` call. -/
def ChooserCall.set_region_args : ChooserCall → Option (Nat × HeapRegion)
  | .set_region index hr => some (index, hr)
  | _ => none

/-- The failed assertion of `CSetChooserParUpdater::add_region`. -/
inductive UpdaterFault where
  | assert_cur_chunk_idx_lt_cur_chunk_end
deriving DecidableEq, Repr

/-- The fields of a `CSetChooserParUpdater`, without the `_chooser` pointer:
the calls made through it are recorded as `ChooserCall`s instead. -/
structure CSetChooserParUpdater where
  _parallel : Bool
  _chunk_size : Nat
  _cur_chunk_idx : Nat
  _cur_chunk_end : Nat
  _regions_added : Nat
  _reclaimable_bytes_added : Nat
deriving DecidableEq, Repr

/-- The constructor `CSetChooserParUpdater(chooser, parallel, chunk_size)`. -/
def CSetChooserParUpdater.construct (parallel : Bool) (chunk_size : Nat) :
    CSetChooserParUpdater :=
  { _parallel := parallel, _chunk_size := chunk_size, _cur_chunk_idx := 0, _cur_chunk_end := 0,
    _regions_added := 0, _reclaimable_bytes_added := 0 }

/-- The destructor `~CSetChooserParUpdater()`: the calls it makes on the
chooser. -/
def CSetChooserParUpdater.destruct (u : CSetChooserParUpdater) : List ChooserCall :=
  if u._parallel && decide (u._regions_added > 0) then
    [.update_totals u._regions_added u._reclaimable_bytes_added]
  else
    []

/-- `CSetChooserParUpdater::add_region(hr)`: the updater after the call and
the calls made on the chooser, in order, or the failed assertion.  `claimed`
is the value that `_chooser->claim_array_chunk(_chunk_size)` returns if this
call makes that call. -/
def CSetChooserParUpdater.add_region (u : CSetChooserParUpdater) (hr : HeapRegion)
    (claimed : Nat) : Except UpdaterFault (CSetChooserParUpdater × List ChooserCall) :=
  let finish (u1 : CSetChooserParUpdater) (calls : List ChooserCall) :
      Except UpdaterFault (CSetChooserParUpdater × List ChooserCall) :=
    let u2 : CSetChooserParUpdater := { u1 with _regions_added := (u1._regions_added + 1) % 2 ^ 32 }
    .ok ({ u2 with
            _reclaimable_bytes_added :=
              (u2._reclaimable_bytes_added + hr.reclaimable_bytes) % 2 ^ 64 }, calls)
  if u._parallel then
    let step1 : CSetChooserParUpdater × List ChooserCall :=
      if u._cur_chunk_idx = u._cur_chunk_end then
        let u1 : CSetChooserParUpdater := { u with _cur_chunk_idx := claimed }
        ({ u1 with _cur_chunk_end := (u1._cur_chunk_idx + u1._chunk_size) % 2 ^ 32 },
          [.claim_array_chunk u._chunk_size])
      else
        (u, [])
    if ¬ step1.1._cur_chunk_idx < step1.1._cur_chunk_end then
      .error .assert_cur_chunk_idx_lt_cur_chunk_end
    else
      finish { step1.1 with _cur_chunk_idx := (step1.1._cur_chunk_idx + 1) % 2 ^ 32 }
        (step1.2 ++ [.set_region step1.1._cur_chunk_idx hr])
  else
    finish u [.add_region hr]

/-- Successive `add_region` calls on one updater, one per region of the list.
`claims i` is the value returned by the updater's `i`-th `claim_array_chunk`
call (counted from 0) and `n_claims` the number of such calls made before.
The result is the updater after the calls, the number of `claim_array_chunk`
calls made so far, and all calls made on the chooser, in order. -/
def CSetChooserParUpdater.add_regions (claims : Nat → Nat) :
    CSetChooserParUpdater → Nat → List HeapRegion →
      Except UpdaterFault (CSetChooserParUpdater × Nat × List ChooserCall)
  | u, n_claims, [] => .ok (u, n_claims, [])
  | u, n_claims, hr :: hrs =>
    match u.add_region hr (claims n_claims) with
    | .error e => .error e
    | .ok (u1, calls) =>
      match CSetChooserParUpdater.add_regions claims u1
          (n_claims + (calls.filter ChooserCall.is_claim).length) hrs with
      | .error e => .error e
      | .ok (u2, n2, calls2) => .ok (u2, n2, calls ++ calls2)

/-- `CSetChooserParUpdater::should_add(hr)`, for an updater whose `_chooser`
points to `chooser`. -/
def CSetChooserParUpdater.should_add (_u : CSetChooserParUpdater)
    (chooser : CollectionSetChooser) (hr : HeapRegion) : Bool :=
  chooser.should_add hr

/-- The index that belongs to the `j`-th `add_region` call of a parallel
updater with chunk size `k`: `j mod k` past the value returned by the
updater's `floor(j / k)`-th claim. -/
def CSetChooserParUpdater.claimed_index (claims : Nat → Nat) (k j : Nat) : Nat :=
  claims (j / k) + j % k

/-- The state of a parallel updater with chunk size `k` after `j` calls of
`add_region` and `n` claims: either its current chunk is used up and `j` is
`n * k`, or it stands `r` entries into its last chunk, the one claimed by
claim number `q = n - 1`. -/
def CSetChooserParUpdater.chunk_invariant (claims : Nat → Nat) (k : Nat)
    (u : CSetChooserParUpdater) (n j : Nat) : Prop :=
  u._parallel = true ∧ u._chunk_size = k ∧
    ((u._cur_chunk_idx = u._cur_chunk_end ∧ j = n * k) ∨
      ∃ q r, n = q + 1 ∧ 0 < r ∧ r < k ∧ j = q * k + r ∧
        u._cur_chunk_idx = claims q + r ∧ u._cur_chunk_end = claims q + k)

/-- Region R3 of the chooser scenario: pinned. -/
def scenario_R3 : HeapRegion :=
  { hrm_index := 3, reclaimable_bytes := 800, live_bytes := 100, is_pinned := true,
    rem_set_is_complete := true }

/-- The chooser of the scenario before sorting: `[R1, R2]`. -/
def scenario_unsorted_chooser : CollectionSetChooser :=
  { scenario_chooser with _regions := [some scenario_R1, some scenario_R2] }

namespace metaspace

/-- Modelled from the spec: `OccupancyMap` of `memory/metaspace/occupancyMap.hpp`,
"a compact bitmap recording, per minimal allocation granule, whether a granule
starts a chunk and whether that chunk is in use", "organized at the
granularity of the smallest (Specialized) chunk size".  The map covers the
node's range from `_reference_address` on; each of the two layers gives one
bit per granule of `_smallest_chunk_word_size` words. -/
structure OccupancyMap where
  _reference_address : Nat
  _smallest_chunk_word_size : Nat
  chunk_start_map : Nat → Bool
  in_use_map : Nat → Bool

/-- Modelled from the spec: `OccupancyMap::get_bitpos_for_address(p)`, the
number of the granule that the word at address `p` lies in. -/
def OccupancyMap.get_bitpos_for_address (m : OccupancyMap) (p : Nat) : Nat :=
  pointer_delta p m._reference_address sizeof_MetaWord / m._smallest_chunk_word_size

/-- Modelled from the spec: `OccupancyMap::set_region_in_use(p, word_size, v)`,
which "updates the occupancy map's region-in-use bits for the chunk's full
word range": the in-use bits of the `word_size / _smallest_chunk_word_size`
granules starting at the granule of `p` are set to `v`. -/
def OccupancyMap.set_region_in_use (m : OccupancyMap) (p word_size : Nat) (v : Bool) :
    OccupancyMap :=
  let pos := m.get_bitpos_for_address p
  let num_bits := word_size / m._smallest_chunk_word_size
  { m with in_use_map := fun i => if pos ≤ i ∧ i < pos + num_bits then v else m.in_use_map i }

/-- Modelled from the spec: `OccupancyMap::is_region_in_use(p, word_size)`, the
`in_use_bit(map, chunk_range)` of the spec: whether an in-use bit is set among
the granules of the range of `word_size` words starting at `p`. -/
def OccupancyMap.is_region_in_use (m : OccupancyMap) (p word_size : Nat) : Bool :=
  (List.range' (m.get_bitpos_for_address p) (word_size / m._smallest_chunk_word_size)).any
    m.in_use_map

/-- `do_update_in_use_info_for_chunk(chunk, inuse)`: the chunk and the
occupancy map of its container, `chunk->container()->occupancy_map()`, after
the call. -/
def do_update_in_use_info_for_chunk (chunk : Metachunk) (ocmap : OccupancyMap) (inuse : Bool) :
    Metachunk × OccupancyMap :=
  let chunk1 := chunk.set_is_tagged_free (!inuse)
  (chunk1, ocmap.set_region_in_use chunk1.this_addr chunk1.word_size inuse)

/-- The occupancy map of the scenario: the node starts at address 4096, a
granule is 40 words, nothing is in use. -/
def scenario_ocmap : OccupancyMap :=
  { _reference_address := 4096, _smallest_chunk_word_size := 40,
    chunk_start_map := fun _ => false, in_use_map := fun _ => false }

end metaspace

namespace metaspace

/-- Declarations of `memory/metaspace/metaspaceCommon.hpp` on which
`Metachunk::verify` depends and which are fixed outside the translated
sources; they are parameters of the embedding. -/
structure ChunkTypeDecls where
  /-- The enumerator `SpecializedIndex` of `ChunkIndex`. -/
  SpecializedIndex : Nat
  /-- The enumerator `HumongousIndex` of `ChunkIndex`. -/
  HumongousIndex : Nat
  /-- The function `is_valid_chunktype(index)`. -/
  is_valid_chunktype : Nat → Bool
  /-- The function `is_valid_chunkorigin(origin)`. -/
  is_valid_chunkorigin : Nat → Bool
  /-- The function `get_size_for_nonhumongous_chunktype(chunk_type, is_class)`. -/
  get_size_for_nonhumongous_chunktype : Nat → Bool → Nat

/-- The assertions of `Metachunk::verify`, in source order. -/
inductive VerifyFault where
  | sentinel_invalid
  | invalid_chunk_type
  | wordsize_does_not_fit_chunk_type
  | invalid_chunk_origin
  | top_out_of_chunk_bounds
  | not_aligned
deriving DecidableEq, Repr

/-- Modelled from the spec: `Metachunk::is_valid_sentinel()` of `metachunk.hpp`:
the "sentinel value for corruption detection" still holds `CHUNK_SENTINEL`. -/
def Metachunk.is_valid_sentinel (d : MetachunkDecls) (c : Metachunk) : Bool :=
  c._sentinel == d.CHUNK_SENTINEL

/-- Modelled from the spec: `Metachunk::get_chunk_type()` of `metachunk.hpp`. -/
def Metachunk.get_chunk_type (c : Metachunk) : Nat :=
  c._chunk_type

/-- Modelled from the spec: `Metachunk::is_class()` of `metachunk.hpp`. -/
def Metachunk.is_class (c : Metachunk) : Bool :=
  c._is_class

/-- Modelled from the spec: `Metachunk::get_origin()` of `metachunk.hpp`. -/
def Metachunk.get_origin (c : Metachunk) : Nat :=
  c._origin

/-- Modelled from the spec: `Metachunk::get_use_count()` of `metachunk.hpp`. -/
def Metachunk.get_use_count (c : Metachunk) : Int :=
  c._use_count

/-- Modelled from the spec: `is_aligned(addr, alignment)` of
`utilities/align.hpp`: the address is a multiple of the alignment ("starting
address aligned to its own size"). -/
def is_aligned (addr alignment : Nat) : Bool :=
  addr % alignment == 0

/-- The local constant `required_alignment` of `Metachunk::verify`, a `size_t`
product. -/
def Metachunk.required_alignment (t : ChunkTypeDecls) (c : Metachunk) : Nat :=
  ((if c.get_chunk_type ≠ t.HumongousIndex then c.word_size
    else t.get_size_for_nonhumongous_chunktype t.SpecializedIndex c.is_class) *
      sizeof_MetaWord) % 2 ^ 64

/-- `Metachunk::verify()`: `.ok ()` when no assertion fires, otherwise the
first assertion that does. -/
def Metachunk.verify (d : MetachunkDecls) (t : ChunkTypeDecls) (c : Metachunk) :
    Except VerifyFault Unit :=
  if ¬ c.is_valid_sentinel d then .error .sentinel_invalid
  else
    let chunk_type := c.get_chunk_type
    if ¬ t.is_valid_chunktype chunk_type then .error .invalid_chunk_type
    else if chunk_type ≠ t.HumongousIndex ∧
        ¬ c.word_size = t.get_size_for_nonhumongous_chunktype chunk_type c.is_class then
      .error .wordsize_does_not_fit_chunk_type
    else if ¬ t.is_valid_chunkorigin c.get_origin then .error .invalid_chunk_origin
    else if ¬ (c.bottom ≤ c._top ∧ c._top ≤ c.end_) then .error .top_out_of_chunk_bounds
    else if ¬ is_aligned c.this_addr (c.required_alignment t) then .error .not_aligned
    else .ok ()

/-- The memory that holds the chunks: the content of the machine word at each
(byte) address. -/
abbrev WordMemory : Type := Nat → Nat

/-- A store of one machine word. -/
def WordMemory.store (m : WordMemory) (addr value : Nat) : WordMemory :=
  fun a => if a = addr then value else m a

/-- The word that `Copy::fill_to_words` stores for a 32-bit pattern: the
pattern in both halves of the 64-bit word. -/
def fill_pattern (value : Nat) : Nat :=
  (value % 2 ^ 32) * 2 ^ 32 + value % 2 ^ 32

/-- Modelled from the spec: `Copy::fill_to_words(to, count, value)` of
`utilities/copy.hpp`, which "fills the payload ... with a poison pattern":
the loop `while (count-- > 0) *to++ = v;` over `count` words starting at
`to_`. -/
def fill_to_words (m : WordMemory) (to_ : Nat) : Nat → Nat → WordMemory
  | 0, _ => m
  | count + 1, value =>
    fill_to_words (m.store to_ (fill_pattern value)) ((to_ + sizeof_MetaWord) % 2 ^ 64) count
      value

/-- `Metachunk::mangle(word_value)`: the memory after the call. -/
def Metachunk.mangle (d : MetachunkDecls) (c : Metachunk) (m : WordMemory) (word_value : Nat) :
    WordMemory :=
  let start := c.initial_top d
  let size := (c.word_size + 2 ^ 64 - Metachunk.overhead d) % 2 ^ 64
  fill_to_words m start size word_value

/-- The declarations of the scenario: chunk types 0 to 3 with Humongous last,
origins 1 to 5, and 40 words for every non-humongous type. -/
def scenario_types : ChunkTypeDecls :=
  { SpecializedIndex := 0, HumongousIndex := 3,
    is_valid_chunktype := fun i => decide (i ≤ 3),
    is_valid_chunkorigin := fun o => decide (1 ≤ o ∧ o ≤ 5),
    get_size_for_nonhumongous_chunktype := fun _ _ => 40 }

/-- A freshly constructed chunk of the scenario at an address that is a
multiple of its size in bytes. -/
def scenario_aligned_chunk : Metachunk :=
  Metachunk.construct scenario_decls 3200 0 false 40 0

end metaspace

namespace JNITypes

/-- The Java call argument slots that the pointer `to` points into, on 32-bit
ARM: one 32-bit value per slot, numbered relative to `to`. -/
abbrev SlotArray : Type := Int → Nat

/-- A store into one slot. -/
def SlotArray.store (slots : SlotArray) (index : Int) (value : Nat) : SlotArray :=
  fun i => if i = index then value else slots i

/-- Addition on `int`, the type of `pos`: 32 bits, two's complement. -/
def int_add (a b : Int) : Int :=
  (a + b + 2 ^ 31) % 2 ^ 32 - 2 ^ 31

/-- The `jint` array that `(jint *)&from` points to for a `jlong` with bit
pattern `v`, on a little-endian machine: the low half first. -/
def jlong_as_jints (v : Nat) : Nat → Nat :=
  fun i => if i = 0 then v % 2 ^ 32 else (v / 2 ^ 32) % 2 ^ 32

/-- `JNITypes::put_int2r(from, to)` (not `AARCH64`), with `to` pointing at slot
`to_`: `*(jint *)(to++) = from[1]; *(jint *)(to) = from[0];`. -/
def put_int2r (from_ : Nat → Nat) (slots : SlotArray) (to_ : Int) : SlotArray :=
  (slots.store to_ (from_ 1)).store (to_ + 1) (from_ 0)

/-- `JNITypes::put_int2r(from, to, pos)` (not `AARCH64`): the slots and `pos`
after the call. -/
def put_int2r_pos (from_ : Nat → Nat) (slots : SlotArray) (pos : Int) : SlotArray × Int :=
  (put_int2r from_ slots pos, int_add pos 2)

/-- `JNITypes::put_long(jlong from, to, pos)` (not `AARCH64`). -/
def put_long (from_ : Nat) (slots : SlotArray) (pos : Int) : SlotArray × Int :=
  put_int2r_pos (jlong_as_jints from_) slots pos

/-- `JNITypes::put_int(jint from, to, pos)`: `*(jint *)(to + pos++) = from;`. -/
def put_int (from_ : Nat) (slots : SlotArray) (pos : Int) : SlotArray × Int :=
  (slots.store pos from_, int_add pos 1)

end JNITypes

/-- The enumeration `AllocFailStrategy::AllocFailEnum`, the type `AllocFailType`. -/
inductive AllocFailType where
  | EXIT_OOM
  | RETURN_NULL
deriving DecidableEq, Repr

/-- How a call of `AllocateHeap` ends: it returns a pointer (`0` is `NULL`), or
`vm_exit_out_of_memory` ends the VM. -/
inductive AllocateHeapResult where
  | returned (p : Nat)
  | vm_exit_out_of_memory (size : Nat)
deriving DecidableEq, Repr

/-- `AllocateHeap(size, flags, stack, alloc_failmode)`, with `os::malloc` as a
parameter. -/
def AllocateHeap (os_malloc : Nat → Nat → Nat → Nat) (size flags stack : Nat)
    (alloc_failmode : AllocFailType) : AllocateHeapResult :=
  let p := os_malloc size flags stack
  if p = 0 ∧ alloc_failmode = AllocFailType.EXIT_OOM then
    .vm_exit_out_of_memory size
  else
    .returned p

/-- `AllocateHeap(size, flags, alloc_failmode)`, the overload without a call
stack: `return AllocateHeap(size, flags, CALLER_PC);`.  The call passes three
arguments, so the fourth takes its default, `AllocFailStrategy::EXIT_OOM`. -/
def AllocateHeap_no_stack (os_malloc : Nat → Nat → Nat → Nat) (CALLER_PC : Nat)
    (size flags : Nat) (_alloc_failmode : AllocFailType) : AllocateHeapResult :=
  AllocateHeap os_malloc size flags CALLER_PC AllocFailType.EXIT_OOM

/-- An `os::malloc` that fails. -/
def failing_malloc : Nat → Nat → Nat → Nat :=
  fun _ _ _ => 0

/-- The debug fields of a `ResourceObj`, `_allocation_t[0]` and
`_allocation_t[1]`, with the address of the object. -/
structure ResourceObj where
  this_addr : Nat
  _allocation_t_0 : Nat
  _allocation_t_1 : Nat
deriving DecidableEq, Repr

/-- The assertions of `set_allocation_type` and `get_allocation_type`. -/
inductive ResourceObjFault where
  | address_not_aligned
  | incorrect_allocation_type
  | lost_resource_object
deriving DecidableEq, Repr

/-- The enumerator `allocation_mask` of `ResourceObj::allocation_type`: the two
low bits ("address should be aligned to 4 bytes at least"). -/
def ResourceObj.allocation_mask : Nat := 0x3

/-- The enumerator `STACK_OR_EMBEDDED` of `ResourceObj::allocation_type`, its
first. -/
def ResourceObj.STACK_OR_EMBEDDED : Nat := 0

/-- The complement `~x` on `uintptr_t`. -/
def uintptr_not (x : Nat) : Nat :=
  2 ^ 64 - 1 - x % 2 ^ 64

/-- The value `(uintptr_t)&_allocation_t[1]`: the array is the only data
member of `ResourceObj`, so its second word lies one word past the start of
the object. -/
def ResourceObj.addr_of_allocation_t_1 (o : ResourceObj) : Nat :=
  (o.this_addr + 8) % 2 ^ 64

/-- `ResourceObj::set_allocation_type(res, type)` for the object at address
`res`: the object after the call, or the assertion that fails. -/
def ResourceObj.set_allocation_type (o : ResourceObj) (type : Nat) :
    Except ResourceObjFault ResourceObj :=
  let allocation := o.this_addr
  if ¬ (allocation &&& ResourceObj.allocation_mask) = 0 then .error .address_not_aligned
  else if ¬ type ≤ ResourceObj.allocation_mask then .error .incorrect_allocation_type
  else
    let o1 : ResourceObj := { o with _allocation_t_0 := uintptr_not ((allocation + type) % 2 ^ 64) }
    if type ≠ ResourceObj.STACK_OR_EMBEDDED then
      .ok { o1 with _allocation_t_1 := (o1.addr_of_allocation_t_1 + type) % 2 ^ 64 }
    else
      .ok o1

/-- `ResourceObj::get_allocation_type()`. -/
def ResourceObj.get_allocation_type (o : ResourceObj) : Except ResourceObjFault Nat :=
  if ¬ uintptr_not (o._allocation_t_0 ||| ResourceObj.allocation_mask) = o.this_addr then
    .error .lost_resource_object
  else
    .ok (uintptr_not o._allocation_t_0 &&& ResourceObj.allocation_mask)

/-- `ResourceObj::is_type_set()`. -/
def ResourceObj.is_type_set (o : ResourceObj) : Except ResourceObjFault Bool :=
  let type := o._allocation_t_1 &&& ResourceObj.allocation_mask
  match o.get_allocation_type with
  | .error e => .error e
  | .ok t =>
    .ok (decide (t = type) &&
      decide ((o._allocation_t_1 + 2 ^ 64 - type) % 2 ^ 64 = o.addr_of_allocation_t_1))

/-- The buffer that `socketRead0` reads into: the stack array `BUF` or a heap
block of `size` bytes at address `p`. -/
inductive ReadBuffer where
  | BUF
  | heap (p : Nat) (size : Nat)
deriving DecidableEq, Repr

/-- The capacity in bytes of the buffer in use; `BUF` is
`char BUF[MAX_BUFFER_LEN]`. -/
def ReadBuffer.capacity (MAX_BUFFER_LEN : Int) : ReadBuffer → Int
  | .BUF => MAX_BUFFER_LEN
  | .heap _ size => size

/-- The buffer selection of `Java_java_net_SocketInputStream_socketRead0`
(the statements between the `fd` checks and the read): the buffer `bufP` and
the `len` that are passed to `NET_Read` or `NET_ReadWithTimeout`.  The macros
`MAX_BUFFER_LEN` and `MAX_HEAP_BUFFER_LEN` and the outcome of `malloc` (`0` is
`NULL`) are parameters. -/
def socketRead0_select_buffer (MAX_BUFFER_LEN MAX_HEAP_BUFFER_LEN : Int) (malloc : Nat → Nat)
    (len : Int) : ReadBuffer × Int :=
  if len > MAX_BUFFER_LEN then
    let len1 := if len > MAX_HEAP_BUFFER_LEN then MAX_HEAP_BUFFER_LEN else len
    let size := (len1 % 2 ^ 64).toNat
    let bufP := malloc size
    if bufP = 0 then
      (ReadBuffer.BUF, MAX_BUFFER_LEN)
    else
      (ReadBuffer.heap bufP size, len1)
  else
    (ReadBuffer.BUF, len)

/-! ## Part 2: theorems -/

namespace metaspace

/-- With `_top <= end()` the free size is the plain byte distance in words. -/
theorem Metachunk.free_word_size_eq (c : Metachunk) (h : c._top ≤ c.end_) :
    c.free_word_size = (c.end_ - c._top) / 8 := by
  have he : c.end_ < 2 ^ 64 := Nat.mod_lt _ (by norm_num)
  unfold Metachunk.free_word_size pointer_delta sizeof_MetaWord BytesPerWord
  congr 1
  omega

/-- With `bottom() <= _top <= end()` the used size is the plain byte distance
in words. -/
theorem Metachunk.used_word_size_eq (c : Metachunk) (h : c.top_in_bounds) :
    c.used_word_size = (c._top - c.bottom) / 8 := by
  have he : c.end_ < 2 ^ 64 := Nat.mod_lt _ (by norm_num)
  obtain ⟨h1, h2⟩ := h
  unfold Metachunk.used_word_size pointer_delta sizeof_MetaWord BytesPerWord
  congr 1
  omega

/-- The two outcomes of `allocate`, as rewriting rules. -/
theorem Metachunk.allocate_of_le (c : Metachunk) (n : Nat) (h : n ≤ c.free_word_size) :
    c.allocate n = (c._top, { c with _top := (c._top + n * 8) % 2 ^ 64 }) := by
  simp [Metachunk.allocate, h, sizeof_MetaWord, BytesPerWord]

theorem Metachunk.allocate_of_lt (c : Metachunk) (n : Nat) (h : c.free_word_size < n) :
    c.allocate n = (NULL, c) := by
  simp [Metachunk.allocate, Nat.not_le.mpr h]

/-- A request that fits does not move `_top` past `end()`: the bump does not
wrap. -/
theorem Metachunk.bump_le_end (c : Metachunk) (n : Nat) (htop : c._top ≤ c.end_)
    (h : n ≤ c.free_word_size) : c._top + n * 8 ≤ c.end_ := by
  rw [Metachunk.free_word_size_eq c htop] at h
  omega

/-- `allocate` only ever writes `_top`. -/
theorem Metachunk.allocate_frame (c : Metachunk) (n : Nat) :
    (c.allocate n).2 = { c with _top := (c.allocate n).2._top } := by
  unfold Metachunk.allocate
  split <;> rfl

/-- One `allocate` call keeps `bottom() <= _top <= end()` and does not lower
`_top`. -/
theorem Metachunk.allocate_step (c : Metachunk) (n : Nat) (h : c.top_in_bounds) :
    (c.allocate n).2.top_in_bounds ∧ c._top ≤ (c.allocate n).2._top := by
  have he : c.end_ < 2 ^ 64 := Nat.mod_lt _ (by norm_num)
  obtain ⟨h1, h2⟩ := h
  by_cases hn : n ≤ c.free_word_size
  · have hb := Metachunk.bump_le_end c n h2 hn
    rw [Metachunk.allocate_of_le c n hn]
    have hmod : (c._top + n * 8) % 2 ^ 64 = c._top + n * 8 := Nat.mod_eq_of_lt (by omega)
    simp only [Metachunk.top_in_bounds, Metachunk.bottom, Metachunk.end_, Metachunk.word_size,
      hmod] at *
    omega
  · rw [Metachunk.allocate_of_lt c n (by omega)]
    exact ⟨⟨h1, h2⟩, le_refl _⟩

/-- C1: for a chunk (at a non-null address) with `bottom <= top <= end`,
`allocate(n)` returns a non-null pointer if and only if `n` is at most the
`free_word_size()` taken just before the call, and it returns `NULL` if and
only if `n` is larger than that. -/
theorem Metachunk.allocate_nonnull_iff (c : Metachunk) (n : Nat)
    (hthis : c.this_addr ≠ NULL) (hinv : c.top_in_bounds) :
    ((c.allocate n).1 ≠ NULL ↔ n ≤ c.free_word_size) ∧
      ((c.allocate n).1 = NULL ↔ c.free_word_size < n) := by
  obtain ⟨h1, _⟩ := hinv
  have htop : c._top ≠ NULL := by
    simp only [Metachunk.bottom, NULL] at *
    omega
  by_cases hn : n ≤ c.free_word_size
  · rw [Metachunk.allocate_of_le c n hn]
    exact ⟨⟨fun _ => hn, fun _ => htop⟩, ⟨fun h => absurd h htop, fun h => absurd hn (by omega)⟩⟩
  · rw [Metachunk.allocate_of_lt c n (by omega)]
    exact ⟨⟨fun h => absurd rfl h, fun h => absurd h hn⟩, ⟨fun _ => by omega, fun _ => rfl⟩⟩

/-- C2: for a chunk with `bottom <= top <= end` and a request `n` of at most
`free_word_size()` words, `allocate(n)` returns the old `top`, moves `top` by
exactly `n` words (`n * sizeof(MetaWord)` bytes, with no rounding and no
wrap-around), touches no other field, and so `used_word_size()` grows by
exactly `n` while `free_word_size()` shrinks by exactly `n`. -/
theorem Metachunk.allocate_bumps_exactly (c : Metachunk) (n : Nat)
    (hinv : c.top_in_bounds) (hn : n ≤ c.free_word_size) :
    (c.allocate n).1 = c._top ∧
      (c.allocate n).2 = { c with _top := c._top + n * sizeof_MetaWord } ∧
      (c.allocate n).2.used_word_size = c.used_word_size + n ∧
      (c.allocate n).2.free_word_size = c.free_word_size - n := by
  have he : c.end_ < 2 ^ 64 := Nat.mod_lt _ (by norm_num)
  have hstep := Metachunk.allocate_step c n hinv
  have hb := Metachunk.bump_le_end c n hinv.2 hn
  have hmod : (c._top + n * 8) % 2 ^ 64 = c._top + n * 8 := Nat.mod_eq_of_lt (by omega)
  rw [Metachunk.used_word_size_eq _ hstep.1, Metachunk.free_word_size_eq _ hstep.1.2,
    Metachunk.used_word_size_eq _ hinv, Metachunk.free_word_size_eq _ hinv.2]
  obtain ⟨h1, h2⟩ := hinv
  rw [Metachunk.allocate_of_le c n hn, hmod]
  simp only [Metachunk.bottom, Metachunk.end_, Metachunk.word_size, sizeof_MetaWord,
    BytesPerWord] at *
  refine ⟨trivial, trivial, ?_, ?_⟩ <;> omega

/-- C3: for a chunk with `bottom <= top <= end`, a request of exactly
`free_word_size()` words succeeds (the old `top` is returned and `top` moves
by that many words) and leaves `free_word_size() == 0`; when `top` and `end`
are word-aligned relative to each other, as `MetaWord*` values are, `top`
ends up equal to `end`. -/
theorem Metachunk.allocate_exact_fit (c : Metachunk) (hinv : c.top_in_bounds) :
    (c.allocate c.free_word_size).1 = c._top ∧
      (c.allocate c.free_word_size).2._top = c._top + c.free_word_size * sizeof_MetaWord ∧
      (c.allocate c.free_word_size).2.free_word_size = 0 ∧
      ((c.end_ - c._top) % sizeof_MetaWord = 0 →
        (c.allocate c.free_word_size).2._top = (c.allocate c.free_word_size).2.end_) := by
  have he : c.end_ < 2 ^ 64 := Nat.mod_lt _ (by norm_num)
  have hstep := Metachunk.allocate_step c c.free_word_size hinv
  have hb := Metachunk.bump_le_end c c.free_word_size hinv.2 (le_refl _)
  have hmod : (c._top + c.free_word_size * 8) % 2 ^ 64 = c._top + c.free_word_size * 8 :=
    Nat.mod_eq_of_lt (by omega)
  rw [Metachunk.free_word_size_eq _ hstep.1.2]
  have hf := Metachunk.free_word_size_eq c hinv.2
  obtain ⟨h1, h2⟩ := hinv
  rw [Metachunk.allocate_of_le c _ (le_refl _), hmod]
  simp only [Metachunk.bottom, Metachunk.end_, Metachunk.word_size, sizeof_MetaWord,
    BytesPerWord] at *
  refine ⟨trivial, trivial, ?_, fun hal => ?_⟩ <;> omega

/-- C4: for every chunk and every request `n` larger than `free_word_size()`,
`allocate(n)` returns `NULL` and the chunk is left exactly as it was, so
`top`, `used_word_size()` and `free_word_size()` are unchanged. -/
theorem Metachunk.allocate_too_large (c : Metachunk) (n : Nat) (hn : c.free_word_size < n) :
    (c.allocate n).1 = NULL ∧ (c.allocate n).2 = c ∧
      (c.allocate n).2._top = c._top ∧
      (c.allocate n).2.used_word_size = c.used_word_size ∧
      (c.allocate n).2.free_word_size = c.free_word_size := by
  rw [Metachunk.allocate_of_lt c n hn]
  exact ⟨rfl, rfl, rfl, rfl, rfl⟩

/-- One `allocate` call keeps the placement and the alignment of a chunk. -/
theorem Metachunk.allocate_layout (c : Metachunk) (n : Nat) (h : c.top_in_bounds)
    (hfit : c.fits_address_space) (hal : c.pointers_aligned) :
    (c.allocate n).2.fits_address_space ∧ (c.allocate n).2.pointers_aligned := by
  have he : c.end_ < 2 ^ 64 := Nat.mod_lt _ (by norm_num)
  by_cases hn : n ≤ c.free_word_size
  · have hb := Metachunk.bump_le_end c n h.2 hn
    rw [Metachunk.allocate_of_le c n hn]
    have hmod : (c._top + n * 8) % 2 ^ 64 = c._top + n * 8 := Nat.mod_eq_of_lt (by omega)
    simp only [Metachunk.fits_address_space, Metachunk.pointers_aligned, Metachunk.word_size,
      sizeof_MetaWord, BytesPerWord, hmod] at *
    omega
  · rw [Metachunk.allocate_of_lt c n (by omega)]
    exact ⟨hfit, hal⟩

/-- For a well-placed, aligned chunk with `bottom() <= _top <= end()`, used
and free words add up to the whole chunk, header included. -/
theorem Metachunk.used_add_free (c : Metachunk) (h : c.top_in_bounds)
    (hfit : c.fits_address_space) (hal : c.pointers_aligned) :
    c.used_word_size + c.free_word_size = c.word_size := by
  rw [Metachunk.used_word_size_eq c h, Metachunk.free_word_size_eq c h.2]
  simp only [Metachunk.top_in_bounds, Metachunk.fits_address_space, Metachunk.pointers_aligned,
    Metachunk.bottom, Metachunk.end_, Metachunk.word_size, sizeof_MetaWord, BytesPerWord] at *
  have hmod : (c.this_addr + c._word_size * 8) % 2 ^ 64 = c.this_addr + c._word_size * 8 :=
    Nat.mod_eq_of_lt hfit
  rw [hmod] at h ⊢
  omega

/-- `allocate` on a well-placed chunk whose `_top` is `a` bytes past its start,
when the request fits. -/
theorem Metachunk.allocate_at_offset (c : Metachunk) (a n : Nat)
    (hfit : c.this_addr + c._word_size * 8 < 2 ^ 64) (htop : c._top = c.this_addr + a)
    (ha : a + n * 8 ≤ c._word_size * 8) :
    c.allocate n = (c.this_addr + a, { c with _top := c.this_addr + (a + n * 8) }) := by
  have hend : c.end_ = c.this_addr + c._word_size * 8 := by
    simp only [Metachunk.end_, Metachunk.word_size, sizeof_MetaWord, BytesPerWord]
    exact Nat.mod_eq_of_lt hfit
  have hle : c._top ≤ c.end_ := by omega
  have hn : n ≤ c.free_word_size := by
    rw [Metachunk.free_word_size_eq c hle]
    omega
  rw [Metachunk.allocate_of_le c n hn, htop]
  have hmod : (c.this_addr + a + n * 8) % 2 ^ 64 = c.this_addr + (a + n * 8) := by
    rw [Nat.mod_eq_of_lt (by omega)]
    omega
  rw [hmod]

/-- `allocate` on a well-placed chunk whose `_top` is `a` bytes past its start,
when the request does not fit. -/
theorem Metachunk.allocate_at_offset_fail (c : Metachunk) (a n : Nat)
    (hfit : c.this_addr + c._word_size * 8 < 2 ^ 64) (htop : c._top = c.this_addr + a)
    (ha : a ≤ c._word_size * 8) (hn : (c._word_size * 8 - a) / 8 < n) :
    c.allocate n = (NULL, c) := by
  have hend : c.end_ = c.this_addr + c._word_size * 8 := by
    simp only [Metachunk.end_, Metachunk.word_size, sizeof_MetaWord, BytesPerWord]
    exact Nat.mod_eq_of_lt hfit
  have hle : c._top ≤ c.end_ := by omega
  apply Metachunk.allocate_of_lt
  rw [Metachunk.free_word_size_eq c hle]
  omega

/-- The free size of a well-placed chunk whose `_top` is `a` bytes past its
start. -/
theorem Metachunk.free_at_offset (c : Metachunk) (a : Nat)
    (hfit : c.this_addr + c._word_size * 8 < 2 ^ 64) (htop : c._top = c.this_addr + a)
    (ha : a ≤ c._word_size * 8) :
    c.free_word_size = (c._word_size * 8 - a) / 8 := by
  have hend : c.end_ = c.this_addr + c._word_size * 8 := by
    simp only [Metachunk.end_, Metachunk.word_size, sizeof_MetaWord, BytesPerWord]
    exact Nat.mod_eq_of_lt hfit
  rw [Metachunk.free_word_size_eq c (by omega)]
  omega

/-- C5: starting from a chunk with `bottom <= top <= end`, along every finite
sequence of `allocate` calls (any sizes, successful or not) `top` never
decreases from one call to the next, `bottom <= top <= end` holds after every
call, and `bottom` and `end` stay where they were. -/
theorem Metachunk.allocate_seq_monotone (c : Metachunk) (ns : List Nat)
    (hinv : c.top_in_bounds) :
    List.Chain (fun a b : Metachunk => a._top ≤ b._top) c (c.allocate_seq ns) ∧
      ∀ s ∈ c.allocate_seq ns, s.top_in_bounds ∧ s.bottom = c.bottom ∧ s.end_ = c.end_ := by
  induction ns generalizing c with
  | nil => exact ⟨List.Chain.nil, fun s hs => by simp [Metachunk.allocate_seq] at hs⟩
  | cons n ns ih =>
    have hstep := Metachunk.allocate_step c n hinv
    have hframe := Metachunk.allocate_frame c n
    have hb : (c.allocate n).2.bottom = c.bottom := by rw [hframe]; rfl
    have he : (c.allocate n).2.end_ = c.end_ := by rw [hframe]; rfl
    obtain ⟨ih1, ih2⟩ := ih (c.allocate n).2 hstep.1
    refine ⟨List.Chain.cons hstep.2 ih1, fun s hs => ?_⟩
    simp only [Metachunk.allocate_seq, List.mem_cons] at hs
    rcases hs with rfl | hs
    · exact ⟨hstep.1, hb, he⟩
    · obtain ⟨h1, h2, h3⟩ := ih2 s hs
      exact ⟨h1, h2.trans hb, h3.trans he⟩

/-- C6 (as stated, refuted): on the freshly constructed scenario chunk (40
words, two-word header), before and after each of two `allocate(10)` calls,
`used_word_size() + free_word_size()` is 40 and differs from
`word_size() - overhead()` = 38. -/
theorem Metachunk.used_add_free_ne_payload :
    scenario_chunk.top_in_bounds ∧
      ∀ s ∈ scenario_chunk :: scenario_chunk.allocate_seq [10, 10],
        s.used_word_size + s.free_word_size = 40 ∧
          s.word_size - Metachunk.overhead scenario_decls = 38 ∧
          s.used_word_size + s.free_word_size ≠
            s.word_size - Metachunk.overhead scenario_decls := by
  decide

/-- C6 (amended): for a chunk that lies inside the address space, has
word-aligned pointers and satisfies `bottom <= top <= end`, at every point of
any sequence of `allocate` calls `used_word_size() + free_word_size()` equals
`word_size()`: the header words count as used. -/
theorem Metachunk.used_add_free_eq_word_size (c : Metachunk) (ns : List Nat)
    (hinv : c.top_in_bounds) (hfit : c.fits_address_space) (hal : c.pointers_aligned) :
    ∀ s ∈ c :: c.allocate_seq ns, s.used_word_size + s.free_word_size = s.word_size := by
  induction ns generalizing c with
  | nil =>
    intro s hs
    simp only [Metachunk.allocate_seq, List.mem_singleton] at hs
    rw [hs]
    exact Metachunk.used_add_free c hinv hfit hal
  | cons n ns ih =>
    intro s hs
    simp only [Metachunk.allocate_seq, List.mem_cons] at hs
    rcases hs with rfl | hs
    · exact Metachunk.used_add_free s hinv hfit hal
    · have hstep := Metachunk.allocate_step c n hinv
      have hlay := Metachunk.allocate_layout c n hinv hfit hal
      exact ih (c.allocate n).2 hstep.1 hlay.1 hlay.2 s (List.mem_cons.mpr hs)

/-- C7 (as stated, refuted): on the freshly constructed scenario chunk (40
words, two-word header) with four `allocate(10)` calls, `free_word_size()` is
38, 28, 18, 8 and 8: it never reaches 0. -/
theorem Metachunk.four_allocs_free_never_zero :
    Metachunk.overhead scenario_decls = 2 ∧ scenario_chunk.word_size = 40 ∧
      (scenario_chunk.free_word_size ::
        (scenario_chunk.allocate_seq [10, 10, 10, 10]).map Metachunk.free_word_size) =
          [38, 28, 18, 8, 8] ∧
      0 ∉ (scenario_chunk.free_word_size ::
        (scenario_chunk.allocate_seq [10, 10, 10, 10]).map Metachunk.free_word_size) := by
  decide

/-- C7 (amended): on a freshly constructed chunk with word size 40 and an
overhead of 2 words, placed anywhere it fits, four successive `allocate(10)`
requests give three successes (non-null pointers 16, 96 and 176 bytes past the
chunk start) and then `NULL` on the fourth; `free_word_size()` is 38 at first
and 28, 18, 8, 8 after the four calls, so it stops at 8, short of the 10 words
asked for, and is never 0 and never negative. -/
theorem Metachunk.four_allocs_of_ten (d : MetachunkDecls) (this_addr chunktype : Nat)
    (is_class : Bool) (container : Nat) (hover : Metachunk.overhead d = 2)
    (hfit : this_addr + 40 * 8 < 2 ^ 64) :
    (Metachunk.construct d this_addr chunktype is_class 40 container).free_word_size = 38 ∧
      (Metachunk.construct d this_addr chunktype is_class 40 container).allocate_results
          [10, 10, 10, 10] = [this_addr + 16, this_addr + 96, this_addr + 176, NULL] ∧
      (∀ r ∈ [this_addr + 16, this_addr + 96, this_addr + 176], r ≠ NULL) ∧
      ((Metachunk.construct d this_addr chunktype is_class 40 container).allocate_seq
          [10, 10, 10, 10]).map Metachunk.free_word_size = [28, 18, 8, 8] := by
  have hc : Metachunk.construct d this_addr chunktype is_class 40 container =
      { this_addr := this_addr, _word_size := 40, _container := container,
        _top := this_addr + 16, _sentinel := d.CHUNK_SENTINEL, _chunk_type := chunktype,
        _is_class := is_class, _is_tagged_free := false, _origin := d.origin_normal,
        _use_count := 0 } := by
    simp only [Metachunk.construct, Metachunk.initial_top, Metachunk.set_is_tagged_free, hover,
      sizeof_MetaWord, BytesPerWord]
    congr 1
    exact Nat.mod_eq_of_lt (by omega)
  rw [hc]
  refine ⟨?_, ?_, ?_, ?_⟩
  · rw [Metachunk.free_at_offset _ 16 hfit rfl (by norm_num)]
    norm_num
  · simp only [Metachunk.allocate_results]
    rw [Metachunk.allocate_at_offset _ 16 10 hfit rfl (by norm_num)]
    rw [Metachunk.allocate_at_offset _ 96 10 hfit rfl (by norm_num)]
    rw [Metachunk.allocate_at_offset _ 176 10 hfit rfl (by norm_num)]
    rw [Metachunk.allocate_at_offset_fail _ 256 10 hfit rfl (by norm_num) (by norm_num)]
  · intro r hr
    simp only [List.mem_cons, List.mem_singleton, List.not_mem_nil, or_false] at hr
    simp only [NULL]
    omega
  · simp only [Metachunk.allocate_seq]
    rw [Metachunk.allocate_at_offset _ 16 10 hfit rfl (by norm_num)]
    rw [Metachunk.allocate_at_offset _ 96 10 hfit rfl (by norm_num)]
    rw [Metachunk.allocate_at_offset _ 176 10 hfit rfl (by norm_num)]
    rw [Metachunk.allocate_at_offset_fail _ 256 10 hfit rfl (by norm_num) (by norm_num)]
    simp only [List.map]
    rw [Metachunk.free_at_offset _ 96 hfit rfl (by norm_num)]
    rw [Metachunk.free_at_offset _ 176 hfit rfl (by norm_num)]
    rw [Metachunk.free_at_offset _ 256 hfit rfl (by norm_num)]
    norm_num

end metaspace

/-- A successful `regions_at` is a successful list lookup at an `int` index. -/
theorem CollectionSetChooser.regions_at_eq_ok (c : CollectionSetChooser) (i : Nat)
    (slot : Option HeapRegion) :
    c.regions_at i = .ok slot ↔ i < 2 ^ 31 ∧ c._regions[i]? = some slot := by
  unfold CollectionSetChooser.regions_at
  by_cases hi : i < 2 ^ 31
  · rw [if_pos hi]
    cases h : c._regions[i]? with
    | none => simp
    | some s =>
      simp only [Except.ok.injEq, Option.some.injEq]
      exact ⟨fun hs => ⟨hi, hs⟩, fun hs => hs.2⟩
  · rw [if_neg hi]
    constructor
    · intro hcontra
      cases hcontra
    · intro hcontra
      exact absurd hcontra.1 hi

/-- What `pop` returns when its three assertions hold, with the machine
arithmetic resolved. -/
theorem CollectionSetChooser.pop_step (c : CollectionSetChooser) (hr : HeapRegion)
    (hty : c.well_typed) (hlt : c._front < c._end)
    (hfront : c.regions_at c._front = .ok (some hr))
    (hle : hr.reclaimable_bytes ≤ c._remaining_reclaimable_bytes) :
    c.pop = .ok (hr,
      { c with
        _regions := c._regions.set c._front none
        _front := c._front + 1
        _remaining_reclaimable_bytes := c._remaining_reclaimable_bytes - hr.reclaimable_bytes }) := by
  obtain ⟨h31, hget⟩ := (CollectionSetChooser.regions_at_eq_ok c _ _).mp hfront
  obtain ⟨hlen, _⟩ := List.getElem?_eq_some.mp hget
  obtain ⟨_, _, hend, _, _, hrem⟩ := hty
  have hm1 : (c._front + 1) % 2 ^ 32 = c._front + 1 := Nat.mod_eq_of_lt (by omega)
  have hm2 : (c._remaining_reclaimable_bytes + 2 ^ 64 - hr.reclaimable_bytes) % 2 ^ 64 =
      c._remaining_reclaimable_bytes - hr.reclaimable_bytes := by omega
  unfold CollectionSetChooser.pop
  rw [hfront]
  simp only [CollectionSetChooser.regions_at_put, h31, hlen, hlt, hle, and_self, if_true,
    not_true_eq_false, if_false, hm1, hm2]

/-- Overwriting one slot leaves every other slot as it was. -/
theorem CollectionSetChooser.regions_at_set_ne (c c1 : CollectionSetChooser) (k i : Nat)
    (v : Option HeapRegion) (hset : c1._regions = c._regions.set k v) (hne : i ≠ k) :
    c1.regions_at i = c.regions_at i := by
  unfold CollectionSetChooser.regions_at
  rw [hset, List.getElem?_set_ne (Ne.symm hne)]

/-- Overwriting a slot inside the array with `NULL` makes `regions_at` return
`NULL` there. -/
theorem CollectionSetChooser.regions_at_set_self (c c1 : CollectionSetChooser) (k : Nat)
    (slot : Option HeapRegion) (hset : c1._regions = c._regions.set k none)
    (hk : c.regions_at k = .ok slot) : c1.regions_at k = .ok none := by
  obtain ⟨h31, hget⟩ := (CollectionSetChooser.regions_at_eq_ok c _ _).mp hk
  obtain ⟨hlen, _⟩ := List.getElem?_eq_some.mp hget
  apply (CollectionSetChooser.regions_at_eq_ok c1 _ _).mpr
  rw [hset]
  exact ⟨h31, List.getElem?_set_self hlen⟩

/-- The sum over `[_front, _end)` only looks at the slots in that range. -/
theorem CollectionSetChooser.reclaimable_sum_congr (c c1 : CollectionSetChooser)
    (h : ∀ i, c1._front ≤ i → c1.regions_at i = c.regions_at i) :
    c1.reclaimable_sum =
      ((List.range' c1._front (c1._end - c1._front)).map c.reclaimable_at).sum := by
  unfold CollectionSetChooser.reclaimable_sum
  congr 1
  apply List.map_congr_left
  intro i hi
  have hge : c1._front ≤ i := (List.mem_range'_1.mp hi).1
  unfold CollectionSetChooser.reclaimable_at
  rw [h i hge]

/-- With `_front < _end` the sum over `[_front, _end)` is the head term plus
the sum over `[_front + 1, _end)`. -/
theorem CollectionSetChooser.reclaimable_sum_head (c : CollectionSetChooser)
    (hlt : c._front < c._end) :
    c.reclaimable_sum = c.reclaimable_at c._front +
      ((List.range' (c._front + 1) (c._end - (c._front + 1))).map c.reclaimable_at).sum := by
  unfold CollectionSetChooser.reclaimable_sum
  have hn : c._end - c._front = (c._end - (c._front + 1)) + 1 := by omega
  rw [hn, List.range'_succ, List.map_cons, List.sum_cons]

/-- On a well-typed chooser with `_front <= _end`, `remaining_regions()` is the
plain difference. -/
theorem CollectionSetChooser.remaining_regions_eq (c : CollectionSetChooser)
    (hty : c.well_typed) (hle : c._front ≤ c._end) :
    c.remaining_regions = c._end - c._front := by
  obtain ⟨_, _, hend, _, _, _⟩ := hty
  unfold CollectionSetChooser.remaining_regions
  omega

/-- C8: on a (well-typed) chooser with `_front < _end` whose slot `_front`
holds a region `hr` with `reclaimable_bytes()` at most
`_remaining_reclaimable_bytes`, `pop()` returns `hr`, sets that slot to
`NULL`, lowers `_remaining_reclaimable_bytes` by exactly
`hr->reclaimable_bytes()`, raises `_front` by exactly 1, and leaves `_end`,
the other fields, the array length and every other slot unchanged. -/
theorem CollectionSetChooser.pop_spec (c : CollectionSetChooser) (hr : HeapRegion)
    (hty : c.well_typed) (hlt : c._front < c._end)
    (hfront : c.regions_at c._front = .ok (some hr))
    (hle : hr.reclaimable_bytes ≤ c._remaining_reclaimable_bytes) :
    ∃ c1, c.pop = .ok (hr, c1) ∧
      c1.regions_at c._front = .ok none ∧
      c1._remaining_reclaimable_bytes + hr.reclaimable_bytes = c._remaining_reclaimable_bytes ∧
      c1._front = c._front + 1 ∧
      c1._end = c._end ∧
      c1._first_par_unreserved_idx = c._first_par_unreserved_idx ∧
      c1._region_live_threshold_bytes = c._region_live_threshold_bytes ∧
      c1._regions.length = c._regions.length ∧
      ∀ i, i ≠ c._front → c1.regions_at i = c.regions_at i := by
  refine ⟨_, CollectionSetChooser.pop_step c hr hty hlt hfront hle, ?_, ?_, rfl, rfl, rfl, rfl,
    ?_, ?_⟩
  · exact CollectionSetChooser.regions_at_set_self c _ _ _ rfl hfront
  · exact Nat.sub_add_cancel hle
  · exact List.length_set _ _ _
  · intro i hi
    exact CollectionSetChooser.regions_at_set_ne c _ _ _ _ rfl hi

/-- The state that `pop` leaves behind keeps `_remaining_reclaimable_bytes`
equal to the sum over `[_front, _end)`. -/
theorem CollectionSetChooser.pop_step_sum (c : CollectionSetChooser) (hr : HeapRegion)
    (hlt : c._front < c._end) (hfront : c.regions_at c._front = .ok (some hr))
    (hsum : c._remaining_reclaimable_bytes = c.reclaimable_sum) :
    hr.reclaimable_bytes ≤ c._remaining_reclaimable_bytes ∧
      c._remaining_reclaimable_bytes - hr.reclaimable_bytes =
        CollectionSetChooser.reclaimable_sum
          { c with
            _regions := c._regions.set c._front none
            _front := c._front + 1
            _remaining_reclaimable_bytes :=
              c._remaining_reclaimable_bytes - hr.reclaimable_bytes } := by
  have hhead := CollectionSetChooser.reclaimable_sum_head c hlt
  have hat : c.reclaimable_at c._front = hr.reclaimable_bytes := by
    unfold CollectionSetChooser.reclaimable_at
    rw [hfront]
  refine ⟨by omega, ?_⟩
  rw [CollectionSetChooser.reclaimable_sum_congr c _ (fun i hi =>
    CollectionSetChooser.regions_at_set_ne c _ _ _ _ rfl (by
      show i ≠ c._front
      have : c._front + 1 ≤ i := hi
      omega))]
  show c._remaining_reclaimable_bytes - hr.reclaimable_bytes =
    ((List.range' (c._front + 1) (c._end - (c._front + 1))).map c.reclaimable_at).sum
  omega

/-- The state that `pop` leaves behind is well typed and still has a region
in every slot of `[_front, _end)`. -/
theorem CollectionSetChooser.pop_step_inv (c : CollectionSetChooser) (hr : HeapRegion)
    (hty : c.well_typed) (hlt : c._front < c._end) (hnn : c.active_non_null)
    (hle : hr.reclaimable_bytes ≤ c._remaining_reclaimable_bytes) :
    CollectionSetChooser.well_typed
        { c with
          _regions := c._regions.set c._front none
          _front := c._front + 1
          _remaining_reclaimable_bytes :=
            c._remaining_reclaimable_bytes - hr.reclaimable_bytes } ∧
      CollectionSetChooser.active_non_null
        { c with
          _regions := c._regions.set c._front none
          _front := c._front + 1
          _remaining_reclaimable_bytes :=
            c._remaining_reclaimable_bytes - hr.reclaimable_bytes } := by
  obtain ⟨h1, h2, h3, h4, h5, h6⟩ := hty
  refine ⟨⟨?_, ?_, h3, h4, h5, ?_⟩, ?_⟩
  · show (c._regions.set c._front none).length < 2 ^ 31
    rw [List.length_set]
    exact h1
  · show c._front + 1 < 2 ^ 32
    omega
  · show c._remaining_reclaimable_bytes - hr.reclaimable_bytes < 2 ^ 64
    omega
  · intro i hi1 hi2
    have hi1' : c._front + 1 ≤ i := hi1
    have hi2' : i < c._end := hi2
    rw [CollectionSetChooser.regions_at_set_ne c _ _ i _ rfl (by omega)]
    exact hnn i (by omega) hi2'

/-- Draining a consistent chooser with `n` active regions: any fuel of at
least `n` pops is enough, exactly `n` regions are popped, their reclaimable
bytes add up to the starting total, and the chooser ends empty with a total
of 0. -/
theorem CollectionSetChooser.drain_aux (n : Nat) :
    ∀ c : CollectionSetChooser, c.well_typed → c._front + n = c._end → c.active_non_null →
      c._remaining_reclaimable_bytes = c.reclaimable_sum →
      ∀ fuel, n ≤ fuel →
        ∃ popped c1, c.drain fuel = some (popped, c1) ∧ popped.length = n ∧
          (popped.map HeapRegion.reclaimable_bytes).sum = c._remaining_reclaimable_bytes ∧
          c1._remaining_reclaimable_bytes = 0 ∧ c1.is_empty = true ∧
          c1._front = c._end ∧ c1._end = c._end := by
  induction n with
  | zero =>
    intro c hty hn _ hsum fuel _
    have hfe : c._front = c._end := by omega
    have hrr := CollectionSetChooser.remaining_regions_eq c hty (by omega)
    have hemp : c.is_empty = true := by
      unfold CollectionSetChooser.is_empty
      rw [hrr, hfe]
      simp
    have hzero : c._remaining_reclaimable_bytes = 0 := by
      rw [hsum]
      unfold CollectionSetChooser.reclaimable_sum
      rw [hfe]
      simp
    refine ⟨[], c, ?_, rfl, ?_, hzero, hemp, hfe, rfl⟩
    · cases fuel <;> simp [CollectionSetChooser.drain, hemp]
    · simp [hzero]
  | succ n ih =>
    intro c hty hn hnn hsum fuel hfuel
    have hlt : c._front < c._end := by omega
    obtain ⟨hr, hfront⟩ := hnn c._front (le_refl _) hlt
    have hrr := CollectionSetChooser.remaining_regions_eq c hty (by omega)
    have hemp : c.is_empty = false := by
      unfold CollectionSetChooser.is_empty
      rw [hrr]
      simp
      omega
    obtain ⟨hle, hsum1⟩ := CollectionSetChooser.pop_step_sum c hr hlt hfront hsum
    obtain ⟨hty1, hnn1⟩ := CollectionSetChooser.pop_step_inv c hr hty hlt hnn hle
    have hpop := CollectionSetChooser.pop_step c hr hty hlt hfront hle
    obtain ⟨f, rfl⟩ : ∃ f, fuel = f + 1 := ⟨fuel - 1, by omega⟩
    obtain ⟨popped, c2, hd, hlen, hps, hz, he, hf2, he2⟩ :=
      ih _ hty1 (by show c._front + 1 + n = c._end; omega) hnn1 hsum1 f (by omega)
    refine ⟨hr :: popped, c2, ?_, by simp [hlen], ?_, hz, he, hf2, he2⟩
    · simp only [CollectionSetChooser.drain, hemp, hpop, hd]
      simp
    · rw [List.map_cons, List.sum_cons, hps]
      show hr.reclaimable_bytes + (c._remaining_reclaimable_bytes - hr.reclaimable_bytes) =
        c._remaining_reclaimable_bytes
      omega

/-- C9: if, before a `pop()` on a (well-typed) chooser with `_front < _end`
whose head slot holds a region, `_remaining_reclaimable_bytes` equals the sum
of `reclaimable_bytes()` over the regions at `[_front, _end)`, then the
`pop()` succeeds and afterwards `_remaining_reclaimable_bytes` equals the sum
over the new `[_front, _end)`. -/
theorem CollectionSetChooser.pop_preserves_sum (c : CollectionSetChooser) (hr : HeapRegion)
    (hty : c.well_typed) (hlt : c._front < c._end)
    (hfront : c.regions_at c._front = .ok (some hr))
    (hsum : c._remaining_reclaimable_bytes = c.reclaimable_sum) :
    ∃ c1, c.pop = .ok (hr, c1) ∧ c1._remaining_reclaimable_bytes = c1.reclaimable_sum := by
  obtain ⟨hle, hsum1⟩ := CollectionSetChooser.pop_step_sum c hr hlt hfront hsum
  exact ⟨_, CollectionSetChooser.pop_step c hr hty hlt hfront hle, hsum1⟩

/-- C10: from a (well-typed) chooser with `_front <= _end`, a region in every
slot of `[_front, _end)` and `_remaining_reclaimable_bytes` equal to their
reclaimable-byte sum, the loop that calls `pop()` until `is_empty()`
terminates after exactly `remaining_regions()` pops (that many calls are
enough fuel, and that many regions are popped), the `reclaimable_bytes()` of
the popped regions add up to the starting `_remaining_reclaimable_bytes`, and
the final `_remaining_reclaimable_bytes` is 0 with the chooser empty. -/
theorem CollectionSetChooser.drain_conservation (c : CollectionSetChooser)
    (hty : c.well_typed) (hle : c._front ≤ c._end) (hnn : c.active_non_null)
    (hsum : c._remaining_reclaimable_bytes = c.reclaimable_sum) :
    ∀ fuel, c.remaining_regions ≤ fuel →
      ∃ popped c1, c.drain fuel = some (popped, c1) ∧
        popped.length = c.remaining_regions ∧
        (popped.map HeapRegion.reclaimable_bytes).sum = c._remaining_reclaimable_bytes ∧
        c1.remaining_reclaimable_bytes = 0 ∧ c1.is_empty = true := by
  intro fuel hfuel
  have hrr := CollectionSetChooser.remaining_regions_eq c hty hle
  rw [hrr] at hfuel ⊢
  obtain ⟨popped, c1, h1, h2, h3, h4, h5, _, _⟩ :=
    CollectionSetChooser.drain_aux (c._end - c._front) c hty (by omega) hnn hsum fuel hfuel
  exact ⟨popped, c1, h1, h2, h3, h4, h5⟩

/-- In a sorted active range, a later entry never has more reclaimable bytes
than an earlier one. -/
theorem CollectionSetChooser.active_sorted_le (c : CollectionSetChooser)
    (hs : c.active_sorted) (i : Nat) (hi : c._front ≤ i) :
    ∀ d, i + d < c._end → c.reclaimable_at (i + d) ≤ c.reclaimable_at i := by
  intro d
  induction d with
  | zero => intro _; exact le_refl _
  | succ d ih =>
    intro hd
    have h1 := hs (i + d) (by omega) (by omega)
    have h2 := ih (by omega)
    exact le_trans h1 h2

/-- The state that `pop` leaves behind is sorted when the state before was. -/
theorem CollectionSetChooser.pop_step_sorted (c : CollectionSetChooser) (r : Nat)
    (hs : c.active_sorted) :
    CollectionSetChooser.active_sorted
      { c with
        _regions := c._regions.set c._front none
        _front := c._front + 1
        _remaining_reclaimable_bytes := r } := by
  intro i hi1 hi2
  have hi1' : c._front + 1 ≤ i := hi1
  have hi2' : i + 1 < c._end := hi2
  have e1 := CollectionSetChooser.regions_at_set_ne c
    { c with
      _regions := c._regions.set c._front none
      _front := c._front + 1
      _remaining_reclaimable_bytes := r } c._front i none rfl (by omega)
  have e2 := CollectionSetChooser.regions_at_set_ne c
    { c with
      _regions := c._regions.set c._front none
      _front := c._front + 1
      _remaining_reclaimable_bytes := r } c._front (i + 1) none rfl (by omega)
  unfold CollectionSetChooser.reclaimable_at
  rw [e1, e2]
  exact hs i (by omega) hi2'

/-- What `n` successive pops do to a consistent, sorted chooser with at least
`n` active regions. -/
theorem CollectionSetChooser.pop_n_aux (n : Nat) :
    ∀ c : CollectionSetChooser, c.well_typed → c._front + n ≤ c._end → c.active_non_null →
      c._remaining_reclaimable_bytes = c.reclaimable_sum → c.active_sorted →
      ∃ popped c1, c.pop_n n = .ok (popped, c1) ∧
        popped.map (fun hr => (Except.ok (some hr) : Except ChooserFault (Option HeapRegion))) =
          (List.range' c._front n).map c.regions_at ∧
        popped.Pairwise (fun a b => b.reclaimable_bytes ≤ a.reclaimable_bytes) ∧
        c1._front = c._front + n ∧ c1._end = c._end ∧
        (∀ i, c._front + n ≤ i → c1.regions_at i = c.regions_at i) ∧
        c1.active_sorted := by
  induction n with
  | zero =>
    intro c _ _ _ _ hs
    exact ⟨[], c, rfl, rfl, List.Pairwise.nil, rfl, rfl, fun _ _ => rfl, hs⟩
  | succ n ih =>
    intro c hty hn hnn hsum hs
    have hlt : c._front < c._end := by omega
    obtain ⟨hr, hfront⟩ := hnn c._front (le_refl _) hlt
    obtain ⟨hle, hsum1⟩ := CollectionSetChooser.pop_step_sum c hr hlt hfront hsum
    obtain ⟨hty1, hnn1⟩ := CollectionSetChooser.pop_step_inv c hr hty hlt hnn hle
    have hpop := CollectionSetChooser.pop_step c hr hty hlt hfront hle
    have hs1 := CollectionSetChooser.pop_step_sorted c
      (c._remaining_reclaimable_bytes - hr.reclaimable_bytes) hs
    obtain ⟨popped, c2, hp, hmap, hpw, hf2, he2, hrest, hs2⟩ :=
      ih _ hty1 (by show c._front + 1 + n ≤ c._end; omega) hnn1 hsum1 hs1
    have hsame : ∀ i, c._front + 1 ≤ i →
        CollectionSetChooser.regions_at
          { c with
            _regions := c._regions.set c._front none
            _front := c._front + 1
            _remaining_reclaimable_bytes :=
              c._remaining_reclaimable_bytes - hr.reclaimable_bytes } i = c.regions_at i :=
      fun i hi => CollectionSetChooser.regions_at_set_ne c _ _ i _ rfl (by omega)
    have hmap' : popped.map
        (fun hr => (Except.ok (some hr) : Except ChooserFault (Option HeapRegion))) =
        (List.range' (c._front + 1) n).map c.regions_at := by
      rw [hmap]
      apply List.map_congr_left
      intro i hi
      exact hsame i (List.mem_range'_1.mp hi).1
    refine ⟨hr :: popped, c2, ?_, ?_, ?_, ?_, he2, ?_, hs2⟩
    · simp only [CollectionSetChooser.pop_n, hpop, hp]
    · rw [List.range'_succ, List.map_cons, List.map_cons, hfront, hmap']
    · refine List.Pairwise.cons ?_ hpw
      intro x hx
      have hx' : (Except.ok (some x) : Except ChooserFault (Option HeapRegion)) ∈
          (List.range' (c._front + 1) n).map c.regions_at := by
        rw [← hmap']
        exact List.mem_map_of_mem _ hx
      obtain ⟨i, hi, hix⟩ := List.mem_map.mp hx'
      obtain ⟨hi1, hi2⟩ := List.mem_range'_1.mp hi
      have hd := CollectionSetChooser.active_sorted_le c hs c._front (le_refl _)
        (i - c._front) (by omega)
      have hidx : c._front + (i - c._front) = i := by omega
      rw [hidx] at hd
      unfold CollectionSetChooser.reclaimable_at at hd
      rw [hix, hfront] at hd
      exact hd
    · rw [hf2]
      show c._front + 1 + n = c._front + (n + 1)
      omega
    · intro i hi
      rw [hrest i (by show c._front + 1 + n ≤ i; omega)]
      exact hsame i (by omega)

/-- C11: if the entries at `[_front, _end)` of a consistent chooser (well
typed, a region in every active slot, `_remaining_reclaimable_bytes` equal to
their sum) are sorted by non-increasing `reclaimable_bytes()`, then any `n`
successive `pop()` calls, `n` up to the number of active entries, return
exactly `regions[_front]`, `regions[_front+1]`, ... in index order, the
`reclaimable_bytes()` of the popped regions are non-increasing, and afterwards
the remaining active entries are the same slots as before, still sorted. -/
theorem CollectionSetChooser.pop_in_sorted_order (c : CollectionSetChooser) (n : Nat)
    (hty : c.well_typed) (hn : c._front + n ≤ c._end) (hnn : c.active_non_null)
    (hsum : c._remaining_reclaimable_bytes = c.reclaimable_sum) (hs : c.active_sorted) :
    ∃ popped c1, c.pop_n n = .ok (popped, c1) ∧
      popped.map (fun hr => (Except.ok (some hr) : Except ChooserFault (Option HeapRegion))) =
        (List.range' c._front n).map c.regions_at ∧
      popped.Pairwise (fun a b => b.reclaimable_bytes ≤ a.reclaimable_bytes) ∧
      c1._front = c._front + n ∧ c1._end = c._end ∧
      (∀ i, c._front + n ≤ i → c1.regions_at i = c.regions_at i) ∧
      c1.active_sorted :=
  CollectionSetChooser.pop_n_aux n c hty hn hnn hsum hs

/-- A `pop` that returns has returned the region in slot `_front`. -/
theorem CollectionSetChooser.pop_ok_front (c c2 : CollectionSetChooser) (hr : HeapRegion)
    (h : c.pop = .ok (hr, c2)) : c.regions_at c._front = .ok (some hr) := by
  unfold CollectionSetChooser.pop at h
  cases hra : c.regions_at c._front with
  | error e => rw [hra] at h; cases h
  | ok slot =>
    cases slot with
    | none => rw [hra] at h; cases h
    | some x =>
      rw [hra] at h
      simp only at h
      split at h
      · cases h
      · split at h
        · cases h
        · split at h
          · cases h
          · simp only [Except.ok.injEq, Prod.mk.injEq] at h
            rw [h.1]

/-- The outcomes of `peek`: with `_front < _end` it is decided by slot
`_front`, otherwise it returns `NULL`; the chooser is handed back as it was. -/
theorem CollectionSetChooser.peek_cases (c : CollectionSetChooser) :
    (¬ c._front < c._end → c.peek = .ok (none, c)) ∧
      (c._front < c._end → ∀ hr, c.regions_at c._front = .ok (some hr) →
        c.peek = .ok (some hr, c)) ∧
      (c._front < c._end → c.regions_at c._front = .ok none →
        c.peek = .error .assert_hr_not_null) ∧
      (c._front < c._end → ∀ e, c.regions_at c._front = .error e → c.peek = .error e) := by
  refine ⟨fun h => ?_, fun h hr hra => ?_, fun h hra => ?_, fun h e hra => ?_⟩
  · simp [CollectionSetChooser.peek, h]
  · simp [CollectionSetChooser.peek, h, hra]
  · simp [CollectionSetChooser.peek, h, hra]
  · simp [CollectionSetChooser.peek, h, hra]

/-- A `peek` that returns hands the chooser back unchanged and, with
`_front < _end`, returns the non-null content of slot `_front`. -/
theorem CollectionSetChooser.peek_ok (c c1 : CollectionSetChooser) (r : Option HeapRegion)
    (h : c.peek = .ok (r, c1)) :
    c1 = c ∧ (¬ c._front < c._end → r = none) ∧
      (c._front < c._end → r ≠ none ∧ c.regions_at c._front = .ok r) := by
  obtain ⟨h1, h2, h3, h4⟩ := CollectionSetChooser.peek_cases c
  by_cases hlt : c._front < c._end
  · cases hra : c.regions_at c._front with
    | error e => rw [h4 hlt e hra] at h; cases h
    | ok slot =>
      cases slot with
      | none => rw [h3 hlt hra] at h; cases h
      | some x =>
        rw [h2 hlt x hra] at h
        simp only [Except.ok.injEq, Prod.mk.injEq] at h
        refine ⟨h.2.symm, fun hn => absurd hlt hn, fun _ => ?_⟩
        rw [← h.1]
        exact ⟨by simp, rfl⟩
  · rw [h1 hlt] at h
    simp only [Except.ok.injEq, Prod.mk.injEq] at h
    exact ⟨h.2.symm, fun _ => h.1.symm, fun hn => absurd hn hlt⟩

/-- C12: `peek()` changes no chooser state; it returns `NULL` when
`_front >= _end` and otherwise `regions[_front]` (its assertion requires that
slot to hold a region); and whenever `_front < _end` the region returned by
`peek()` is exactly the region the next `pop()` returns, both calls returning
under the preconditions of `pop()`. -/
theorem CollectionSetChooser.peek_spec (c : CollectionSetChooser) :
    (∀ r c1, c.peek = .ok (r, c1) → c1 = c) ∧
      (¬ c._front < c._end → c.peek = .ok (none, c)) ∧
      (c._front < c._end → ∀ hr, c.regions_at c._front = .ok (some hr) →
        c.peek = .ok (some hr, c)) ∧
      (c._front < c._end → ∀ r c1, c.peek = .ok (r, c1) → c.regions_at c._front = .ok r) ∧
      (c._front < c._end → ∀ r c1 hr c2, c.peek = .ok (r, c1) → c.pop = .ok (hr, c2) →
        r = some hr) ∧
      (c._front < c._end → c.well_typed → ∀ hr, c.regions_at c._front = .ok (some hr) →
        hr.reclaimable_bytes ≤ c._remaining_reclaimable_bytes →
        ∃ c2, c.peek = .ok (some hr, c) ∧ c.pop = .ok (hr, c2)) := by
  obtain ⟨h1, h2, _, _⟩ := CollectionSetChooser.peek_cases c
  refine ⟨fun r c1 h => (CollectionSetChooser.peek_ok c c1 r h).1, h1, h2, ?_, ?_, ?_⟩
  · intro hlt r c1 h
    exact ((CollectionSetChooser.peek_ok c c1 r h).2.2 hlt).2
  · intro hlt r c1 hr c2 hpeek hpop
    have ha := ((CollectionSetChooser.peek_ok c c1 r hpeek).2.2 hlt).2
    have hb := CollectionSetChooser.pop_ok_front c c2 hr hpop
    rw [ha] at hb
    simp only [Except.ok.injEq] at hb
    exact hb
  · intro hlt hty hr hra hle
    exact ⟨_, h2 hlt hr hra, CollectionSetChooser.pop_step c hr hty hlt hra hle⟩

/-- C13: for 32-bit unsigned `_front` and `_end`, `remaining_regions()` is
`_end - _front` computed modulo 2^32, `is_empty()` is true if and only if
`_front == _end`, and under `_front <= _end`, `is_empty()` holds exactly when
`peek()` returns `NULL`. -/
theorem CollectionSetChooser.remaining_regions_spec (c : CollectionSetChooser)
    (hf : c._front < 2 ^ 32) (he : c._end < 2 ^ 32) :
    ((c.remaining_regions : Int) = ((c._end : Int) - (c._front : Int)) % 2 ^ 32) ∧
      (c.is_empty = true ↔ c._front = c._end) ∧
      (c._front ≤ c._end → (c.is_empty = true ↔ ∃ c1, c.peek = .ok (none, c1))) := by
  have hemp : c.is_empty = true ↔ c._front = c._end := by
    unfold CollectionSetChooser.is_empty CollectionSetChooser.remaining_regions
    rw [beq_iff_eq]
    omega
  refine ⟨?_, hemp, fun hle => ?_⟩
  · unfold CollectionSetChooser.remaining_regions
    omega
  · rw [hemp]
    constructor
    · intro hfe
      exact ⟨c, (CollectionSetChooser.peek_cases c).1 (by omega)⟩
    · rintro ⟨c1, hp⟩
      by_contra hne
      have hlt : c._front < c._end := by omega
      exact ((CollectionSetChooser.peek_ok c c1 none hp).2.2 hlt).1 rfl

namespace metaspace

/-- The granule of a word of a chunk that starts on a granule boundary of the
map and spans `k` granules is one of the `k` granules of the chunk. -/
theorem OccupancyMap.bitpos_in_chunk (m : OccupancyMap) (p a k : Nat)
    (hg : 0 < m._smallest_chunk_word_size) (href : m._reference_address ≤ p)
    (hal : (p - m._reference_address) % (m._smallest_chunk_word_size * 8) = 0)
    (hpa : p ≤ a) (ha : a < p + k * m._smallest_chunk_word_size * 8) (h64 : a < 2 ^ 64) :
    m.get_bitpos_for_address p ≤ m.get_bitpos_for_address a ∧
      m.get_bitpos_for_address a < m.get_bitpos_for_address p + k := by
  have hG : 0 < m._smallest_chunk_word_size * 8 := by omega
  obtain ⟨q, hq⟩ := Nat.dvd_of_mod_eq_zero hal
  have hda : (a + 2 ^ 64 - m._reference_address) % 2 ^ 64 =
      m._smallest_chunk_word_size * 8 * q + (a - p) := by omega
  have hdp : (p + 2 ^ 64 - m._reference_address) % 2 ^ 64 =
      m._smallest_chunk_word_size * 8 * q + 0 := by omega
  have hswap : ∀ x : Nat, x / 8 / m._smallest_chunk_word_size =
      x / (m._smallest_chunk_word_size * 8) := by
    intro x
    rw [Nat.div_div_eq_div_mul, Nat.mul_comm]
  have hbp : m.get_bitpos_for_address p = q := by
    simp only [OccupancyMap.get_bitpos_for_address, pointer_delta, sizeof_MetaWord, BytesPerWord]
    rw [hswap, hdp, Nat.mul_add_div hG]
    simp
  have hba : m.get_bitpos_for_address a = q + (a - p) / (m._smallest_chunk_word_size * 8) := by
    simp only [OccupancyMap.get_bitpos_for_address, pointer_delta, sizeof_MetaWord, BytesPerWord]
    rw [hswap, hda, Nat.mul_add_div hG]
  have hlt : (a - p) / (m._smallest_chunk_word_size * 8) < k := by
    apply Nat.div_lt_of_lt_mul
    have : a - p < k * m._smallest_chunk_word_size * 8 := by omega
    calc a - p < k * m._smallest_chunk_word_size * 8 := this
      _ = m._smallest_chunk_word_size * 8 * k := by ring
  rw [hbp, hba]
  exact ⟨Nat.le_add_right _ _, Nat.add_lt_add_left hlt _⟩

/-- After `set_region_in_use(p, word_size, v)` on a range of at least one
granule, `is_region_in_use(p, word_size)` is `v`. -/
theorem OccupancyMap.is_region_in_use_after_set (m : OccupancyMap) (p word_size : Nat) (v : Bool)
    (hk : 0 < word_size / m._smallest_chunk_word_size) :
    (m.set_region_in_use p word_size v).is_region_in_use p word_size = v := by
  cases v with
  | true =>
    rw [OccupancyMap.is_region_in_use, List.any_eq_true]
    refine ⟨m.get_bitpos_for_address p, ?_, ?_⟩
    · rw [List.mem_range'_1]
      exact ⟨le_refl _, by
        show m.get_bitpos_for_address p <
          m.get_bitpos_for_address p + word_size / m._smallest_chunk_word_size
        omega⟩
    · show (if _ then true else _) = true
      rw [if_pos ⟨le_refl _, by omega⟩]
  | false =>
    rw [OccupancyMap.is_region_in_use, List.any_eq_false]
    intro x hx
    rw [List.mem_range'_1] at hx
    have hx1 : m.get_bitpos_for_address p ≤ x ∧
        x < m.get_bitpos_for_address p + word_size / m._smallest_chunk_word_size := hx
    show ¬ (if _ then false else _) = true
    rw [if_pos hx1]
    simp

/-- C14: for a chunk that lies in the range of its node's occupancy map (it
starts on a granule boundary and spans a positive whole number of granules)
and every boolean `inuse`, after `do_update_in_use_info_for_chunk(chunk, inuse)`
the chunk's `is_tagged_free()` equals `!inuse`, the map's in-use bit of every
word of `[chunk, chunk + word_size())` equals `inuse`, so that
`tagged_free == !in_use_bit(map, chunk_range)` holds, and `top`, the word size
and the chunk type (every field but the flag) are unchanged. -/
theorem do_update_in_use_info_for_chunk_spec (chunk : Metachunk) (ocmap : OccupancyMap)
    (inuse : Bool) (hg : 0 < ocmap._smallest_chunk_word_size) (hws : 0 < chunk.word_size)
    (hdiv : ocmap._smallest_chunk_word_size ∣ chunk.word_size)
    (hfit : chunk.fits_address_space) (href : ocmap._reference_address ≤ chunk.this_addr)
    (hal : (chunk.this_addr - ocmap._reference_address) %
      (ocmap._smallest_chunk_word_size * sizeof_MetaWord) = 0) :
    (do_update_in_use_info_for_chunk chunk ocmap inuse).1.is_tagged_free = !inuse ∧
      (∀ a, chunk.this_addr ≤ a → a < chunk.this_addr + chunk.word_size * sizeof_MetaWord →
        (do_update_in_use_info_for_chunk chunk ocmap inuse).2.in_use_map
          ((do_update_in_use_info_for_chunk chunk ocmap inuse).2.get_bitpos_for_address a) =
            inuse) ∧
      (do_update_in_use_info_for_chunk chunk ocmap inuse).2.is_region_in_use
        chunk.this_addr chunk.word_size = inuse ∧
      (do_update_in_use_info_for_chunk chunk ocmap inuse).1.is_tagged_free =
        !(do_update_in_use_info_for_chunk chunk ocmap inuse).2.is_region_in_use
          (do_update_in_use_info_for_chunk chunk ocmap inuse).1.this_addr
          (do_update_in_use_info_for_chunk chunk ocmap inuse).1.word_size ∧
      (do_update_in_use_info_for_chunk chunk ocmap inuse).1._top = chunk._top ∧
      (do_update_in_use_info_for_chunk chunk ocmap inuse).1.word_size = chunk.word_size ∧
      (do_update_in_use_info_for_chunk chunk ocmap inuse).1._chunk_type = chunk._chunk_type ∧
      (do_update_in_use_info_for_chunk chunk ocmap inuse).1 =
        { chunk with _is_tagged_free := !inuse } := by
  obtain ⟨k, hk⟩ := hdiv
  have hkpos : 0 < chunk.word_size / ocmap._smallest_chunk_word_size := by
    rw [hk, Nat.mul_div_cancel_left k hg]
    rcases Nat.eq_zero_or_pos k with h0 | h0
    · rw [h0, Nat.mul_zero] at hk
      omega
    · exact h0
  have hkdiv : chunk.word_size / ocmap._smallest_chunk_word_size = k := by
    rw [hk, Nat.mul_div_cancel_left k hg]
  have hregion := OccupancyMap.is_region_in_use_after_set ocmap chunk.this_addr chunk.word_size
    inuse hkpos
  refine ⟨rfl, ?_, hregion, ?_, rfl, rfl, rfl, rfl⟩
  · intro a ha1 ha2
    simp only [Metachunk.fits_address_space, sizeof_MetaWord, BytesPerWord] at hfit ha2 hal
    have hb := OccupancyMap.bitpos_in_chunk ocmap chunk.this_addr a k hg href hal ha1
      (by rw [hk] at ha2
          calc a < chunk.this_addr + ocmap._smallest_chunk_word_size * k * 8 := ha2
            _ = chunk.this_addr + k * ocmap._smallest_chunk_word_size * 8 := by ring)
      (by omega)
    show (if _ then inuse else _) = inuse
    rw [if_pos]
    show ocmap.get_bitpos_for_address chunk.this_addr ≤ ocmap.get_bitpos_for_address a ∧
      ocmap.get_bitpos_for_address a <
        ocmap.get_bitpos_for_address chunk.this_addr +
          chunk.word_size / ocmap._smallest_chunk_word_size
    rw [hkdiv]
    exact hb
  · show (!inuse) = !(ocmap.set_region_in_use chunk.this_addr chunk.word_size
      inuse).is_region_in_use chunk.this_addr chunk.word_size
    rw [hregion]

end metaspace

/-- C17: when `GrainBytes * G1MixedGCLiveThresholdPercent` does not overflow
`size_t`, `mixed_gc_live_threshold_bytes()` is
`floor(GrainBytes * percent / 100)`; it is at most `GrainBytes` for a
percentage in `[0, 100]`, non-decreasing in the percentage, equal to
`GrainBytes` at 100 and to 0 at 0. -/
theorem CollectionSetChooser.mixed_gc_live_threshold_bytes_spec (GrainBytes percent : Nat)
    (hprod : GrainBytes * percent < 2 ^ 64) :
    CollectionSetChooser.mixed_gc_live_threshold_bytes GrainBytes percent =
        GrainBytes * percent / 100 ∧
      (percent ≤ 100 →
        CollectionSetChooser.mixed_gc_live_threshold_bytes GrainBytes percent ≤ GrainBytes) ∧
      (∀ lower, lower ≤ percent →
        CollectionSetChooser.mixed_gc_live_threshold_bytes GrainBytes lower ≤
          CollectionSetChooser.mixed_gc_live_threshold_bytes GrainBytes percent) ∧
      (percent = 100 →
        CollectionSetChooser.mixed_gc_live_threshold_bytes GrainBytes percent = GrainBytes) ∧
      (percent = 0 → CollectionSetChooser.mixed_gc_live_threshold_bytes GrainBytes percent = 0) := by
  have key : ∀ q, GrainBytes * q < 2 ^ 64 →
      CollectionSetChooser.mixed_gc_live_threshold_bytes GrainBytes q = GrainBytes * q / 100 := by
    intro q hq
    unfold CollectionSetChooser.mixed_gc_live_threshold_bytes
    rcases Nat.eq_zero_or_pos GrainBytes with h0 | h0
    · rw [h0]
      simp
    · have hq64 : q < 2 ^ 64 := lt_of_le_of_lt (Nat.le_mul_of_pos_left q h0) hq
      rw [Nat.mod_eq_of_lt hq64, Nat.mod_eq_of_lt hq]
  refine ⟨key percent hprod, fun h100 => ?_, fun lower hl => ?_, fun h100 => ?_, fun h0 => ?_⟩
  · rw [key percent hprod]
    calc GrainBytes * percent / 100 ≤ GrainBytes * 100 / 100 :=
          Nat.div_le_div_right (Nat.mul_le_mul_left _ h100)
      _ = GrainBytes := Nat.mul_div_cancel _ (by norm_num)
  · have hlow : GrainBytes * lower < 2 ^ 64 :=
      lt_of_le_of_lt (Nat.mul_le_mul_left _ hl) hprod
    rw [key percent hprod, key lower hlow]
    exact Nat.div_le_div_right (Nat.mul_le_mul_left _ hl)
  · rw [key percent hprod, h100]
    exact Nat.mul_div_cancel _ (by norm_num)
  · rw [key percent hprod, h0]
    simp

/-- C19: `should_add(hr)` returns true only if (indeed exactly if) `hr` is not
pinned, its live bytes are below `_region_live_threshold_bytes` and its
remembered set is complete; the updater's `should_add` gives the chooser's
answer; so a pinned region is never added. -/
theorem CollectionSetChooser.should_add_spec (c : CollectionSetChooser)
    (u : CSetChooserParUpdater) (hr : HeapRegion) :
    (c.should_add hr = true ↔
        hr.is_pinned = false ∧ hr.live_bytes < c._region_live_threshold_bytes ∧
          hr.rem_set_is_complete = true) ∧
      u.should_add c hr = c.should_add hr ∧
      (hr.is_pinned = true → c.should_add hr = false ∧ u.should_add c hr = false) := by
  refine ⟨?_, rfl, fun hp => ?_⟩
  · unfold CollectionSetChooser.should_add
    simp [Bool.and_eq_true, and_assoc]
  · unfold CSetChooserParUpdater.should_add CollectionSetChooser.should_add
    simp [hp]

/-- The reclaimable bytes read through `regions_at` are the key of the slot. -/
theorem CollectionSetChooser.reclaimable_at_eq (c : CollectionSetChooser) (i : Nat)
    (slot : Option HeapRegion) (hi : i < 2 ^ 31) (h : c._regions[i]? = some slot) :
    c.reclaimable_at i = slot_reclaimable slot := by
  have hra := (CollectionSetChooser.regions_at_eq_ok c i slot).mpr ⟨hi, h⟩
  unfold CollectionSetChooser.reclaimable_at
  rw [hra]
  cases slot <;> rfl

/-- The array after `sort_regions()`: the slot at an active index `i` is the
entry number `i - _front` of the sorted active entries. -/
theorem CollectionSetChooser.sort_regions_getElem (c : CollectionSetChooser)
    (hle : c._front ≤ c._end) (hend : c._end ≤ c._regions.length) (i : Nat)
    (hi1 : c._front ≤ i) (hi2 : i < c._end) :
    c.sort_regions._regions[i]? =
      (((c._regions.drop c._front).take (c._end - c._front)).insertionSort
        (fun a b => slot_reclaimable b ≤ slot_reclaimable a))[i - c._front]? := by
  have hlt : (c._regions.take c._front).length = c._front := by
    rw [List.length_take]
    omega
  have hls : (((c._regions.drop c._front).take (c._end - c._front)).insertionSort
      (fun a b => slot_reclaimable b ≤ slot_reclaimable a)).length = c._end - c._front := by
    rw [List.length_insertionSort, List.length_take, List.length_drop]
    omega
  show (c._regions.take c._front ++ _ ++ _)[i]? = _
  rw [List.getElem?_append_left (by rw [List.length_append, hlt, hls]; omega),
    List.getElem?_append_right (by rw [hlt]; exact hi1), hlt]

/-- C18: after `sort_regions()` on a chooser whose active range
`[_front, _end)` lies inside the array, for all adjacent indices `i`, `i+1` in
`[_front, _end)`, `reclaimable_bytes(region[i]) >= reclaimable_bytes(region[i+1])`;
the call moves neither `_front` nor `_end` nor the running total, keeps the
array length, and the active entries afterwards are a rearrangement of the
active entries before. -/
theorem CollectionSetChooser.sort_regions_sorted (c : CollectionSetChooser)
    (hlen : c._regions.length < 2 ^ 31) (hle : c._front ≤ c._end)
    (hend : c._end ≤ c._regions.length) :
    c.sort_regions.active_sorted ∧
      c.sort_regions._front = c._front ∧ c.sort_regions._end = c._end ∧
      c.sort_regions._remaining_reclaimable_bytes = c._remaining_reclaimable_bytes ∧
      c.sort_regions._regions.length = c._regions.length ∧
      List.Perm ((c.sort_regions._regions.drop c._front).take (c._end - c._front))
        ((c._regions.drop c._front).take (c._end - c._front)) := by
  have hlt : (c._regions.take c._front).length = c._front := by
    rw [List.length_take]
    omega
  have hla : ((c._regions.drop c._front).take (c._end - c._front)).length =
      c._end - c._front := by
    rw [List.length_take, List.length_drop]
    omega
  have hls : (((c._regions.drop c._front).take (c._end - c._front)).insertionSort
      (fun a b => slot_reclaimable b ≤ slot_reclaimable a)).length = c._end - c._front := by
    rw [List.length_insertionSort, hla]
  haveI : IsTotal (Option HeapRegion) (fun a b => slot_reclaimable b ≤ slot_reclaimable a) :=
    ⟨fun a b => Nat.le_total (slot_reclaimable b) (slot_reclaimable a)⟩
  haveI : IsTrans (Option HeapRegion) (fun a b => slot_reclaimable b ≤ slot_reclaimable a) :=
    ⟨fun _ _ _ hab hbc => Nat.le_trans hbc hab⟩
  have hsorted := List.sorted_insertionSort
    (fun a b : Option HeapRegion => slot_reclaimable b ≤ slot_reclaimable a)
    ((c._regions.drop c._front).take (c._end - c._front))
  refine ⟨?_, rfl, rfl, rfl, ?_, ?_⟩
  · intro i hi1 hi2
    have hi1' : c._front ≤ i := hi1
    have hi2' : i + 1 < c._end := hi2
    have ha : i - c._front < (((c._regions.drop c._front).take
        (c._end - c._front)).insertionSort
        (fun a b => slot_reclaimable b ≤ slot_reclaimable a)).length := by
      rw [hls]
      omega
    have hb : i + 1 - c._front < (((c._regions.drop c._front).take
        (c._end - c._front)).insertionSort
        (fun a b => slot_reclaimable b ≤ slot_reclaimable a)).length := by
      rw [hls]
      omega
    have hrel := (List.pairwise_iff_getElem.mp hsorted) (i - c._front) (i + 1 - c._front) ha hb
      (by omega)
    have e1 := CollectionSetChooser.sort_regions_getElem c hle hend i hi1' (by omega)
    have e2 := CollectionSetChooser.sort_regions_getElem c hle hend (i + 1) (by omega) hi2'
    rw [List.getElem?_eq_getElem ha] at e1
    rw [List.getElem?_eq_getElem hb] at e2
    rw [CollectionSetChooser.reclaimable_at_eq c.sort_regions i _ (by omega) e1,
      CollectionSetChooser.reclaimable_at_eq c.sort_regions (i + 1) _ (by omega) e2]
    exact hrel
  · show (c._regions.take c._front ++ _ ++ _).length = _
    rw [List.length_append, List.length_append, hlt, hls, List.length_drop, hla]
    omega
  · have hact : (c.sort_regions._regions.drop c._front).take (c._end - c._front) =
        ((c._regions.drop c._front).take (c._end - c._front)).insertionSort
          (fun a b => slot_reclaimable b ≤ slot_reclaimable a) := by
      show ((c._regions.take c._front ++ _ ++ _).drop c._front).take (c._end - c._front) = _
      rw [List.append_assoc, List.drop_left' hlt, List.take_left' hls]
    rw [hact]
    exact List.perm_insertionSort _ _

/-- The indices handed out by successive atomic claims are the cursor values
`cursor`, `cursor + k`, `cursor + 2k`, ..., as long as the cursor does not
wrap. -/
theorem CollectionSetChooser.claim_all_aux (k : Nat) (schedule : List Nat) :
    ∀ c : CollectionSetChooser,
      c._first_par_unreserved_idx + schedule.length * k < 2 ^ 32 →
      (c.claim_all k schedule).1.map Prod.fst = schedule ∧
        (c.claim_all k schedule).1.map Prod.snd =
          List.range' c._first_par_unreserved_idx schedule.length k ∧
        (c.claim_all k schedule).2._first_par_unreserved_idx =
          c._first_par_unreserved_idx + schedule.length * k := by
  induction schedule with
  | nil =>
    intro c _
    exact ⟨rfl, rfl, by simp [CollectionSetChooser.claim_all]⟩
  | cons w ws ih =>
    intro c hc
    have hlen : (w :: ws).length * k = ws.length * k + k := by
      rw [List.length_cons, Nat.succ_mul]
    rw [hlen] at hc
    have hcur : (c.claim_array_chunk k).2._first_par_unreserved_idx =
        c._first_par_unreserved_idx + k := by
      show (c._first_par_unreserved_idx + k) % 2 ^ 32 = _
      exact Nat.mod_eq_of_lt (by omega)
    obtain ⟨h1, h2, h3⟩ := ih (c.claim_array_chunk k).2 (by rw [hcur]; omega)
    refine ⟨?_, ?_, ?_⟩
    · simp only [CollectionSetChooser.claim_all, List.map_cons, h1]
    · simp only [CollectionSetChooser.claim_all, List.map_cons, h2, hcur, List.length_cons,
        List.range'_succ]
      rfl
    · simp only [CollectionSetChooser.claim_all, h3, hcur]
      rw [hlen]
      omega

/-- Successive multiples of the chunk size are at least a chunk apart. -/
theorem range'_step_pairwise (k n : Nat) :
    ∀ s, (List.range' s n k).Pairwise (fun a b => a + k ≤ b) := by
  induction n with
  | zero => intro s; simp
  | succ n ih =>
    intro s
    rw [List.range'_succ]
    refine List.Pairwise.cons ?_ (ih (s + k))
    intro b hb
    obtain ⟨i, _, hi⟩ := List.mem_range'.mp hb
    rw [hi]
    omega

/-- C20: for any set of concurrent `claim_array_chunk(k)` calls by different
workers, taken in the order in which their atomic updates of the cursor take
effect (any order, any workers), starting from a cursor of 0 and with a total
below 2^32: the `i`-th call in that order gets index `i * k`, so the ranges
`[idx, idx + k)` are pairwise disjoint, lie in `[0, total_claimed)` and cover
it without gaps, and the cursor ends at `total_claimed`. -/
theorem CollectionSetChooser.claim_all_disjoint_cover (c : CollectionSetChooser) (k : Nat)
    (schedule : List Nat) (h0 : c._first_par_unreserved_idx = 0)
    (htotal : schedule.length * k < 2 ^ 32) :
    (c.claim_all k schedule).1.map Prod.fst = schedule ∧
      (c.claim_all k schedule).1.map Prod.snd = List.range' 0 schedule.length k ∧
      ((c.claim_all k schedule).1.map Prod.snd).Pairwise (fun a b => a + k ≤ b) ∧
      (∀ idx ∈ (c.claim_all k schedule).1.map Prod.snd, idx + k ≤ schedule.length * k) ∧
      (∀ x, x < schedule.length * k →
        ∃ idx ∈ (c.claim_all k schedule).1.map Prod.snd, idx ≤ x ∧ x < idx + k) ∧
      (c.claim_all k schedule).2._first_par_unreserved_idx = schedule.length * k := by
  obtain ⟨h1, h2, h3⟩ := CollectionSetChooser.claim_all_aux k schedule c (by rw [h0]; omega)
  rw [h0] at h2 h3
  refine ⟨h1, h2, ?_, ?_, ?_, by rw [h3]; omega⟩
  · rw [h2]
    exact range'_step_pairwise k schedule.length 0
  · intro idx hidx
    rw [h2] at hidx
    obtain ⟨i, hi, hix⟩ := List.mem_range'.mp hidx
    rw [hix]
    have hmul : k * (i + 1) ≤ k * schedule.length := Nat.mul_le_mul_left k hi
    rw [Nat.mul_succ, Nat.mul_comm k schedule.length] at hmul
    omega
  · intro x hx
    have hk : 0 < k := by
      rcases Nat.eq_zero_or_pos k with hk0 | hk0
      · rw [hk0] at hx
        simp at hx
      · exact hk0
    refine ⟨k * (x / k), ?_, ?_, ?_⟩
    · rw [h2]
      refine List.mem_range'.mpr ⟨x / k, ?_, by omega⟩
      apply Nat.div_lt_of_lt_mul
      rw [Nat.mul_comm]
      exact hx
    · exact Nat.mul_div_le x k
    · have hm := Nat.div_add_mod x k
      have hr := Nat.mod_lt x hk
      omega

/-- `add_region` in parallel mode when the current chunk is used up: a chunk
is claimed and its first index is written. -/
theorem CSetChooserParUpdater.add_region_claim (u : CSetChooserParUpdater) (hr : HeapRegion)
    (claimed : Nat) (hp : u._parallel = true) (heq : u._cur_chunk_idx = u._cur_chunk_end)
    (hk : 0 < u._chunk_size) (hlt : claimed + u._chunk_size < 2 ^ 32) :
    u.add_region hr claimed = .ok
      ({ u with
          _cur_chunk_idx := claimed + 1
          _cur_chunk_end := claimed + u._chunk_size
          _regions_added := (u._regions_added + 1) % 2 ^ 32
          _reclaimable_bytes_added :=
            (u._reclaimable_bytes_added + hr.reclaimable_bytes) % 2 ^ 64 },
        [.claim_array_chunk u._chunk_size, .set_region claimed hr]) := by
  have hm1 : (claimed + u._chunk_size) % 2 ^ 32 = claimed + u._chunk_size :=
    Nat.mod_eq_of_lt hlt
  have hm2 : (claimed + 1) % 2 ^ 32 = claimed + 1 := Nat.mod_eq_of_lt (by omega)
  have hlt2 : claimed < claimed + u._chunk_size := by omega
  simp only [CSetChooserParUpdater.add_region, hp, heq, if_true, hm1, hm2, hlt2,
    not_true_eq_false, if_false, List.singleton_append]

/-- `add_region` in parallel mode inside a claimed chunk: the next index of
the chunk is written. -/
theorem CSetChooserParUpdater.add_region_no_claim (u : CSetChooserParUpdater) (hr : HeapRegion)
    (claimed : Nat) (hp : u._parallel = true) (hlt : u._cur_chunk_idx < u._cur_chunk_end)
    (hend : u._cur_chunk_end < 2 ^ 32) :
    u.add_region hr claimed = .ok
      ({ u with
          _cur_chunk_idx := u._cur_chunk_idx + 1
          _regions_added := (u._regions_added + 1) % 2 ^ 32
          _reclaimable_bytes_added :=
            (u._reclaimable_bytes_added + hr.reclaimable_bytes) % 2 ^ 64 },
        [.set_region u._cur_chunk_idx hr]) := by
  have hne : ¬ u._cur_chunk_idx = u._cur_chunk_end := by omega
  have hm2 : (u._cur_chunk_idx + 1) % 2 ^ 32 = u._cur_chunk_idx + 1 :=
    Nat.mod_eq_of_lt (by omega)
  simp only [CSetChooserParUpdater.add_region, hp, hne, if_true, if_false, hm2, hlt,
    not_true_eq_false, List.nil_append]

/-- `add_region` in serial mode: the serial `add_region` of the chooser is
called. -/
theorem CSetChooserParUpdater.add_region_serial (u : CSetChooserParUpdater) (hr : HeapRegion)
    (claimed : Nat) (hp : u._parallel = false) :
    u.add_region hr claimed = .ok
      ({ u with
          _regions_added := (u._regions_added + 1) % 2 ^ 32
          _reclaimable_bytes_added :=
            (u._reclaimable_bytes_added + hr.reclaimable_bytes) % 2 ^ 64 },
        [.add_region hr]) := by
  simp [CSetChooserParUpdater.add_region, hp]

/-- The claimed index at a chunk boundary and inside a chunk. -/
theorem CSetChooserParUpdater.claimed_index_eq (claims : Nat → Nat) (k q r : Nat)
    (hr : r < k) : CSetChooserParUpdater.claimed_index claims k (q * k + r) = claims q + r := by
  have hk : 0 < k := by omega
  unfold CSetChooserParUpdater.claimed_index
  rw [Nat.mul_comm q k, Nat.mul_add_div hk, Nat.mul_add_mod, Nat.div_eq_of_lt hr,
    Nat.mod_eq_of_lt hr, Nat.add_zero]

/-- Under the invariant, every earlier `add_region` call used a chunk that
the updater has claimed. -/
theorem CSetChooserParUpdater.chunk_invariant_claimed (claims : Nat → Nat) (k : Nat)
    (u : CSetChooserParUpdater) (n j : Nat)
    (hinv : u.chunk_invariant claims k n j) : ∀ i, i < j → i / k < n := by
  intro i hi
  obtain ⟨_, _, hcase⟩ := hinv
  apply Nat.div_lt_of_lt_mul
  rcases hcase with ⟨_, hj⟩ | ⟨q, r, hn, _, hrk, hj, _, _⟩
  · rw [Nat.mul_comm]
    omega
  · rw [hn, Nat.mul_succ, Nat.mul_comm k q]
    omega

/-- One `add_region` call of a parallel updater under the invariant: it
returns, writes the claimed index of call number `j`, claims with its chunk
size only, and re-establishes the invariant. -/
theorem CSetChooserParUpdater.chunk_invariant_step (claims : Nat → Nat) (k : Nat)
    (u : CSetChooserParUpdater) (n j total : Nat) (hr : HeapRegion) (hk : 0 < k)
    (hj : j < total) (hclaims : ∀ i, i * k < total → claims i + k < 2 ^ 32)
    (hinv : u.chunk_invariant claims k n j) :
    ∃ u1 calls, u.add_region hr (claims n) = .ok (u1, calls) ∧
      calls.filterMap ChooserCall.set_region_args =
        [(CSetChooserParUpdater.claimed_index claims k j, hr)] ∧
      u1.chunk_invariant claims k (n + (calls.filter ChooserCall.is_claim).length) (j + 1) ∧
      (∀ call ∈ calls, call.is_claim = true → call = .claim_array_chunk k) := by
  obtain ⟨hp, hcs, hcase⟩ := hinv
  rcases hcase with ⟨heq, hj⟩ | ⟨q, r, hn, hr0, hrk, hj, hidx, hend⟩
  · have hstep := CSetChooserParUpdater.add_region_claim u hr (claims n) hp heq
      (by rw [hcs]; exact hk) (by rw [hcs]; exact hclaims n (by omega))
    have hci : CSetChooserParUpdater.claimed_index claims k j = claims n := by
      have h := CSetChooserParUpdater.claimed_index_eq claims k n 0 hk
      rw [Nat.add_zero, Nat.add_zero] at h
      rw [hj]
      exact h
    refine ⟨_, _, hstep, ?_, ?_, ?_⟩
    · simp [ChooserCall.set_region_args, hci]
    · have hcount : ([ChooserCall.claim_array_chunk u._chunk_size,
          ChooserCall.set_region (claims n) hr].filter ChooserCall.is_claim).length = 1 := by
        simp [ChooserCall.is_claim]
      rw [hcount]
      refine ⟨hp, hcs, ?_⟩
      by_cases hk1 : k = 1
      · left
        refine ⟨?_, ?_⟩
        · show claims n + 1 = claims n + u._chunk_size
          rw [hcs, hk1]
        · rw [hj, hk1]
          omega
      · right
        refine ⟨n, 1, rfl, by omega, by omega, by rw [hj], rfl, ?_⟩
        show claims n + u._chunk_size = claims n + k
        rw [hcs]
    · intro call hcall hclaim
      simp only [List.mem_cons, List.mem_singleton, List.not_mem_nil, or_false] at hcall
      rcases hcall with rfl | rfl
      · rw [hcs]
      · simp [ChooserCall.is_claim] at hclaim
  · have hstep := CSetChooserParUpdater.add_region_no_claim u hr (claims n) hp
      (by rw [hidx, hend]; omega) (by rw [hend]; exact hclaims q (by omega))
    have hci : CSetChooserParUpdater.claimed_index claims k j = claims q + r := by
      rw [hj]
      exact CSetChooserParUpdater.claimed_index_eq claims k q r hrk
    refine ⟨_, _, hstep, ?_, ?_, ?_⟩
    · simp [ChooserCall.set_region_args, hci, hidx]
    · have hcount : ([ChooserCall.set_region u._cur_chunk_idx hr].filter
          ChooserCall.is_claim).length = 0 := by
        simp [ChooserCall.is_claim]
      rw [hcount]
      refine ⟨hp, hcs, ?_⟩
      by_cases hlast : r + 1 = k
      · left
        refine ⟨?_, ?_⟩
        · show u._cur_chunk_idx + 1 = u._cur_chunk_end
          rw [hidx, hend]
          omega
        · rw [hj, hn, Nat.add_zero, Nat.succ_mul]
          omega
      · right
        refine ⟨q, r + 1, by omega, by omega, by omega, by omega, ?_, hend⟩
        show u._cur_chunk_idx + 1 = claims q + (r + 1)
        rw [hidx]
        omega
    · intro call hcall hclaim
      simp only [List.mem_singleton] at hcall
      rw [hcall] at hclaim
      simp [ChooserCall.is_claim] at hclaim

/-- A run of `add_region` calls of a parallel updater under the invariant:
every call returns, call number `j` writes its claimed index, and the
invariant holds at the end. -/
theorem CSetChooserParUpdater.add_regions_parallel (claims : Nat → Nat) (k total : Nat)
    (hk : 0 < k) (hclaims : ∀ i, i * k < total → claims i + k < 2 ^ 32)
    (hrs : List HeapRegion) :
    ∀ (u : CSetChooserParUpdater) (n j : Nat), j + hrs.length ≤ total →
      u.chunk_invariant claims k n j →
      ∃ u1 n1 log, u.add_regions claims n hrs = .ok (u1, n1, log) ∧
        log.filterMap ChooserCall.set_region_args =
          (hrs.enumFrom j).map
            (fun p => (CSetChooserParUpdater.claimed_index claims k p.1, p.2)) ∧
        u1.chunk_invariant claims k n1 (j + hrs.length) ∧
        (∀ call ∈ log, call.is_claim = true → call = .claim_array_chunk k) ∧
        n + (log.filter ChooserCall.is_claim).length = n1 := by
  induction hrs with
  | nil =>
    intro u n j _ hinv
    exact ⟨u, n, [], rfl, rfl, hinv, fun _ h => by simp at h, rfl⟩
  | cons hr hrs ih =>
    intro u n j htotal hinv
    rw [List.length_cons] at htotal
    obtain ⟨u1, calls, hstep, hset, hinv1, hcl⟩ :=
      CSetChooserParUpdater.chunk_invariant_step claims k u n j total hr hk (by omega) hclaims
        hinv
    obtain ⟨u2, n2, log, hrun, hset2, hinv2, hcl2, hcount⟩ :=
      ih u1 _ (j + 1) (by omega) hinv1
    refine ⟨u2, n2, calls ++ log, ?_, ?_, ?_, ?_, ?_⟩
    · simp only [CSetChooserParUpdater.add_regions, hstep, hrun]
    · rw [List.filterMap_append, hset, hset2]
      rfl
    · have hlen : j + (hr :: hrs).length = j + 1 + hrs.length := by
        rw [List.length_cons]
        omega
      rw [hlen]
      exact hinv2
    · intro call hcall hclaim
      rcases List.mem_append.mp hcall with h | h
      · exact hcl call h hclaim
      · exact hcl2 call h hclaim
    · rw [List.filter_append, List.length_append, ← hcount]
      omega

/-- The bookkeeping of one `add_region` call that returns, in either mode:
one more region, its reclaimable bytes added, no `update_totals` call. -/
theorem CSetChooserParUpdater.add_region_accounting (u u1 : CSetChooserParUpdater)
    (hr : HeapRegion) (claimed : Nat) (calls : List ChooserCall)
    (h : u.add_region hr claimed = .ok (u1, calls)) :
    u1._parallel = u._parallel ∧
      u1._regions_added = (u._regions_added + 1) % 2 ^ 32 ∧
      u1._reclaimable_bytes_added =
        (u._reclaimable_bytes_added + hr.reclaimable_bytes) % 2 ^ 64 ∧
      ∀ call ∈ calls, call.is_update_totals = false := by
  cases hp : u._parallel with
  | false =>
    rw [CSetChooserParUpdater.add_region_serial u hr claimed hp] at h
    simp only [Except.ok.injEq, Prod.mk.injEq] at h
    obtain ⟨rfl, rfl⟩ := h
    refine ⟨hp, rfl, rfl, ?_⟩
    intro call hcall
    simp only [List.mem_singleton] at hcall
    rw [hcall]
    rfl
  | true =>
    unfold CSetChooserParUpdater.add_region at h
    by_cases heq : u._cur_chunk_idx = u._cur_chunk_end
    · simp only [hp, heq, if_true] at h
      split at h
      · cases h
      · simp only [Except.ok.injEq, Prod.mk.injEq] at h
        obtain ⟨rfl, rfl⟩ := h
        refine ⟨rfl, rfl, rfl, ?_⟩
        intro call hcall
        simp only [List.singleton_append, List.mem_cons, List.mem_singleton, List.not_mem_nil,
          or_false] at hcall
        rcases hcall with rfl | rfl <;> rfl
    · simp only [hp, heq, if_true, if_false] at h
      split at h
      · cases h
      · simp only [Except.ok.injEq, Prod.mk.injEq] at h
        obtain ⟨rfl, rfl⟩ := h
        refine ⟨rfl, rfl, rfl, ?_⟩
        intro call hcall
        simp only [List.nil_append, List.mem_singleton] at hcall
        rw [hcall]
        rfl

/-- The bookkeeping of a run of `add_region` calls that returns, in either
mode: the region count and the byte sum grow by those of the regions added
(on `uint` and `size_t`), and `update_totals` is not called. -/
theorem CSetChooserParUpdater.add_regions_accounting (claims : Nat → Nat)
    (hrs : List HeapRegion) :
    ∀ (u u1 : CSetChooserParUpdater) (n n1 : Nat) (log : List ChooserCall),
      u._regions_added < 2 ^ 32 → u._reclaimable_bytes_added < 2 ^ 64 →
      u.add_regions claims n hrs = .ok (u1, n1, log) →
      u1._parallel = u._parallel ∧
        u1._regions_added = (u._regions_added + hrs.length) % 2 ^ 32 ∧
        u1._reclaimable_bytes_added =
          (u._reclaimable_bytes_added + (hrs.map HeapRegion.reclaimable_bytes).sum) % 2 ^ 64 ∧
        ∀ call ∈ log, call.is_update_totals = false := by
  induction hrs with
  | nil =>
    intro u u1 n n1 log hra hrb h
    simp only [CSetChooserParUpdater.add_regions, Except.ok.injEq, Prod.mk.injEq] at h
    obtain ⟨rfl, _, rfl⟩ := h
    simp only [List.length_nil, List.map_nil, List.sum_nil, Nat.add_zero]
    exact ⟨trivial, (Nat.mod_eq_of_lt hra).symm, (Nat.mod_eq_of_lt hrb).symm,
      fun _ hc => by simp at hc⟩
  | cons hr hrs ih =>
    intro u u1 n n1 log hra hrb h
    simp only [CSetChooserParUpdater.add_regions] at h
    cases hstep : u.add_region hr (claims n) with
    | error e => rw [hstep] at h; cases h
    | ok res =>
      obtain ⟨u2, calls⟩ := res
      rw [hstep] at h
      simp only at h
      cases hrun : u2.add_regions claims (n + (calls.filter ChooserCall.is_claim).length) hrs with
      | error e => rw [hrun] at h; cases h
      | ok res2 =>
        obtain ⟨u3, n3, log3⟩ := res2
        rw [hrun] at h
        simp only [Except.ok.injEq, Prod.mk.injEq] at h
        obtain ⟨rfl, rfl, rfl⟩ := h
        obtain ⟨a1, a2, a3, a4⟩ :=
          CSetChooserParUpdater.add_region_accounting u u2 hr (claims n) calls hstep
        obtain ⟨b1, b2, b3, b4⟩ := ih u2 u3 _ n3 log3
          (by rw [a2]; exact Nat.mod_lt _ (by norm_num))
          (by rw [a3]; exact Nat.mod_lt _ (by norm_num)) hrun
        refine ⟨b1.trans a1, ?_, ?_, ?_⟩
        · rw [b2, a2, List.length_cons]
          omega
        · rw [b3, a3, List.map_cons, List.sum_cons]
          omega
        · intro call hcall
          rcases List.mem_append.mp hcall with hc | hc
          · exact a4 call hc
          · exact b4 call hc

/-- In serial mode every run of `add_region` calls returns. -/
theorem CSetChooserParUpdater.add_regions_serial (claims : Nat → Nat) (hrs : List HeapRegion) :
    ∀ (u : CSetChooserParUpdater) (n : Nat), u._parallel = false →
      ∃ u1 n1 log, u.add_regions claims n hrs = .ok (u1, n1, log) := by
  induction hrs with
  | nil => intro u n _; exact ⟨u, n, [], rfl⟩
  | cons hr hrs ih =>
    intro u n hp
    have hstep := CSetChooserParUpdater.add_region_serial u hr (claims n) hp
    obtain ⟨u1, n1, log, hrun⟩ := ih
      { u with
        _regions_added := (u._regions_added + 1) % 2 ^ 32
        _reclaimable_bytes_added :=
          (u._reclaimable_bytes_added + hr.reclaimable_bytes) % 2 ^ 64 }
      (n + ([ChooserCall.add_region hr].filter ChooserCall.is_claim).length) hp
    exact ⟨u1, n1, [ChooserCall.add_region hr] ++ log, by
      simp only [CSetChooserParUpdater.add_regions, hstep, hrun]⟩

/-- With pairwise disjoint claimed chunks, different calls have different
claimed indices. -/
theorem CSetChooserParUpdater.claimed_index_injective (claims : Nat → Nat) (k total : Nat)
    (hk : 0 < k)
    (hdisj : ∀ a b, a < b → b * k < total → claims a + k ≤ claims b ∨ claims b + k ≤ claims a)
    (i j : Nat) (hi : i < total) (hj : j < total)
    (h : CSetChooserParUpdater.claimed_index claims k i =
      CSetChooserParUpdater.claimed_index claims k j) : i = j := by
  unfold CSetChooserParUpdater.claimed_index at h
  have hmi := Nat.mod_lt i hk
  have hmj := Nat.mod_lt j hk
  have hdi := Nat.div_add_mod i k
  have hdj := Nat.div_add_mod j k
  have hbi : i / k * k < total := by rw [Nat.mul_comm]; omega
  have hbj : j / k * k < total := by rw [Nat.mul_comm]; omega
  rcases Nat.lt_trichotomy (i / k) (j / k) with hlt | heq | hgt
  · rcases hdisj _ _ hlt hbj with hd | hd <;> omega
  · rw [heq] at h hdi
    omega
  · rcases hdisj _ _ hgt hbi with hd | hd <;> omega

/-- C15: in parallel mode with chunk size `k >= 1` (and claimed chunks that
end below 2^32), every `add_region` call of a fresh updater returns, and the
`j`-th call (`j = 0, 1, ...`) stores its region with `set_region` at index
`c + (j mod k)`, where `c` is the value returned by the updater's
`floor(j/k)`-th `claim_array_chunk(k)` call; that claim has been made, so
every index written lies inside a range `[c, c + k)` the updater claimed
itself, and, the claimed ranges being pairwise disjoint, no index is written
twice. -/
theorem CSetChooserParUpdater.add_region_writes_claimed_indices (claims : Nat → Nat) (k : Nat)
    (hrs : List HeapRegion) (hk : 1 ≤ k)
    (hclaims : ∀ i, i * k < hrs.length → claims i + k < 2 ^ 32) :
    ∃ u1 n1 log,
      (CSetChooserParUpdater.construct true k).add_regions claims 0 hrs = .ok (u1, n1, log) ∧
      log.filterMap ChooserCall.set_region_args =
        hrs.enum.map (fun p => (claims (p.1 / k) + p.1 % k, p.2)) ∧
      (∀ j, j < hrs.length →
        j / k < n1 ∧ claims (j / k) ≤ claims (j / k) + j % k ∧
          claims (j / k) + j % k < claims (j / k) + k) ∧
      (∀ call ∈ log, call.is_claim = true → call = .claim_array_chunk k) ∧
      (log.filter ChooserCall.is_claim).length = n1 ∧
      ((∀ a b, a < b → b * k < hrs.length →
          claims a + k ≤ claims b ∨ claims b + k ≤ claims a) →
        ((log.filterMap ChooserCall.set_region_args).map Prod.fst).Nodup) := by
  have hinit : (CSetChooserParUpdater.construct true k).chunk_invariant claims k 0 0 :=
    ⟨rfl, rfl, Or.inl ⟨rfl, by simp⟩⟩
  obtain ⟨u1, n1, log, hrun, hset, hinv, hcl, hcount⟩ :=
    CSetChooserParUpdater.add_regions_parallel claims k hrs.length hk hclaims hrs _ 0 0
      (by omega) hinit
  have hset' : log.filterMap ChooserCall.set_region_args =
      hrs.enum.map (fun p => (claims (p.1 / k) + p.1 % k, p.2)) := hset
  refine ⟨u1, n1, log, hrun, hset', ?_, hcl, by omega, ?_⟩
  · intro j hj
    have hmod := Nat.mod_lt j hk
    refine ⟨?_, by omega, by omega⟩
    exact CSetChooserParUpdater.chunk_invariant_claimed claims k u1 n1 _ hinv j (by omega)
  · intro hdisj
    have hfst : (log.filterMap ChooserCall.set_region_args).map Prod.fst =
        (List.range hrs.length).map (CSetChooserParUpdater.claimed_index claims k) := by
      rw [hset, ← List.enum_map_fst, List.map_map, List.map_map]
      rfl
    rw [hfst]
    exact List.Nodup.map_on
      (fun x hx y hy hxy =>
        CSetChooserParUpdater.claimed_index_injective claims k hrs.length hk hdisj x y
          (List.mem_range.mp hx) (List.mem_range.mp hy) hxy)
      (List.nodup_range _)

/-- C16: when an updater on which `add_region` was called `N` times (with `N`
and the byte sum representable as `uint` and `size_t`) is destroyed, it calls
`update_totals` exactly once, with `region_num = N` and `reclaimable_bytes` =
the sum of `reclaimable_bytes()` of the `N` added regions, if it is in
parallel mode and `N >= 1`, and zero times otherwise; `add_region` itself
never calls `update_totals`.  The `N` calls do return in serial mode and, in
parallel mode, when the chunk size is at least 1 and the claimed chunks end
below 2^32. -/
theorem CSetChooserParUpdater.destruct_spec (claims : Nat → Nat) (parallel : Bool) (k : Nat)
    (hrs : List HeapRegion) (hN : hrs.length < 2 ^ 32)
    (hsum : (hrs.map HeapRegion.reclaimable_bytes).sum < 2 ^ 64) :
    ((parallel = false ∨ (1 ≤ k ∧ ∀ i, i * k < hrs.length → claims i + k < 2 ^ 32)) →
        ∃ u1 n1 log,
          (CSetChooserParUpdater.construct parallel k).add_regions claims 0 hrs =
            .ok (u1, n1, log)) ∧
      ∀ u1 n1 log,
        (CSetChooserParUpdater.construct parallel k).add_regions claims 0 hrs =
            .ok (u1, n1, log) →
          (∀ call ∈ log, call.is_update_totals = false) ∧
            u1.destruct =
              if parallel = true ∧ 1 ≤ hrs.length then
                [.update_totals hrs.length (hrs.map HeapRegion.reclaimable_bytes).sum]
              else [] := by
  refine ⟨?_, ?_⟩
  · rintro (hp | ⟨hk, hclaims⟩)
    · exact CSetChooserParUpdater.add_regions_serial claims hrs _ 0 (by rw [hp]; rfl)
    · cases parallel with
      | false => exact CSetChooserParUpdater.add_regions_serial claims hrs _ 0 rfl
      | true =>
        obtain ⟨u1, n1, log, hrun, _⟩ :=
          CSetChooserParUpdater.add_regions_parallel claims k hrs.length hk hclaims hrs
            (CSetChooserParUpdater.construct true k) 0 0 (by omega)
            ⟨rfl, rfl, Or.inl ⟨rfl, by simp⟩⟩
        exact ⟨u1, n1, log, hrun⟩
  · intro u1 n1 log hrun
    obtain ⟨a1, a2, a3, a4⟩ := CSetChooserParUpdater.add_regions_accounting claims hrs
      (CSetChooserParUpdater.construct parallel k) u1 0 n1 log (by simp [CSetChooserParUpdater.construct])
      (by simp [CSetChooserParUpdater.construct]) hrun
    have b1 : u1._parallel = parallel := a1
    have b2 : u1._regions_added = hrs.length := by
      rw [a2]
      show (0 + hrs.length) % 2 ^ 32 = hrs.length
      rw [Nat.zero_add]
      exact Nat.mod_eq_of_lt hN
    have b3 : u1._reclaimable_bytes_added = (hrs.map HeapRegion.reclaimable_bytes).sum := by
      rw [a3]
      show (0 + (hrs.map HeapRegion.reclaimable_bytes).sum) % 2 ^ 64 = _
      rw [Nat.zero_add]
      exact Nat.mod_eq_of_lt hsum
    refine ⟨a4, ?_⟩
    unfold CSetChooserParUpdater.destruct
    rw [b1, b2, b3]
    cases parallel with
    | false => simp
    | true =>
      by_cases hpos : 1 ≤ hrs.length
      · have : hrs.length > 0 := hpos
        simp [hpos, this]
      · have hnil : hrs = [] := List.eq_nil_of_length_eq_zero (by omega)
        simp [hnil]

/-- Under the invariant the number of claims is the number of calls divided by
the chunk size, rounded up. -/
theorem CSetChooserParUpdater.chunk_invariant_count (claims : Nat → Nat) (k : Nat)
    (u : CSetChooserParUpdater) (n j : Nat) (hk : 0 < k)
    (hinv : u.chunk_invariant claims k n j) :
    j ≤ n * k ∧ n * k < j + k ∧ (j + k - 1) / k = n ∧ u._cur_chunk_idx ≤ u._cur_chunk_end := by
  obtain ⟨_, _, hcase⟩ := hinv
  have hbounds : j ≤ n * k ∧ n * k < j + k ∧ u._cur_chunk_idx ≤ u._cur_chunk_end := by
    rcases hcase with ⟨heq, hj⟩ | ⟨q, r, hn, hr0, hrk, hj, hidx, hend⟩
    · omega
    · rw [hn, Nat.succ_mul]
      omega
  refine ⟨hbounds.1, hbounds.2.1, ?_, hbounds.2.2⟩
  apply Nat.div_eq_of_lt_le
  · omega
  · rw [Nat.succ_mul]
    omega

/-- C21: in parallel mode with chunk size `k >= 1` (and claimed chunks that
end below 2^32), after `N` `add_region` calls on a fresh updater the updater
has called `claim_array_chunk` exactly `ceil(N / k)` times, each time with
argument `k`. -/
theorem CSetChooserParUpdater.claim_count (claims : Nat → Nat) (k : Nat)
    (hrs : List HeapRegion) (hk : 1 ≤ k)
    (hclaims : ∀ i, i * k < hrs.length → claims i + k < 2 ^ 32) :
    ∃ u1 n1 log,
      (CSetChooserParUpdater.construct true k).add_regions claims 0 hrs = .ok (u1, n1, log) ∧
      (log.filter ChooserCall.is_claim).length = (hrs.length + k - 1) / k ∧
      hrs.length ≤ (log.filter ChooserCall.is_claim).length * k ∧
      (log.filter ChooserCall.is_claim).length * k < hrs.length + k ∧
      log.filter ChooserCall.is_claim =
        List.replicate ((hrs.length + k - 1) / k) (.claim_array_chunk k) := by
  have hinit : (CSetChooserParUpdater.construct true k).chunk_invariant claims k 0 0 :=
    ⟨rfl, rfl, Or.inl ⟨rfl, by simp⟩⟩
  obtain ⟨u1, n1, log, hrun, _, hinv, hcl, hcount⟩ :=
    CSetChooserParUpdater.add_regions_parallel claims k hrs.length hk hclaims hrs _ 0 0
      (by omega) hinit
  rw [Nat.zero_add] at hinv hcount
  obtain ⟨h1, h2, h3, _⟩ :=
    CSetChooserParUpdater.chunk_invariant_count claims k u1 n1 hrs.length hk hinv
  refine ⟨u1, n1, log, hrun, by rw [hcount, h3], by rw [hcount]; exact h1,
    by rw [hcount]; exact h2, ?_⟩
  rw [List.eq_replicate_iff]
  refine ⟨by rw [hcount, h3], fun call hcall => ?_⟩
  have hmem := List.mem_filter.mp hcall
  exact hcl call hmem.1 hmem.2

/-- C25: on a (well-typed) chooser with `_front < _end`, a region in every
slot of `[_front, _end)` and `_remaining_reclaimable_bytes` equal to the sum of
their reclaimable bytes, all three assertions of `pop()` hold (the head slot
holds a region, `_front < _end`, and its reclaimable bytes are at most the
running total), so `pop()` returns and the subtraction does not underflow;
afterwards `_front <= _end` still holds and `length()` (`_end`) is unchanged. -/
theorem CollectionSetChooser.pop_assertions_hold (c : CollectionSetChooser)
    (hty : c.well_typed) (hlt : c._front < c._end) (hnn : c.active_non_null)
    (hsum : c._remaining_reclaimable_bytes = c.reclaimable_sum) :
    ∃ hr c1, c.regions_at c._front = .ok (some hr) ∧ c._front < c._end ∧
      hr.reclaimable_bytes ≤ c._remaining_reclaimable_bytes ∧
      c.pop = .ok (hr, c1) ∧
      c1._remaining_reclaimable_bytes + hr.reclaimable_bytes = c._remaining_reclaimable_bytes ∧
      c1._front ≤ c1._end ∧ c1.length = c.length := by
  obtain ⟨hr, hfront⟩ := hnn c._front (le_refl _) hlt
  obtain ⟨hle, _⟩ := CollectionSetChooser.pop_step_sum c hr hlt hfront hsum
  refine ⟨hr, _, hfront, hlt, hle, CollectionSetChooser.pop_step c hr hty hlt hfront hle, ?_, ?_,
    rfl⟩
  · exact Nat.sub_add_cancel hle
  · show c._front + 1 ≤ c._end
    omega

/-- C26: for every chunk size `k >= 1` and every sequence of parallel
`add_region` calls in which each claimed index `c` satisfies `c + k < 2^32`,
every call returns, so the assertion `_cur_chunk_idx < _cur_chunk_end` holds
on every call, and `_cur_chunk_idx <= _cur_chunk_end` holds after each call;
with chunk size 0 the assertion fails on the first call. -/
theorem CSetChooserParUpdater.add_region_assertion (claims : Nat → Nat) (k : Nat)
    (hrs : List HeapRegion) (hk : 1 ≤ k)
    (hclaims : ∀ i, i * k < hrs.length → claims i + k < 2 ^ 32) :
    (∀ m, m ≤ hrs.length → ∃ u1 n1 log,
        (CSetChooserParUpdater.construct true k).add_regions claims 0 (hrs.take m) =
          .ok (u1, n1, log) ∧
        u1._cur_chunk_idx ≤ u1._cur_chunk_end) ∧
      (∀ (hr : HeapRegion) (claimed : Nat),
        (CSetChooserParUpdater.construct true 0).add_region hr claimed =
          .error .assert_cur_chunk_idx_lt_cur_chunk_end) ∧
      (∀ (claims0 : Nat → Nat) (hr : HeapRegion) (rest : List HeapRegion),
        (CSetChooserParUpdater.construct true 0).add_regions claims0 0 (hr :: rest) =
          .error .assert_cur_chunk_idx_lt_cur_chunk_end) := by
  have hzero : ∀ (hr : HeapRegion) (claimed : Nat),
      (CSetChooserParUpdater.construct true 0).add_region hr claimed =
        .error .assert_cur_chunk_idx_lt_cur_chunk_end := by
    intro hr claimed
    have hle : claimed % 4294967296 ≤ claimed := Nat.mod_le claimed 4294967296
    simp [CSetChooserParUpdater.add_region, CSetChooserParUpdater.construct, hle]
  refine ⟨fun m hm => ?_, hzero, fun claims0 hr rest => ?_⟩
  · have hinit : (CSetChooserParUpdater.construct true k).chunk_invariant claims k 0 0 :=
      ⟨rfl, rfl, Or.inl ⟨rfl, by simp⟩⟩
    have hlen : (hrs.take m).length = m := by
      rw [List.length_take]
      omega
    obtain ⟨u1, n1, log, hrun, _, hinv, _, _⟩ :=
      CSetChooserParUpdater.add_regions_parallel claims k hrs.length hk hclaims (hrs.take m) _
        0 0 (by omega) hinit
    exact ⟨u1, n1, log, hrun,
      (CSetChooserParUpdater.chunk_invariant_count claims k u1 n1 _ hk hinv).2.2.2⟩
  · simp only [CSetChooserParUpdater.add_regions, hzero]

namespace metaspace

/-- C27: for every chunk type, `is_class` flag, container and word size of at
least `overhead()`, a chunk freshly constructed at an address where it fits
has `top == initial_top()` (`bottom + overhead()`), `is_tagged_free() == false`,
use count 0, origin normal and a valid sentinel, the fields it was given, so
`used_word_size() == overhead()` and `free_word_size() == word_size - overhead()`,
and `bottom <= top <= end` holds. -/
theorem Metachunk.construct_spec (d : MetachunkDecls) (this_addr chunktype : Nat)
    (is_class : Bool) (word_size container : Nat) (hws : Metachunk.overhead d ≤ word_size)
    (hfit : this_addr + word_size * sizeof_MetaWord < 2 ^ 64) :
    (Metachunk.construct d this_addr chunktype is_class word_size container)._top =
        (Metachunk.construct d this_addr chunktype is_class word_size container).initial_top d ∧
      (Metachunk.construct d this_addr chunktype is_class word_size container)._top =
        (Metachunk.construct d this_addr chunktype is_class word_size container).bottom +
          Metachunk.overhead d * sizeof_MetaWord ∧
      (Metachunk.construct d this_addr chunktype is_class word_size container).is_tagged_free =
        false ∧
      (Metachunk.construct d this_addr chunktype is_class word_size container).get_use_count =
        0 ∧
      (Metachunk.construct d this_addr chunktype is_class word_size container).get_origin =
        d.origin_normal ∧
      (Metachunk.construct d this_addr chunktype is_class word_size container).is_valid_sentinel
        d = true ∧
      (Metachunk.construct d this_addr chunktype is_class word_size container).get_chunk_type =
        chunktype ∧
      (Metachunk.construct d this_addr chunktype is_class word_size container).is_class =
        is_class ∧
      (Metachunk.construct d this_addr chunktype is_class word_size container).word_size =
        word_size ∧
      (Metachunk.construct d this_addr chunktype is_class word_size container)._container =
        container ∧
      (Metachunk.construct d this_addr chunktype is_class word_size container).used_word_size =
        Metachunk.overhead d ∧
      (Metachunk.construct d this_addr chunktype is_class word_size container).free_word_size =
        word_size - Metachunk.overhead d ∧
      (Metachunk.construct d this_addr chunktype is_class word_size container).top_in_bounds := by
  simp only [sizeof_MetaWord, BytesPerWord] at hfit
  have htop : (Metachunk.construct d this_addr chunktype is_class word_size container)._top =
      this_addr + Metachunk.overhead d * 8 := by
    show (this_addr + Metachunk.overhead d * 8) % 2 ^ 64 = _
    exact Nat.mod_eq_of_lt (by omega)
  have hend : (Metachunk.construct d this_addr chunktype is_class word_size container).end_ =
      this_addr + word_size * 8 := by
    show (this_addr + word_size * 8) % 2 ^ 64 = _
    exact Nat.mod_eq_of_lt hfit
  have hb : (Metachunk.construct d this_addr chunktype is_class word_size container).bottom =
      this_addr := rfl
  have hin : (Metachunk.construct d this_addr chunktype is_class word_size
      container).top_in_bounds := by
    unfold Metachunk.top_in_bounds
    rw [htop, hend, hb]
    omega
  refine ⟨rfl, ?_, rfl, rfl, rfl, ?_, rfl, rfl, rfl, rfl, ?_, ?_, hin⟩
  · rw [htop, hb]
    rfl
  · simp [Metachunk.is_valid_sentinel, Metachunk.construct, Metachunk.set_is_tagged_free]
  · rw [Metachunk.used_word_size_eq _ hin, htop, hb]
    omega
  · rw [Metachunk.free_word_size_eq _ hin.2, htop, hend]
    omega

end metaspace

namespace metaspace

/-- C22: `Metachunk::verify()` passes (no assertion fires) if and only if the
sentinel is valid, the chunk type is valid, the origin is valid,
`bottom <= top <= end`, the word size equals
`get_size_for_nonhumongous_chunktype(type, is_class)` whenever the type is not
Humongous, and the chunk's start address is a multiple of
`word_size * sizeof(MetaWord)` for a non-Humongous chunk or of the Specialized
chunk size times `sizeof(MetaWord)` for a Humongous chunk (the products taken
on `size_t`). -/
theorem Metachunk.verify_iff (d : MetachunkDecls) (t : ChunkTypeDecls) (c : Metachunk) :
    c.verify d t = .ok () ↔
      c.is_valid_sentinel d = true ∧
        t.is_valid_chunktype c.get_chunk_type = true ∧
        t.is_valid_chunkorigin c.get_origin = true ∧
        (c.bottom ≤ c._top ∧ c._top ≤ c.end_) ∧
        (c.get_chunk_type ≠ t.HumongousIndex →
          c.word_size = t.get_size_for_nonhumongous_chunktype c.get_chunk_type c.is_class) ∧
        (c.get_chunk_type ≠ t.HumongousIndex →
          c.this_addr % ((c.word_size * sizeof_MetaWord) % 2 ^ 64) = 0) ∧
        (c.get_chunk_type = t.HumongousIndex →
          c.this_addr % ((t.get_size_for_nonhumongous_chunktype t.SpecializedIndex c.is_class *
            sizeof_MetaWord) % 2 ^ 64) = 0) := by
  have hal : is_aligned c.this_addr (c.required_alignment t) = true ↔
      ((c.get_chunk_type ≠ t.HumongousIndex →
          c.this_addr % ((c.word_size * sizeof_MetaWord) % 2 ^ 64) = 0) ∧
        (c.get_chunk_type = t.HumongousIndex →
          c.this_addr % ((t.get_size_for_nonhumongous_chunktype t.SpecializedIndex c.is_class *
            sizeof_MetaWord) % 2 ^ 64) = 0)) := by
    unfold is_aligned Metachunk.required_alignment
    rw [beq_iff_eq]
    by_cases hh : c.get_chunk_type = t.HumongousIndex
    · simp [hh]
    · simp [hh]
  rw [← hal]
  unfold Metachunk.verify
  dsimp only
  by_cases h1 : c.is_valid_sentinel d = true
  · rw [if_neg (not_not_intro h1)]
    by_cases h2 : t.is_valid_chunktype c.get_chunk_type = true
    · rw [if_neg (not_not_intro h2)]
      by_cases h3 : c.get_chunk_type ≠ t.HumongousIndex ∧
          ¬ c.word_size = t.get_size_for_nonhumongous_chunktype c.get_chunk_type c.is_class
      · rw [if_pos h3]
        exact ⟨(fun h => nomatch h), fun h => absurd (h.2.2.2.2.1 h3.1) h3.2⟩
      · rw [if_neg h3]
        have h3b : c.get_chunk_type ≠ t.HumongousIndex →
            c.word_size = t.get_size_for_nonhumongous_chunktype c.get_chunk_type c.is_class := by
          intro hne
          by_contra hcon
          exact h3 ⟨hne, hcon⟩
        by_cases h4 : t.is_valid_chunkorigin c.get_origin = true
        · rw [if_neg (not_not_intro h4)]
          by_cases h5 : c.bottom ≤ c._top ∧ c._top ≤ c.end_
          · rw [if_neg (not_not_intro h5)]
            by_cases h6 : is_aligned c.this_addr (c.required_alignment t) = true
            · rw [if_neg (not_not_intro h6)]
              exact ⟨fun _ => ⟨h1, h2, h4, h5, h3b, h6⟩, fun _ => rfl⟩
            · rw [if_pos h6]
              exact ⟨(fun h => nomatch h), fun h => absurd h.2.2.2.2.2 h6⟩
          · rw [if_pos h5]
            exact ⟨(fun h => nomatch h), fun h => absurd h.2.2.2.1 h5⟩
        · rw [if_pos h4]
          exact ⟨(fun h => nomatch h), fun h => absurd h.2.2.1 h4⟩
    · rw [if_pos h2]
      exact ⟨(fun h => nomatch h), fun h => absurd h.2.1 h2⟩
  · rw [if_pos h1]
    exact ⟨(fun h => nomatch h), fun h => absurd h.1 h1⟩

/-- What `fill_to_words` leaves in memory when the filled range does not run
past the end of the address space: the pattern in the `count` words from
`to_`, the old content everywhere else. -/
theorem fill_to_words_spec (count : Nat) :
    ∀ (m : WordMemory) (to_ value : Nat), to_ + count * 8 ≤ 2 ^ 64 → ∀ a,
      fill_to_words m to_ count value a =
        if to_ ≤ a ∧ a < to_ + count * 8 ∧ (a - to_) % 8 = 0 then fill_pattern value
        else m a := by
  induction count with
  | zero =>
    intro m to_ value _ a
    have hno : ¬ (to_ ≤ a ∧ a < to_ + 0 * 8 ∧ (a - to_) % 8 = 0) := by omega
    rw [if_neg hno]
    rfl
  | succ count ih =>
    intro m to_ value hfit a
    show fill_to_words (m.store to_ (fill_pattern value)) ((to_ + 8) % 2 ^ 64) count value a = _
    rcases Nat.eq_zero_or_pos count with h0 | hpos
    · subst h0
      show WordMemory.store m to_ (fill_pattern value) a = _
      unfold WordMemory.store
      by_cases ha : a = to_
      · rw [if_pos ha, if_pos (by omega)]
      · rw [if_neg ha, if_neg (by omega)]
    · have hmod : (to_ + 8) % 2 ^ 64 = to_ + 8 := Nat.mod_eq_of_lt (by omega)
      rw [hmod, ih _ (to_ + 8) value (by omega) a]
      unfold WordMemory.store
      by_cases hin : to_ + 8 ≤ a ∧ a < to_ + 8 + count * 8 ∧ (a - (to_ + 8)) % 8 = 0
      · rw [if_pos hin, if_pos (by omega)]
      · rw [if_neg hin]
        by_cases ha : a = to_
        · rw [if_pos ha, if_pos (by omega)]
        · rw [if_neg ha, if_neg (by omega)]

/-- C23: for every chunk that lies inside the address space and has
`overhead() <= word_size()`, `mangle(v)` writes the pattern of `v` into
exactly the `word_size() - overhead()` words starting at `initial_top()` (the
payload, from `bottom + overhead` up to `end`) and leaves every other word,
in particular the first `overhead()` words of the chunk (the header),
unchanged. -/
theorem Metachunk.mangle_spec (d : MetachunkDecls) (c : Metachunk) (m : WordMemory) (v : Nat)
    (hws : Metachunk.overhead d ≤ c.word_size) (hfit : c.fits_address_space) :
    (∀ i, i < c.word_size - Metachunk.overhead d →
        c.mangle d m v (c.initial_top d + i * sizeof_MetaWord) = fill_pattern v) ∧
      (∀ a, (¬ ∃ i, i < c.word_size - Metachunk.overhead d ∧
          a = c.initial_top d + i * sizeof_MetaWord) → c.mangle d m v a = m a) ∧
      (∀ i, i < Metachunk.overhead d →
        c.mangle d m v (c.bottom + i * sizeof_MetaWord) = m (c.bottom + i * sizeof_MetaWord)) ∧
      c.initial_top d = c.bottom + Metachunk.overhead d * sizeof_MetaWord ∧
      c.initial_top d + (c.word_size - Metachunk.overhead d) * sizeof_MetaWord = c.end_ := by
  simp only [Metachunk.fits_address_space, Metachunk.word_size, sizeof_MetaWord,
    BytesPerWord] at hfit hws ⊢
  have hit : c.initial_top d = c.this_addr + Metachunk.overhead d * 8 := by
    show (c.this_addr + Metachunk.overhead d * 8) % 2 ^ 64 = _
    exact Nat.mod_eq_of_lt (by omega)
  have hend : c.end_ = c.this_addr + c._word_size * 8 := by
    show (c.this_addr + c._word_size * 8) % 2 ^ 64 = _
    exact Nat.mod_eq_of_lt hfit
  have hsize : (c._word_size + 2 ^ 64 - Metachunk.overhead d) % 2 ^ 64 =
      c._word_size - Metachunk.overhead d := by omega
  have hm : ∀ a, c.mangle d m v a =
      if c.initial_top d ≤ a ∧
          a < c.initial_top d + (c._word_size - Metachunk.overhead d) * 8 ∧
          (a - c.initial_top d) % 8 = 0 then fill_pattern v
      else m a := by
    intro a
    show fill_to_words m (c.initial_top d)
      ((c._word_size + 2 ^ 64 - Metachunk.overhead d) % 2 ^ 64) v a = _
    rw [hsize]
    exact fill_to_words_spec _ m _ v (by rw [hit]; omega) a
  refine ⟨fun i hi => ?_, fun a ha => ?_, fun i hi => ?_, ?_, ?_⟩
  · rw [hm, if_pos (by omega)]
  · rw [hm, if_neg]
    rintro ⟨h1, h2, h3⟩
    apply ha
    refine ⟨(a - c.initial_top d) / 8, by omega, by omega⟩
  · rw [hm, if_neg]
    show ¬ (c.initial_top d ≤ c.this_addr + i * 8 ∧ _)
    rw [hit]
    omega
  · rw [hit]
    rfl
  · rw [hit, hend]
    omega

end metaspace

/-- C24: on 32-bit ARM (not `AARCH64`, little-endian `jlong`), for every
`jlong` `v`, slot array and position `pos` (an `int` that can be advanced
without overflow), `put_long(v, to, pos)` stores the high 32 bits of `v` in
slot `to[pos]` and the low 32 bits in slot `to[pos+1]`, changes no other slot
and advances `pos` by exactly 2; `put_int(w, to, pos)` stores `w` in `to[pos]`,
changes no other slot and advances `pos` by exactly 1. -/
theorem JNITypes.put_long_spec (v : Nat) (slots : JNITypes.SlotArray) (pos : Int)
    (hv : v < 2 ^ 64) (hlo : -(2 ^ 31) ≤ pos) (hhi : pos + 2 < 2 ^ 31) :
    (JNITypes.put_long v slots pos).1 pos = v / 2 ^ 32 ∧
      (JNITypes.put_long v slots pos).1 (pos + 1) = v % 2 ^ 32 ∧
      (∀ i, i ≠ pos → i ≠ pos + 1 → (JNITypes.put_long v slots pos).1 i = slots i) ∧
      (JNITypes.put_long v slots pos).2 = pos + 2 ∧
      ∀ w, (JNITypes.put_int w slots pos).1 pos = w ∧
        (∀ i, i ≠ pos → (JNITypes.put_int w slots pos).1 i = slots i) ∧
        (JNITypes.put_int w slots pos).2 = pos + 1 := by
  have hne : pos ≠ pos + 1 := by omega
  refine ⟨?_, ?_, ?_, ?_, fun w => ⟨?_, ?_, ?_⟩⟩
  · show (if pos = pos + 1 then _ else if pos = pos then _ else _) = _
    rw [if_neg hne, if_pos rfl]
    show (if (1 : Nat) = 0 then v % 2 ^ 32 else v / 2 ^ 32 % 2 ^ 32) = _
    rw [if_neg (by decide)]
    omega
  · show (if pos + 1 = pos + 1 then _ else _) = _
    rw [if_pos rfl]
    rfl
  · intro i h1 h2
    show (if i = pos + 1 then _ else if i = pos then _ else _) = _
    rw [if_neg h2, if_neg h1]
  · show (pos + 2 + 2 ^ 31) % 2 ^ 32 - 2 ^ 31 = pos + 2
    omega
  · show (if pos = pos then w else _) = w
    rw [if_pos rfl]
  · intro i h1
    show (if i = pos then w else _) = _
    rw [if_neg h1]
  · show (pos + 1 + 2 ^ 31) % 2 ^ 32 - 2 ^ 31 = pos + 1
    omega

/-- C28 (the code at the failing input): the three-argument `AllocateHeap`
forwards without its `alloc_failmode`, so it always behaves like the
four-argument one with `EXIT_OOM`; when `os::malloc` fails and the caller
asked for `RETURN_NULL`, it ends the VM where the four-argument
`AllocateHeap(size, flags, CALLER_PC, alloc_failmode)` returns `NULL`. -/
theorem AllocateHeap_no_stack_ignores_failmode :
    (∀ (os_malloc : Nat → Nat → Nat → Nat) (CALLER_PC size flags : Nat)
        (alloc_failmode : AllocFailType),
        AllocateHeap_no_stack os_malloc CALLER_PC size flags alloc_failmode =
          AllocateHeap os_malloc size flags CALLER_PC AllocFailType.EXIT_OOM) ∧
      AllocateHeap_no_stack failing_malloc 0 16 0 AllocFailType.RETURN_NULL =
        AllocateHeapResult.vm_exit_out_of_memory 16 ∧
      AllocateHeap failing_malloc 16 0 0 AllocFailType.RETURN_NULL =
        AllocateHeapResult.returned 0 ∧
      AllocateHeap_no_stack failing_malloc 0 16 0 AllocFailType.RETURN_NULL ≠
        AllocateHeap failing_malloc 16 0 0 AllocFailType.RETURN_NULL := by
  refine ⟨fun _ _ _ _ _ => rfl, rfl, rfl, ?_⟩
  decide

/-- The bitwise and with the allocation mask is the remainder modulo 4. -/
theorem land_three (x : Nat) : x &&& 3 = x % 4 := by
  have h := Nat.and_pow_two_sub_one_eq_mod x 2
  norm_num at h
  exact h

/-- The bitwise or with the allocation mask sets the two low bits. -/
theorem lor_three (x : Nat) : x ||| 3 = x / 4 * 4 + 3 := by
  have hr : x % 4 < 2 ^ 2 := by omega
  have h3 : (3 : Nat) < 2 ^ 2 := by norm_num
  have hx : x = 2 ^ 2 * (x / 4) + x % 4 := by omega
  have hlow : x % 4 ||| 3 = 3 := by
    have hlt : x % 4 < 4 := by omega
    interval_cases x % 4 <;> rfl
  calc x ||| 3 = (2 ^ 2 * (x / 4) + x % 4) ||| 3 := by rw [← hx]
    _ = (2 ^ 2 * (x / 4) ||| x % 4) ||| 3 := by rw [Nat.mul_add_lt_is_or hr]
    _ = 2 ^ 2 * (x / 4) ||| (x % 4 ||| 3) := by rw [Nat.lor_assoc]
    _ = 2 ^ 2 * (x / 4) ||| 3 := by rw [hlow]
    _ = 2 ^ 2 * (x / 4) + 3 := by rw [← Nat.mul_add_lt_is_or h3]
    _ = x / 4 * 4 + 3 := by omega

/-- C29: for every object address `a` (a `uintptr_t`) whose bits under
`allocation_mask` are zero and every allocation type `t <= allocation_mask`,
`set_allocation_type(a, t)` passes its assertions, and afterwards the encoded
word decodes back: `~(_allocation_t[0] | allocation_mask) == a` and
`get_allocation_type() == t`; and for `t != STACK_OR_EMBEDDED`,
`is_type_set()` returns true. -/
theorem ResourceObj.set_allocation_type_roundtrip (o : ResourceObj) (t : Nat)
    (ha : o.this_addr < 2 ^ 64) (hal : o.this_addr &&& ResourceObj.allocation_mask = 0)
    (ht : t ≤ ResourceObj.allocation_mask) :
    ∃ o1, o.set_allocation_type t = .ok o1 ∧ o1.this_addr = o.this_addr ∧
      uintptr_not (o1._allocation_t_0 ||| ResourceObj.allocation_mask) = o.this_addr ∧
      o1.get_allocation_type = .ok t ∧
      (t ≠ ResourceObj.STACK_OR_EMBEDDED → o1.is_type_set = .ok true) := by
  simp only [ResourceObj.allocation_mask] at hal ht
  rw [land_three] at hal
  have hdecode : ∀ o1 : ResourceObj, o1.this_addr = o.this_addr →
      o1._allocation_t_0 = uintptr_not ((o.this_addr + t) % 2 ^ 64) →
      uintptr_not (o1._allocation_t_0 ||| ResourceObj.allocation_mask) = o.this_addr ∧
        o1.get_allocation_type = .ok t := by
    intro o1 h1 h2
    have e1 : uintptr_not (o1._allocation_t_0 ||| 3) = o.this_addr := by
      rw [lor_three, h2]
      unfold uintptr_not
      omega
    have e2 : uintptr_not o1._allocation_t_0 &&& 3 = t := by
      rw [land_three, h2]
      unfold uintptr_not
      omega
    refine ⟨e1, ?_⟩
    unfold ResourceObj.get_allocation_type
    simp only [ResourceObj.allocation_mask]
    rw [h1, if_neg (not_not_intro e1), e2]
  have hset : o.set_allocation_type t =
      if t ≠ ResourceObj.STACK_OR_EMBEDDED then
        .ok { o with
              _allocation_t_0 := uintptr_not ((o.this_addr + t) % 2 ^ 64)
              _allocation_t_1 := ((o.this_addr + 8) % 2 ^ 64 + t) % 2 ^ 64 }
      else .ok { o with _allocation_t_0 := uintptr_not ((o.this_addr + t) % 2 ^ 64) } := by
    unfold ResourceObj.set_allocation_type
    simp only [ResourceObj.allocation_mask]
    rw [land_three, if_neg (not_not_intro hal), if_neg (not_not_intro ht)]
    rfl
  by_cases hstack : t ≠ ResourceObj.STACK_OR_EMBEDDED
  · rw [hset, if_pos hstack]
    obtain ⟨d1, d2⟩ := hdecode
      { o with
        _allocation_t_0 := uintptr_not ((o.this_addr + t) % 2 ^ 64)
        _allocation_t_1 := ((o.this_addr + 8) % 2 ^ 64 + t) % 2 ^ 64 } rfl rfl
    refine ⟨_, rfl, rfl, d1, d2, fun _ => ?_⟩
    unfold ResourceObj.is_type_set
    rw [d2]
    simp only [ResourceObj.allocation_mask, ResourceObj.addr_of_allocation_t_1, land_three]
    have c1 : t = ((o.this_addr + 8) % 2 ^ 64 + t) % 2 ^ 64 % 4 := by omega
    have c2 : (((o.this_addr + 8) % 2 ^ 64 + t) % 2 ^ 64 + 2 ^ 64 -
        ((o.this_addr + 8) % 2 ^ 64 + t) % 2 ^ 64 % 4) % 2 ^ 64 =
        (o.this_addr + 8) % 2 ^ 64 := by omega
    rw [decide_eq_true c1, decide_eq_true c2]
    rfl
  · rw [hset, if_neg hstack]
    obtain ⟨d1, d2⟩ := hdecode
      { o with _allocation_t_0 := uintptr_not ((o.this_addr + t) % 2 ^ 64) } rfl rfl
    exact ⟨_, rfl, rfl, d1, d2, fun h => absurd h hstack⟩

/-- C30: in `socketRead0`, for every requested `len` (a `jint`) and every
`malloc` outcome, the length passed to the read never exceeds the capacity of
the buffer in use: it is at most `MAX_BUFFER_LEN` when the stack buffer `BUF`
is used (the fallback after a failed `malloc` included) and it is
`min(requested len, MAX_HEAP_BUFFER_LEN)`, the allocated size, when a heap
buffer is used; a heap buffer is used only when the requested `len` exceeds
`MAX_BUFFER_LEN`, and it is never `NULL`. -/
theorem socketRead0_select_buffer_spec (MAX_BUFFER_LEN MAX_HEAP_BUFFER_LEN : Int)
    (malloc : Nat → Nat) (len : Int) (hbuf : 0 < MAX_BUFFER_LEN)
    (hheap : 0 ≤ MAX_HEAP_BUFFER_LEN) (hlo : -(2 ^ 31) ≤ len) (hhi : len < 2 ^ 31) :
    (socketRead0_select_buffer MAX_BUFFER_LEN MAX_HEAP_BUFFER_LEN malloc len).2 ≤
        (socketRead0_select_buffer MAX_BUFFER_LEN MAX_HEAP_BUFFER_LEN malloc len).1.capacity
          MAX_BUFFER_LEN ∧
      ((socketRead0_select_buffer MAX_BUFFER_LEN MAX_HEAP_BUFFER_LEN malloc len).1 =
          ReadBuffer.BUF →
        (socketRead0_select_buffer MAX_BUFFER_LEN MAX_HEAP_BUFFER_LEN malloc len).2 ≤
          MAX_BUFFER_LEN) ∧
      ∀ p size,
        (socketRead0_select_buffer MAX_BUFFER_LEN MAX_HEAP_BUFFER_LEN malloc len).1 =
            ReadBuffer.heap p size →
          (socketRead0_select_buffer MAX_BUFFER_LEN MAX_HEAP_BUFFER_LEN malloc len).2 =
              min len MAX_HEAP_BUFFER_LEN ∧
            (size : Int) = min len MAX_HEAP_BUFFER_LEN ∧
            MAX_BUFFER_LEN < len ∧ p ≠ 0 ∧ p = malloc size := by
  unfold socketRead0_select_buffer
  by_cases h1 : len > MAX_BUFFER_LEN
  · rw [if_pos h1]
    have hlen1 : (if len > MAX_HEAP_BUFFER_LEN then MAX_HEAP_BUFFER_LEN else len) =
        min len MAX_HEAP_BUFFER_LEN := by
      by_cases h2 : len > MAX_HEAP_BUFFER_LEN
      · rw [if_pos h2]
        omega
      · rw [if_neg h2]
        omega
    have hcast : (((min len MAX_HEAP_BUFFER_LEN) % 2 ^ 64).toNat : Int) =
        min len MAX_HEAP_BUFFER_LEN := by
      rw [Int.toNat_of_nonneg (by omega)]
      omega
    dsimp only
    rw [hlen1]
    by_cases h3 : malloc ((min len MAX_HEAP_BUFFER_LEN) % 2 ^ 64).toNat = 0
    · rw [if_pos h3]
      refine ⟨le_refl _, fun _ => le_refl _, ?_⟩
      intro p size h
      cases h
    · rw [if_neg h3]
      refine ⟨?_, ?_, ?_⟩
      · show min len MAX_HEAP_BUFFER_LEN ≤
          (((min len MAX_HEAP_BUFFER_LEN) % 2 ^ 64).toNat : Int)
        rw [hcast]
      · intro h
        cases h
      · intro p size h
        have hp : malloc ((min len MAX_HEAP_BUFFER_LEN) % 2 ^ 64).toNat = p :=
          (ReadBuffer.heap.inj h).1
        have hs : ((min len MAX_HEAP_BUFFER_LEN) % 2 ^ 64).toNat = size :=
          (ReadBuffer.heap.inj h).2
        refine ⟨rfl, by rw [← hs, hcast], h1, by rw [← hp]; exact h3, by rw [← hs, hp]⟩
  · rw [if_neg h1]
    refine ⟨by show len ≤ MAX_BUFFER_LEN; omega, fun _ => by show len ≤ MAX_BUFFER_LEN; omega,
      ?_⟩
    intro p size h
    cases h

/-! ## Part 3: the theorems at the scenarios of the specification -/

namespace metaspace

/-- C1 at the scenario chunk: a request of 10 words fits in the 38 free words
and returns a non-null pointer; a request of 39 words returns `NULL`. -/
theorem Metachunk.allocate_nonnull_iff_witness :
    scenario_chunk.this_addr ≠ NULL ∧ scenario_chunk.top_in_bounds ∧
      (((scenario_chunk.allocate 10).1 ≠ NULL ↔ 10 ≤ scenario_chunk.free_word_size) ∧
        ((scenario_chunk.allocate 10).1 = NULL ↔ scenario_chunk.free_word_size < 10)) ∧
      (scenario_chunk.allocate 10).1 = 4112 ∧ (scenario_chunk.allocate 39).1 = NULL :=
  ⟨by decide, by decide,
    Metachunk.allocate_nonnull_iff scenario_chunk 10 (by decide) (by decide),
    by decide, by decide⟩

/-- C2 at the scenario chunk: `allocate(10)` returns the old `top` (4112),
moves `top` by 80 bytes, and turns used/free from 2/38 into 12/28. -/
theorem Metachunk.allocate_bumps_exactly_witness :
    scenario_chunk.top_in_bounds ∧ 10 ≤ scenario_chunk.free_word_size ∧
      ((scenario_chunk.allocate 10).1 = scenario_chunk._top ∧
        (scenario_chunk.allocate 10).2 =
          { scenario_chunk with _top := scenario_chunk._top + 10 * sizeof_MetaWord } ∧
        (scenario_chunk.allocate 10).2.used_word_size = scenario_chunk.used_word_size + 10 ∧
        (scenario_chunk.allocate 10).2.free_word_size = scenario_chunk.free_word_size - 10) ∧
      (scenario_chunk.allocate 10).2.used_word_size = 12 ∧
      (scenario_chunk.allocate 10).2.free_word_size = 28 :=
  ⟨by decide, by decide,
    Metachunk.allocate_bumps_exactly scenario_chunk 10 (by decide) (by decide),
    by decide, by decide⟩

/-- C3 at the scenario chunk: a request of all 38 free words succeeds and
leaves no free word, with `top` at `end` (4416). -/
theorem Metachunk.allocate_exact_fit_witness :
    scenario_chunk.top_in_bounds ∧ scenario_chunk.free_word_size = 38 ∧
      (scenario_chunk.allocate 38).2.free_word_size = 0 ∧
      (scenario_chunk.allocate 38).2._top = 4416 ∧
      (scenario_chunk.allocate scenario_chunk.free_word_size).2._top =
        (scenario_chunk.allocate scenario_chunk.free_word_size).2.end_ :=
  ⟨by decide, by decide, by decide, by decide,
    (Metachunk.allocate_exact_fit scenario_chunk (by decide)).2.2.2 (by decide)⟩

/-- C4 at the scenario chunk: a request of 39 words, one more than is free,
returns `NULL` and changes nothing. -/
theorem Metachunk.allocate_too_large_witness :
    scenario_chunk.free_word_size < 39 ∧
      ((scenario_chunk.allocate 39).1 = NULL ∧ (scenario_chunk.allocate 39).2 = scenario_chunk ∧
        (scenario_chunk.allocate 39).2._top = scenario_chunk._top ∧
        (scenario_chunk.allocate 39).2.used_word_size = scenario_chunk.used_word_size ∧
        (scenario_chunk.allocate 39).2.free_word_size = scenario_chunk.free_word_size) :=
  ⟨by decide, Metachunk.allocate_too_large scenario_chunk 39 (by decide)⟩

/-- C5 at the scenario chunk with the requests 10, 10, 10, 10: the tops
4112, 4192, 4272, 4352, 4352 never decrease. -/
theorem Metachunk.allocate_seq_monotone_witness :
    scenario_chunk.top_in_bounds ∧
      (scenario_chunk.allocate_seq [10, 10, 10, 10]).map Metachunk._top =
        [4192, 4272, 4352, 4352] ∧
      List.Chain (fun a b : Metachunk => a._top ≤ b._top) scenario_chunk
        (scenario_chunk.allocate_seq [10, 10, 10, 10]) :=
  ⟨by decide, by decide,
    (Metachunk.allocate_seq_monotone scenario_chunk [10, 10, 10, 10] (by decide)).1⟩

/-- C6 (amended) at the scenario chunk with the requests 10, 10, 10, 10: used
plus free is 40, the word size, throughout. -/
theorem Metachunk.used_add_free_eq_word_size_witness :
    scenario_chunk.top_in_bounds ∧ scenario_chunk.fits_address_space ∧
      scenario_chunk.pointers_aligned ∧ scenario_chunk.word_size = 40 ∧
      (scenario_chunk.allocate 10).2.used_word_size +
        (scenario_chunk.allocate 10).2.free_word_size = (scenario_chunk.allocate 10).2.word_size :=
  ⟨by decide, by decide, by decide, by decide,
    Metachunk.used_add_free_eq_word_size scenario_chunk [10, 10, 10, 10] (by decide) (by decide)
      (by decide) (scenario_chunk.allocate 10).2 (by decide)⟩

/-- C7 (amended) at address 4096 with a 16-byte header. -/
theorem Metachunk.four_allocs_of_ten_witness :
    Metachunk.overhead scenario_decls = 2 ∧ 4096 + 40 * 8 < 2 ^ 64 ∧
      (Metachunk.construct scenario_decls 4096 0 false 40 0).allocate_results [10, 10, 10, 10] =
        [4096 + 16, 4096 + 96, 4096 + 176, NULL] ∧
      ((Metachunk.construct scenario_decls 4096 0 false 40 0).allocate_seq
        [10, 10, 10, 10]).map Metachunk.free_word_size = [28, 18, 8, 8] :=
  ⟨by decide, by decide,
    (Metachunk.four_allocs_of_ten scenario_decls 4096 0 false 0 (by decide) (by decide)).2.1,
    (Metachunk.four_allocs_of_ten scenario_decls 4096 0 false 0 (by decide) (by decide)).2.2.2⟩

end metaspace

/-- The scenario chooser has a region in both active slots. -/
theorem scenario_chooser_active_non_null : scenario_chooser.active_non_null := by
  intro i _ hi
  have hi2 : i < 2 := hi
  interval_cases i
  · exact ⟨scenario_R2, rfl⟩
  · exact ⟨scenario_R1, rfl⟩

/-- C8 at the scenario chooser `[R2 = 1500, R1 = 500]` with total 2000: one
`pop()` returns R2 and leaves 500. -/
theorem CollectionSetChooser.pop_spec_witness :
    scenario_chooser.well_typed ∧ scenario_chooser._front < scenario_chooser._end ∧
      scenario_chooser.regions_at scenario_chooser._front = .ok (some scenario_R2) ∧
      scenario_R2.reclaimable_bytes ≤ scenario_chooser._remaining_reclaimable_bytes ∧
      (∃ c1, scenario_chooser.pop = .ok (scenario_R2, c1) ∧
        c1.regions_at scenario_chooser._front = .ok none ∧
        c1._remaining_reclaimable_bytes + scenario_R2.reclaimable_bytes =
          scenario_chooser._remaining_reclaimable_bytes ∧
        c1._front = scenario_chooser._front + 1 ∧
        c1._end = scenario_chooser._end ∧
        c1._first_par_unreserved_idx = scenario_chooser._first_par_unreserved_idx ∧
        c1._region_live_threshold_bytes = scenario_chooser._region_live_threshold_bytes ∧
        c1._regions.length = scenario_chooser._regions.length ∧
        ∀ i, i ≠ scenario_chooser._front → c1.regions_at i = scenario_chooser.regions_at i) ∧
      scenario_chooser.pop = .ok (scenario_R2,
        { scenario_chooser with
          _regions := [none, some scenario_R1]
          _front := 1
          _remaining_reclaimable_bytes := 500 }) :=
  ⟨by decide, by decide, rfl, by decide,
    CollectionSetChooser.pop_spec scenario_chooser scenario_R2 (by decide) (by decide) rfl
      (by decide),
    rfl⟩

/-- C9 at the scenario chooser: 2000 is the sum over `[0, 2)` before the
`pop()`, and the total after it is the sum over `[1, 2)`. -/
theorem CollectionSetChooser.pop_preserves_sum_witness :
    scenario_chooser.well_typed ∧ scenario_chooser._front < scenario_chooser._end ∧
      scenario_chooser.regions_at scenario_chooser._front = .ok (some scenario_R2) ∧
      scenario_chooser._remaining_reclaimable_bytes = scenario_chooser.reclaimable_sum ∧
      ∃ c1, scenario_chooser.pop = .ok (scenario_R2, c1) ∧
        c1._remaining_reclaimable_bytes = c1.reclaimable_sum :=
  ⟨by decide, by decide, rfl, by decide,
    CollectionSetChooser.pop_preserves_sum scenario_chooser scenario_R2 (by decide) (by decide)
      rfl (by decide)⟩

/-- C10 at the scenario chooser: draining with fuel 2 pops R2 then R1, 2000
bytes in all, and ends empty with total 0. -/
theorem CollectionSetChooser.drain_conservation_witness :
    scenario_chooser.well_typed ∧ scenario_chooser._front ≤ scenario_chooser._end ∧
      scenario_chooser._remaining_reclaimable_bytes = scenario_chooser.reclaimable_sum ∧
      scenario_chooser.remaining_regions ≤ 2 ∧
      (∃ popped c1, scenario_chooser.drain 2 = some (popped, c1) ∧
        popped.length = scenario_chooser.remaining_regions ∧
        (popped.map HeapRegion.reclaimable_bytes).sum =
          scenario_chooser._remaining_reclaimable_bytes ∧
        c1.remaining_reclaimable_bytes = 0 ∧ c1.is_empty = true) ∧
      (scenario_chooser.drain 2).map Prod.fst = some [scenario_R2, scenario_R1] :=
  ⟨by decide, by decide, by decide, by decide,
    CollectionSetChooser.drain_conservation scenario_chooser (by decide) (by decide)
      scenario_chooser_active_non_null (by decide) 2 (by decide),
    by decide⟩


/-- The scenario chooser `[R2, R1]` is sorted. -/
theorem scenario_chooser_active_sorted : scenario_chooser.active_sorted := by
  intro i _ hi
  have hi2 : i + 1 < 2 := hi
  have hi0 : i = 0 := by omega
  rw [hi0]
  decide

/-- C11 at the scenario chooser `[R2 = 1500, R1 = 500]`: two pops return R2
then R1, in index order and with non-increasing reclaimable bytes. -/
theorem CollectionSetChooser.pop_in_sorted_order_witness :
    scenario_chooser.well_typed ∧ scenario_chooser._front + 2 ≤ scenario_chooser._end ∧
      scenario_chooser._remaining_reclaimable_bytes = scenario_chooser.reclaimable_sum ∧
      (scenario_chooser.pop_n 2).map Prod.fst = .ok [scenario_R2, scenario_R1] ∧
      ∃ popped c1, scenario_chooser.pop_n 2 = .ok (popped, c1) ∧
        popped.map (fun hr => (Except.ok (some hr) : Except ChooserFault (Option HeapRegion))) =
          (List.range' scenario_chooser._front 2).map scenario_chooser.regions_at ∧
        popped.Pairwise (fun a b => b.reclaimable_bytes ≤ a.reclaimable_bytes) ∧
        c1._front = scenario_chooser._front + 2 ∧ c1._end = scenario_chooser._end ∧
        (∀ i, scenario_chooser._front + 2 ≤ i →
          c1.regions_at i = scenario_chooser.regions_at i) ∧
        c1.active_sorted :=
  ⟨by decide, by decide, by decide, rfl,
    CollectionSetChooser.pop_in_sorted_order scenario_chooser 2 (by decide) (by decide)
      scenario_chooser_active_non_null (by decide) scenario_chooser_active_sorted⟩

/-- C12 at the scenario chooser: `peek()` returns R2 and leaves the chooser
as it is, and the next `pop()` returns R2 as well. -/
theorem CollectionSetChooser.peek_spec_witness :
    scenario_chooser._front < scenario_chooser._end ∧ scenario_chooser.well_typed ∧
      scenario_chooser.regions_at scenario_chooser._front = .ok (some scenario_R2) ∧
      ∃ c2, scenario_chooser.peek = .ok (some scenario_R2, scenario_chooser) ∧
        scenario_chooser.pop = .ok (scenario_R2, c2) :=
  ⟨by decide, by decide, rfl,
    (CollectionSetChooser.peek_spec scenario_chooser).2.2.2.2.2 (by decide) (by decide)
      scenario_R2 rfl (by decide)⟩

/-- C13 at the scenario chooser: two regions remain, and it is not empty. -/
theorem CollectionSetChooser.remaining_regions_spec_witness :
    scenario_chooser._front < 2 ^ 32 ∧ scenario_chooser._end < 2 ^ 32 ∧
      scenario_chooser.remaining_regions = 2 ∧ scenario_chooser.is_empty = false ∧
      ((scenario_chooser.remaining_regions : Int) =
        ((scenario_chooser._end : Int) - (scenario_chooser._front : Int)) % 2 ^ 32) ∧
      (scenario_chooser.is_empty = true ↔ scenario_chooser._front = scenario_chooser._end) :=
  ⟨by decide, by decide, by decide, by decide,
    (CollectionSetChooser.remaining_regions_spec scenario_chooser (by decide) (by decide)).1,
    (CollectionSetChooser.remaining_regions_spec scenario_chooser (by decide) (by decide)).2.1⟩

namespace metaspace

/-- C14 at the scenario chunk, first chunk of a node whose map has granules of
40 words: marking it in use clears the tagged-free flag and sets the in-use
bit of its range. -/
theorem do_update_in_use_info_for_chunk_spec_witness :
    0 < scenario_ocmap._smallest_chunk_word_size ∧ 0 < scenario_chunk.word_size ∧
      scenario_chunk.fits_address_space ∧
      scenario_ocmap._reference_address ≤ scenario_chunk.this_addr ∧
      (do_update_in_use_info_for_chunk scenario_chunk scenario_ocmap true).1.is_tagged_free =
        false ∧
      (do_update_in_use_info_for_chunk scenario_chunk scenario_ocmap true).2.is_region_in_use
        scenario_chunk.this_addr scenario_chunk.word_size = true ∧
      (do_update_in_use_info_for_chunk scenario_chunk scenario_ocmap true).1._top =
        scenario_chunk._top :=
  ⟨by decide, by decide, by decide, by decide,
    (do_update_in_use_info_for_chunk_spec scenario_chunk scenario_ocmap true (by decide)
      (by decide) (by decide) (by decide) (by decide) (by decide)).1,
    (do_update_in_use_info_for_chunk_spec scenario_chunk scenario_ocmap true (by decide)
      (by decide) (by decide) (by decide) (by decide) (by decide)).2.2.1,
    (do_update_in_use_info_for_chunk_spec scenario_chunk scenario_ocmap true (by decide)
      (by decide) (by decide) (by decide) (by decide) (by decide)).2.2.2.2.1⟩

end metaspace

/-- C15 for chunk size 2, claims returning 4 and 14, and three regions: the
writes go to the indices 4, 5 and 14, all different. -/
theorem CSetChooserParUpdater.add_region_writes_claimed_indices_witness :
    (CSetChooserParUpdater.construct true 2).add_regions (fun i => 10 * i + 4) 0
        [scenario_R1, scenario_R2, scenario_R3] =
      .ok ({ _parallel := true, _chunk_size := 2, _cur_chunk_idx := 15, _cur_chunk_end := 16,
             _regions_added := 3, _reclaimable_bytes_added := 2800 }, 2,
        [.claim_array_chunk 2, .set_region 4 scenario_R1, .set_region 5 scenario_R2,
          .claim_array_chunk 2, .set_region 14 scenario_R3]) ∧
      ∃ u1 n1 log,
        (CSetChooserParUpdater.construct true 2).add_regions (fun i => 10 * i + 4) 0
          [scenario_R1, scenario_R2, scenario_R3] = .ok (u1, n1, log) ∧
        log.filterMap ChooserCall.set_region_args =
          [(4, scenario_R1), (5, scenario_R2), (14, scenario_R3)] ∧
        ((log.filterMap ChooserCall.set_region_args).map Prod.fst).Nodup := by
  refine ⟨rfl, ?_⟩
  obtain ⟨u1, n1, log, h1, h2, _, _, _, h6⟩ :=
    CSetChooserParUpdater.add_region_writes_claimed_indices (fun i => 10 * i + 4) 2
      [scenario_R1, scenario_R2, scenario_R3] (by decide)
      (by
        intro i hi
        show 10 * i + 4 + 2 < 2 ^ 32
        simp only [List.length_cons, List.length_nil] at hi
        omega)
  refine ⟨u1, n1, log, h1, ?_, h6 ?_⟩
  · rw [h2]
    rfl
  · intro a b hab hb
    show 10 * a + 4 + 2 ≤ 10 * b + 4 ∨ 10 * b + 4 + 2 ≤ 10 * a + 4
    omega

/-- C16 for a parallel updater with chunk size 2 and three regions added: the
destructor calls `update_totals(3, 2800)` once; on a serial updater, or with
nothing added, it makes no call. -/
theorem CSetChooserParUpdater.destruct_spec_witness :
    [scenario_R1, scenario_R2, scenario_R3].length < 2 ^ 32 ∧
      ([scenario_R1, scenario_R2, scenario_R3].map HeapRegion.reclaimable_bytes).sum < 2 ^ 64 ∧
      (∀ u1 n1 log,
        (CSetChooserParUpdater.construct true 2).add_regions (fun i => 10 * i + 4) 0
            [scenario_R1, scenario_R2, scenario_R3] = .ok (u1, n1, log) →
          (∀ call ∈ log, call.is_update_totals = false) ∧
            u1.destruct =
              if true = true ∧ 1 ≤ [scenario_R1, scenario_R2, scenario_R3].length then
                [.update_totals [scenario_R1, scenario_R2, scenario_R3].length
                  ([scenario_R1, scenario_R2, scenario_R3].map HeapRegion.reclaimable_bytes).sum]
              else []) ∧
      CSetChooserParUpdater.destruct
        { _parallel := true, _chunk_size := 2, _cur_chunk_idx := 15, _cur_chunk_end := 16,
          _regions_added := 3, _reclaimable_bytes_added := 2800 } = [.update_totals 3 2800] ∧
      CSetChooserParUpdater.destruct
        { _parallel := false, _chunk_size := 2, _cur_chunk_idx := 0, _cur_chunk_end := 0,
          _regions_added := 3, _reclaimable_bytes_added := 2800 } = [] ∧
      (CSetChooserParUpdater.construct true 2).destruct = [] :=
  ⟨by decide, by decide,
    (CSetChooserParUpdater.destruct_spec (fun i => 10 * i + 4) true 2
      [scenario_R1, scenario_R2, scenario_R3] (by decide) (by decide)).2,
    by decide, by decide, by decide⟩

/-- C17 for 1 MiB regions and a threshold of 85 percent: 891289 bytes, at most
a region. -/
theorem CollectionSetChooser.mixed_gc_live_threshold_bytes_spec_witness :
    1048576 * 85 < 2 ^ 64 ∧
      CollectionSetChooser.mixed_gc_live_threshold_bytes 1048576 85 = 891289 ∧
      CollectionSetChooser.mixed_gc_live_threshold_bytes 1048576 85 = 1048576 * 85 / 100 ∧
      CollectionSetChooser.mixed_gc_live_threshold_bytes 1048576 85 ≤ 1048576 ∧
      CollectionSetChooser.mixed_gc_live_threshold_bytes 1048576 100 = 1048576 ∧
      CollectionSetChooser.mixed_gc_live_threshold_bytes 1048576 0 = 0 :=
  ⟨by decide, by decide,
    (CollectionSetChooser.mixed_gc_live_threshold_bytes_spec 1048576 85 (by decide)).1,
    (CollectionSetChooser.mixed_gc_live_threshold_bytes_spec 1048576 85 (by decide)).2.1
      (by decide),
    (CollectionSetChooser.mixed_gc_live_threshold_bytes_spec 1048576 100 (by decide)).2.2.2.1 rfl,
    (CollectionSetChooser.mixed_gc_live_threshold_bytes_spec 1048576 0 (by decide)).2.2.2.2 rfl⟩

/-- C18 at the scenario: sorting `[R1 = 500, R2 = 1500]` gives `[R2, R1]`. -/
theorem CollectionSetChooser.sort_regions_sorted_witness :
    scenario_unsorted_chooser._regions.length < 2 ^ 31 ∧
      scenario_unsorted_chooser._front ≤ scenario_unsorted_chooser._end ∧
      scenario_unsorted_chooser._end ≤ scenario_unsorted_chooser._regions.length ∧
      scenario_unsorted_chooser.sort_regions = scenario_chooser ∧
      scenario_unsorted_chooser.sort_regions.reclaimable_at 1 ≤
        scenario_unsorted_chooser.sort_regions.reclaimable_at 0 :=
  ⟨by decide, by decide, by decide, by decide,
    (CollectionSetChooser.sort_regions_sorted scenario_unsorted_chooser (by decide) (by decide)
      (by decide)).1 0 (by decide) (by decide)⟩

/-- C19 at the scenario: the pinned region R3 is not added, R1 and R2 are. -/
theorem CollectionSetChooser.should_add_spec_witness :
    scenario_R3.is_pinned = true ∧
      scenario_chooser.should_add scenario_R1 = true ∧
      scenario_chooser.should_add scenario_R2 = true ∧
      (scenario_chooser.should_add scenario_R3 = false ∧
        (CSetChooserParUpdater.construct true 2).should_add scenario_chooser scenario_R3 =
          false) :=
  ⟨by decide, by decide, by decide,
    (CollectionSetChooser.should_add_spec scenario_chooser
      (CSetChooserParUpdater.construct true 2) scenario_R3).2.2 (by decide)⟩

/-- C20 for three claims of 3 entries by workers 7, 8 and 7: they get the
indices 0, 3 and 6, and the cursor ends at 9. -/
theorem CollectionSetChooser.claim_all_disjoint_cover_witness :
    scenario_chooser._first_par_unreserved_idx = 0 ∧ [7, 8, 7].length * 3 < 2 ^ 32 ∧
      (scenario_chooser.claim_all 3 [7, 8, 7]).1 = [(7, 0), (8, 3), (7, 6)] ∧
      ((scenario_chooser.claim_all 3 [7, 8, 7]).1.map Prod.snd).Pairwise
        (fun a b => a + 3 ≤ b) ∧
      (scenario_chooser.claim_all 3 [7, 8, 7]).2._first_par_unreserved_idx =
        [7, 8, 7].length * 3 :=
  ⟨by decide, by decide, by decide,
    (CollectionSetChooser.claim_all_disjoint_cover scenario_chooser 3 [7, 8, 7] (by decide)
      (by decide)).2.2.1,
    (CollectionSetChooser.claim_all_disjoint_cover scenario_chooser 3 [7, 8, 7] (by decide)
      (by decide)).2.2.2.2.2⟩



/-- C21 for chunk size 2 and three regions: two claims, `ceil(3 / 2)`, both
with argument 2. -/
theorem CSetChooserParUpdater.claim_count_witness :
    ∃ u1 n1 log,
      (CSetChooserParUpdater.construct true 2).add_regions (fun i => 10 * i + 4) 0
        [scenario_R1, scenario_R2, scenario_R3] = .ok (u1, n1, log) ∧
      (log.filter ChooserCall.is_claim).length = 2 ∧
      log.filter ChooserCall.is_claim = [.claim_array_chunk 2, .claim_array_chunk 2] := by
  obtain ⟨u1, n1, log, h1, h2, _, _, h5⟩ :=
    CSetChooserParUpdater.claim_count (fun i => 10 * i + 4) 2
      [scenario_R1, scenario_R2, scenario_R3] (by decide)
      (by
        intro i hi
        show 10 * i + 4 + 2 < 2 ^ 32
        simp only [List.length_cons, List.length_nil] at hi
        omega)
  exact ⟨u1, n1, log, h1, h2, h5⟩

namespace metaspace

/-- C22 at the aligned scenario chunk: every condition holds and `verify()`
passes; the scenario chunk at address 4096 is not aligned to its 320 bytes and
fails the last assertion. -/
theorem Metachunk.verify_iff_witness :
    scenario_aligned_chunk.verify scenario_decls scenario_types = .ok () ∧
      scenario_chunk.verify scenario_decls scenario_types = .error .not_aligned :=
  ⟨(Metachunk.verify_iff scenario_decls scenario_types scenario_aligned_chunk).mpr
      ⟨by decide, by decide, by decide, by decide, fun _ => rfl, fun _ => by decide,
        fun h => absurd h (by decide)⟩,
    rfl⟩

/-- C23 at the scenario chunk in a memory that holds 7 everywhere: after
`mangle(0xf7f7f7f7)` the first payload word (address 4112) holds the pattern
and the first header word (address 4096) still holds 7. -/
theorem Metachunk.mangle_spec_witness :
    Metachunk.overhead scenario_decls ≤ scenario_chunk.word_size ∧
      scenario_chunk.fits_address_space ∧
      scenario_chunk.mangle scenario_decls (fun _ => 7) 0xf7f7f7f7 4112 = 0xf7f7f7f7f7f7f7f7 ∧
      scenario_chunk.mangle scenario_decls (fun _ => 7) 0xf7f7f7f7 4096 = 7 :=
  ⟨by decide, by decide,
    (Metachunk.mangle_spec scenario_decls scenario_chunk (fun _ => 7) 0xf7f7f7f7 (by decide)
      (by decide)).1 0 (by decide),
    (Metachunk.mangle_spec scenario_decls scenario_chunk (fun _ => 7) 0xf7f7f7f7 (by decide)
      (by decide)).2.2.1 0 (by decide)⟩

/-- C27 for the scenario chunk: a fresh chunk of 40 words with a two-word
header has 2 words used and 38 free. -/
theorem Metachunk.construct_spec_witness :
    Metachunk.overhead scenario_decls ≤ 40 ∧ 4096 + 40 * sizeof_MetaWord < 2 ^ 64 ∧
      (Metachunk.construct scenario_decls 4096 0 false 40 0)._top = 4112 ∧
      (Metachunk.construct scenario_decls 4096 0 false 40 0).used_word_size =
        Metachunk.overhead scenario_decls ∧
      (Metachunk.construct scenario_decls 4096 0 false 40 0).free_word_size =
        40 - Metachunk.overhead scenario_decls ∧
      (Metachunk.construct scenario_decls 4096 0 false 40 0).top_in_bounds :=
  ⟨by decide, by decide, by decide,
    (Metachunk.construct_spec scenario_decls 4096 0 false 40 0 (by decide)
      (by decide)).2.2.2.2.2.2.2.2.2.2.1,
    (Metachunk.construct_spec scenario_decls 4096 0 false 40 0 (by decide)
      (by decide)).2.2.2.2.2.2.2.2.2.2.2.1,
    (Metachunk.construct_spec scenario_decls 4096 0 false 40 0 (by decide)
      (by decide)).2.2.2.2.2.2.2.2.2.2.2.2⟩

end metaspace

/-- C24 for the `jlong` 0x1122334455667788 at position 3: slot 3 gets
0x11223344, slot 4 gets 0x55667788, and `pos` becomes 5. -/
theorem JNITypes.put_long_spec_witness :
    (0x1122334455667788 : Nat) < 2 ^ 64 ∧ -(2 ^ 31) ≤ (3 : Int) ∧ (3 : Int) + 2 < 2 ^ 31 ∧
      (JNITypes.put_long 0x1122334455667788 (fun _ => 0) 3).1 3 = 0x11223344 ∧
      (JNITypes.put_long 0x1122334455667788 (fun _ => 0) 3).1 (3 + 1) = 0x55667788 ∧
      (JNITypes.put_long 0x1122334455667788 (fun _ => 0) 3).2 = 3 + 2 :=
  ⟨by decide, by decide, by decide,
    (JNITypes.put_long_spec 0x1122334455667788 (fun _ => 0) 3 (by decide) (by decide)
      (by decide)).1,
    (JNITypes.put_long_spec 0x1122334455667788 (fun _ => 0) 3 (by decide) (by decide)
      (by decide)).2.1,
    (JNITypes.put_long_spec 0x1122334455667788 (fun _ => 0) 3 (by decide) (by decide)
      (by decide)).2.2.2.1⟩

/-- C25 at the scenario chooser: the assertions of `pop()` hold, and
afterwards `_front = 1 <= _end = 2`. -/
theorem CollectionSetChooser.pop_assertions_hold_witness :
    scenario_chooser.well_typed ∧ scenario_chooser._front < scenario_chooser._end ∧
      scenario_chooser._remaining_reclaimable_bytes = scenario_chooser.reclaimable_sum ∧
      ∃ hr c1, scenario_chooser.regions_at scenario_chooser._front = .ok (some hr) ∧
        scenario_chooser._front < scenario_chooser._end ∧
        hr.reclaimable_bytes ≤ scenario_chooser._remaining_reclaimable_bytes ∧
        scenario_chooser.pop = .ok (hr, c1) ∧
        c1._remaining_reclaimable_bytes + hr.reclaimable_bytes =
          scenario_chooser._remaining_reclaimable_bytes ∧
        c1._front ≤ c1._end ∧ c1.length = scenario_chooser.length :=
  ⟨by decide, by decide, by decide,
    CollectionSetChooser.pop_assertions_hold scenario_chooser (by decide) (by decide)
      scenario_chooser_active_non_null (by decide)⟩

/-- C26 for chunk size 2 and three regions: all three calls return, with
`_cur_chunk_idx <= _cur_chunk_end` afterwards; with chunk size 0 the first
call fails its assertion. -/
theorem CSetChooserParUpdater.add_region_assertion_witness :
    (∃ u1 n1 log,
        (CSetChooserParUpdater.construct true 2).add_regions (fun i => 10 * i + 4) 0
          ([scenario_R1, scenario_R2, scenario_R3].take 3) = .ok (u1, n1, log) ∧
        u1._cur_chunk_idx ≤ u1._cur_chunk_end) ∧
      (CSetChooserParUpdater.construct true 0).add_region scenario_R1 4 =
        .error .assert_cur_chunk_idx_lt_cur_chunk_end :=
  ⟨(CSetChooserParUpdater.add_region_assertion (fun i => 10 * i + 4) 2
      [scenario_R1, scenario_R2, scenario_R3] (by decide)
      (by
        intro i hi
        show 10 * i + 4 + 2 < 2 ^ 32
        simp only [List.length_cons, List.length_nil] at hi
        omega)).1 3 (by decide),
    rfl⟩

/-- C29 for an object at address 4096 and allocation type 2: the type is
decoded back and `is_type_set()` is true. -/
theorem ResourceObj.set_allocation_type_roundtrip_witness :
    (4096 : Nat) < 2 ^ 64 ∧ 4096 &&& ResourceObj.allocation_mask = 0 ∧
      2 ≤ ResourceObj.allocation_mask ∧
      (∃ o1, (ResourceObj.mk 4096 0 0).set_allocation_type 2 = .ok o1 ∧
        o1.this_addr = 4096 ∧
        uintptr_not (o1._allocation_t_0 ||| ResourceObj.allocation_mask) = 4096 ∧
        o1.get_allocation_type = .ok 2 ∧
        (2 ≠ ResourceObj.STACK_OR_EMBEDDED → o1.is_type_set = .ok true)) ∧
      (ResourceObj.mk 4096 0 0).set_allocation_type 2 =
        .ok (ResourceObj.mk 4096 18446744073709547517 4106) :=
  ⟨by decide, by decide, by decide,
    ResourceObj.set_allocation_type_roundtrip (ResourceObj.mk 4096 0 0) 2 (by decide)
      (by decide) (by decide),
    rfl⟩

/-- C30 with a 64 KiB stack buffer and a 128 KiB heap limit: a request of
200000 bytes reads at most 131072 bytes into a heap block of that size, or at
most 65536 bytes into `BUF` when `malloc` fails. -/
theorem socketRead0_select_buffer_spec_witness :
    (0 : Int) < 65536 ∧ (0 : Int) ≤ 131072 ∧
      socketRead0_select_buffer 65536 131072 (fun _ => 77) 200000 =
        (ReadBuffer.heap 77 131072, 131072) ∧
      socketRead0_select_buffer 65536 131072 (fun _ => 0) 200000 = (ReadBuffer.BUF, 65536) ∧
      (socketRead0_select_buffer 65536 131072 (fun _ => 77) 200000).2 ≤
        (socketRead0_select_buffer 65536 131072 (fun _ => 77) 200000).1.capacity 65536 :=
  ⟨by decide, by decide, rfl, rfl,
    (socketRead0_select_buffer_spec 65536 131072 (fun _ => 77) 200000 (by decide) (by decide)
      (by decide) (by decide)).1⟩
